import Mathlib

/-!
Shallow embedding of the warehouse inventory ledger of
`backend/app/services/{inventory,movement,reservation,transfer,expiry}.py`.

Conventions of the embedding:

* Quantities are `Numeric(10, 2)` decimals in the source.  The services only
  ever add, subtract, take `min` and compare them, operations under which the
  set of two-decimal values is closed, so quantities are modelled as `Int`
  (the exact value in hundredths).
* Dates (`use_by_date`, `today`) and timestamps (`received_date`,
  `reserved_until`, `now`) are modelled as `Int` (days, resp. an abstract
  totally ordered clock).
* Database rows are records in lists; UUID primary keys are modelled by a
  `Nat` id drawn from a fresh-id counter `next_id` of the state.
* Each service function takes the state and returns
  `Except LedgerError β × WhState`; the second component is the session state
  at the moment the function returns or raises, mirroring the statement order
  of the Python source (so an error state differs from the input state exactly
  when the source mutated before raising).  `execOp` commits the new state on
  success and rolls the transaction back on an exception, as the storage layer
  does.
* Error values name the message keys of `app/core/i18n.py` raised by the
  services.
-/

/-- Error kinds, one per distinct `ValueError` message raised by the services
(`HU_MESSAGES`, `HU_RESERVATION_MESSAGES`, `HU_TRANSFER_MESSAGES` keys, plus
the two inline f-string messages of `inventory.py`). -/
inductive LedgerError where
  | binNotFound
  | binInactive
  | binAlreadyOccupied
  | productNotFound
  | supplierNotFound
  | binContentNotFound
  | insufficientQuantity
  | invalidQuantity
  | productExpired
  | fefoViolation
  | fefoOverrideRequired
  | insufficientAvailable
  | reservedQuantityViolation
  | warehouseNotFound
  | reservationNoStock
  | reservationNotFound
  | reservationAlreadyFulfilled
  | reservationAlreadyCancelled
  | reservationExpired
  | transferNotFound
  | transferInsufficientQuantity
  | transferDifferentWarehouse
  | transferSameBin
  | transferTargetOccupied
  | transferAlreadyCompleted
  | transferAlreadyCancelled
  | transferNotDispatched
deriving DecidableEq, Repr

/-- Row of `warehouses` (only the id is relevant to the ledger). -/
structure Warehouse where
  id : Nat
deriving DecidableEq, Repr

/-- Row of `bins` (`app/db/models/bin.py`), the fields the ledger reads. -/
structure Bin where
  id : Nat
  warehouse_id : Nat
  is_active : Bool
  status : String
deriving DecidableEq, Repr

/-- Row of `products`, the fields the ledger reads. -/
structure Product where
  id : Nat
  is_active : Bool
deriving DecidableEq, Repr

/-- Row of `suppliers`, the fields the ledger reads. -/
structure Supplier where
  id : Nat
  is_active : Bool
deriving DecidableEq, Repr

/-- Row of `bin_contents` (`app/db/models/bin_content.py` plus the
`reserved_quantity` column added by the phase-4 migration, whose server
default is `0`). -/
structure BinContent where
  id : Nat
  bin_id : Nat
  product_id : Nat
  supplier_id : Option Nat
  batch_number : String
  use_by_date : Int
  received_date : Int
  quantity : Int
  reserved_quantity : Int
  status : String
deriving DecidableEq, Repr

/-- Row of `bin_movements` (`app/db/models/bin_movement.py`), the fields
written by `create_movement`. -/
structure BinMovement where
  bin_content_id : Nat
  movement_type : String
  quantity : Int
  quantity_before : Int
  quantity_after : Int
  reason : String
  fefo_compliant : Option Bool
  force_override : Bool
deriving DecidableEq, Repr

/-- Row of `reservation_items`. -/
structure ReservationItem where
  bin_content_id : Nat
  quantity_reserved : Int
deriving DecidableEq, Repr

/-- Row of `stock_reservations`, with its owned `reservation_items` inlined. -/
structure StockReservation where
  id : Nat
  product_id : Nat
  total_quantity : Int
  reserved_until : Int
  status : String
  items : List ReservationItem
deriving DecidableEq, Repr

/-- Row of `warehouse_transfers`. -/
structure WarehouseTransfer where
  id : Nat
  source_warehouse_id : Nat
  source_bin_id : Nat
  source_bin_content_id : Nat
  target_warehouse_id : Nat
  target_bin_id : Option Nat
  quantity_sent : Int
  quantity_received : Option Int
  status : String
deriving DecidableEq, Repr

/-- The database state the ledger services read and write. -/
structure WhState where
  warehouses : List Warehouse
  bins : List Bin
  products : List Product
  suppliers : List Supplier
  records : List BinContent
  movements : List BinMovement
  reservations : List StockReservation
  transfers : List WarehouseTransfer
  next_id : Nat
deriving DecidableEq, Repr

/-- Request body of `ReceiveRequest` (`app/schemas/inventory.py`), the fields
the service reads; the pydantic validation `quantity > 0` is
`ReceiveRequest.wf` below. -/
structure ReceiveRequest where
  bin_id : Nat
  product_id : Nat
  supplier_id : Option Nat
  batch_number : String
  use_by_date : Int
  quantity : Int
deriving DecidableEq, Repr

/-- Pydantic field constraint of `ReceiveRequest`: `quantity: gt=0`. -/
def ReceiveRequest.wf (r : ReceiveRequest) : Prop := 0 < r.quantity

/-- Request body of `IssueRequest`. -/
structure IssueRequest where
  bin_content_id : Nat
  quantity : Int
  reason : String
  force_non_fefo : Bool
  override_reason : Option String
deriving DecidableEq, Repr

/-- Pydantic field constraint of `IssueRequest`: `quantity: gt=0`. -/
def IssueRequest.wf (r : IssueRequest) : Prop := 0 < r.quantity

/-- Request body of `AdjustmentRequest`. -/
structure AdjustmentRequest where
  bin_content_id : Nat
  new_quantity : Int
  reason : String
deriving DecidableEq, Repr

/-- Pydantic field constraint of `AdjustmentRequest`: `new_quantity: ge=0`. -/
def AdjustmentRequest.wf (r : AdjustmentRequest) : Prop := 0 ≤ r.new_quantity

/-- Request body of `ScrapRequest`. -/
structure ScrapRequest where
  bin_content_id : Nat
  reason : String
deriving DecidableEq, Repr

/-- Request body of `ReservationCreate` (`app/schemas/reservation.py`). -/
structure ReservationCreate where
  product_id : Nat
  quantity : Int
  reserved_until : Int
deriving DecidableEq, Repr

/-- Pydantic field constraint of `ReservationCreate`: `quantity: gt=0`. -/
def ReservationCreate.wf (r : ReservationCreate) : Prop := 0 < r.quantity

/-- Request body of `TransferCreate` (same-warehouse transfer). -/
structure TransferCreate where
  source_bin_content_id : Nat
  target_bin_id : Nat
  quantity : Int
deriving DecidableEq, Repr

/-- Pydantic field constraint of `TransferCreate`: `quantity: gt=0`. -/
def TransferCreate.wf (r : TransferCreate) : Prop := 0 < r.quantity

/-- Request body of `CrossWarehouseTransferCreate`. -/
structure CrossWarehouseTransferCreate where
  source_bin_content_id : Nat
  target_warehouse_id : Nat
  target_bin_id : Option Nat
  quantity : Int
deriving DecidableEq, Repr

/-- Pydantic field constraint of `CrossWarehouseTransferCreate`:
`quantity: gt=0`. -/
def CrossWarehouseTransferCreate.wf (r : CrossWarehouseTransferCreate) : Prop :=
  0 < r.quantity

/-- Request body of `TransferConfirmRequest`. -/
structure TransferConfirmRequest where
  target_bin_id : Nat
  received_quantity : Int
deriving DecidableEq, Repr

/-- Pydantic field constraint of `TransferConfirmRequest`:
`received_quantity: gt=0`. -/
def TransferConfirmRequest.wf (r : TransferConfirmRequest) : Prop :=
  0 < r.received_quantity

/-- Lookup of a bin by primary key (`get_bin_by_id`). -/
def findBin (s : WhState) (i : Nat) : Option Bin :=
  s.bins.find? (fun b => b.id == i)

/-- Lookup of a product by primary key (`get_product_by_id`). -/
def findProduct (s : WhState) (i : Nat) : Option Product :=
  s.products.find? (fun p => p.id == i)

/-- Lookup of a supplier by primary key (`get_supplier_by_id`). -/
def findSupplier (s : WhState) (i : Nat) : Option Supplier :=
  s.suppliers.find? (fun p => p.id == i)

/-- Lookup of a `bin_contents` row by primary key. -/
def findRecord (s : WhState) (i : Nat) : Option BinContent :=
  s.records.find? (fun c => c.id == i)

/-- Lookup of a `stock_reservations` row by primary key. -/
def findReservation (s : WhState) (i : Nat) : Option StockReservation :=
  s.reservations.find? (fun r => r.id == i)

/-- Lookup of a `warehouse_transfers` row by primary key. -/
def findTransfer (s : WhState) (i : Nat) : Option WarehouseTransfer :=
  s.transfers.find? (fun t => t.id == i)

/-- Pointwise update of the `bin_contents` rows whose id is `i`. -/
def updRecords (rs : List BinContent) (i : Nat) (f : BinContent → BinContent) :
    List BinContent :=
  rs.map (fun r => if r.id = i then f r else r)

/-- State update of the `bin_contents` row with id `i`. -/
def updateRecord (s : WhState) (i : Nat) (f : BinContent → BinContent) : WhState :=
  { s with records := updRecords s.records i f }

/-- Append a `bin_movements` row (`create_movement`: the audit trail is
append-only, rows are inserted and never updated or deleted). -/
def addMovement (s : WhState) (m : BinMovement) : WhState :=
  { s with movements := s.movements ++ [m] }

/-- Set the status of the bin with id `i`, a no-op when no such bin exists
(mirroring the `if bin:` guards of the source). -/
def updBinStatus (s : WhState) (i : Nat) (st : String) : WhState :=
  { s with bins := s.bins.map (fun b => if b.id = i then { b with status := st } else b) }

/-- Query of `receive_goods` step 1 / `transfer` step 7: does some
`bin_contents` row hold a different product with non-zero quantity in bin
`i`? -/
def occupiedByOther (s : WhState) (i : Nat) (pid : Nat) : Bool :=
  s.records.any (fun c => c.bin_id == i && !(c.product_id == pid) && decide (0 < c.quantity))

/-- Strict lexicographic comparison of char lists, the order a `String` column
sorts by under `ORDER BY ... ASC`. -/
def charListLt : List Char → List Char → Bool
  | [], [] => false
  | [], _ :: _ => true
  | _ :: _, [] => false
  | a :: as, b :: bs => if a < b then true else if b < a then false else charListLt as bs

/-- Strict lexicographic comparison of strings (batch numbers). -/
def strLtB (a b : String) : Bool := charListLt a.data b.data

/-- FEFO sort key comparison, non-strict: `use_by_date` ascending, then
`batch_number` ascending, then `received_date` ascending — the
`order_by` of `create_reservation` step 2. -/
def fefoLeB (a b : BinContent) : Bool :=
  if a.use_by_date < b.use_by_date then true
  else if b.use_by_date < a.use_by_date then false
  else if strLtB a.batch_number b.batch_number then true
  else if strLtB b.batch_number a.batch_number then false
  else a.received_date ≤ b.received_date

/-- FEFO sort key comparison as a relation, for `List.insertionSort`. -/
def fefoLe (a b : BinContent) : Prop := fefoLeB a b = true

instance : DecidableRel fefoLe := fun a b => by
  unfold fefoLe; infer_instance

/-- FEFO sort key comparison, strict: `a` has strictly earlier FEFO priority
than `b`. -/
def fefoLtB (a b : BinContent) : Bool :=
  if a.use_by_date < b.use_by_date then true
  else if b.use_by_date < a.use_by_date then false
  else if strLtB a.batch_number b.batch_number then true
  else if strLtB b.batch_number a.batch_number then false
  else a.received_date < b.received_date

/-- The `WHERE` clause of `create_reservation` step 2: `bin_contents` rows of
the product that are `available`, have `quantity > reserved_quantity` and are
not expired (`use_by_date >= today`). -/
def fefoEligible (s : WhState) (pid : Nat) (today : Int) : List BinContent :=
  s.records.filter (fun c =>
    c.product_id == pid && decide (c.status = "available") &&
      decide (c.reserved_quantity < c.quantity) && decide (today ≤ c.use_by_date))

/-- The FEFO-ordered list of allocatable rows: the rows of `fefoEligible`
sorted by the three-part FEFO key. -/
def fefoSorted (s : WhState) (pid : Nat) (today : Int) : List BinContent :=
  List.insertionSort fefoLe (fefoEligible s pid today)

/-- Modelled from the spec: `is_fefo_compliant` lives in
`app/services/fefo.py`, which is not among the provided sources (only its
use in `inventory.py`).  Following §4.3 of the spec, issuing from a given
record is FEFO-compliant unless some *other* eligible record of the same
product has strictly earlier FEFO priority (earlier use-by date, or
tie-broken by batch number then received timestamp). -/
def is_fefo_compliant (s : WhState) (bc : BinContent) (today : Int) : Bool :=
  !((fefoEligible s bc.product_id today).any (fun o => !(o.id == bc.id) && fefoLtB o bc))

/-- The allocation loop of `create_reservation` step 3: walk the FEFO-sorted
rows, stop when nothing remains to allocate (`break`), skip rows with
non-positive availability (`continue`), otherwise take
`min(available, remaining)`. -/
def allocateGreedy : Int → List BinContent → List (BinContent × Int)
  | _, [] => []
  | remaining, c :: rest =>
    if remaining ≤ 0 then []
    else
      let available := c.quantity - c.reserved_quantity
      if available ≤ 0 then allocateGreedy remaining rest
      else (c, min available remaining) :: allocateGreedy (remaining - min available remaining) rest

/-- The FEFO allocation plan for `(product, requested_qty)`: the greedy walk
over the FEFO-sorted eligible rows. -/
def fefoPlan (s : WhState) (pid : Nat) (qty : Int) (today : Int) :
    List (BinContent × Int) :=
  allocateGreedy qty (fefoSorted s pid today)

/-- Loop of `create_reservation` step 5: increment `reserved_quantity` on each
allocated row. -/
def reserveAlloc (alloc : List (BinContent × Int)) (rs : List BinContent) :
    List BinContent :=
  alloc.foldl
    (fun rs p =>
      updRecords rs p.1.id (fun c => { c with reserved_quantity := c.reserved_quantity + p.2 }))
    rs

/-- Release loop of `cancel_reservation` step 2 / `cleanup_expired_reservations`:
decrement `reserved_quantity` of each item's row. -/
def releaseItems (items : List ReservationItem) (rs : List BinContent) :
    List BinContent :=
  items.foldl
    (fun rs it =>
      updRecords rs it.bin_content_id
        (fun c => { c with reserved_quantity := c.reserved_quantity - it.quantity_reserved }))
    rs

/-- Service `receive_goods` (`app/services/inventory.py`).  Returns the id of
the created or updated `bin_contents` row.  `now` is `datetime.now(UTC)`
(stamped as `received_date` of a newly created row). -/
def receive_goods (s : WhState) (req : ReceiveRequest) (now : Int) :
    Except LedgerError Nat × WhState :=
  match findBin s req.bin_id with
  | none => (.error .binNotFound, s)
  | some binObj =>
    if binObj.is_active = false then (.error .binInactive, s)
    else if occupiedByOther s req.bin_id req.product_id then (.error .binAlreadyOccupied, s)
    else match findProduct s req.product_id with
    | none => (.error .productNotFound, s)
    | some product =>
      if product.is_active = false then (.error .productNotFound, s)
      else if (match req.supplier_id with
        | none => false
        | some sid =>
          match findSupplier s sid with
          | none => true
          | some sup => sup.is_active = false) then (.error .supplierNotFound, s)
      else match s.records.find? (fun c =>
          c.bin_id == req.bin_id && c.product_id == req.product_id &&
            c.batch_number == req.batch_number) with
      | some bc =>
        let s1 := addMovement
          (updateRecord s bc.id (fun c => { c with quantity := c.quantity + req.quantity }))
          ⟨bc.id, "receipt", req.quantity, bc.quantity, bc.quantity + req.quantity,
            "supplier_delivery", none, false⟩
        (.ok bc.id, updBinStatus s1 req.bin_id "occupied")
      | none =>
        let bc : BinContent :=
          ⟨s.next_id, req.bin_id, req.product_id, req.supplier_id, req.batch_number,
            req.use_by_date, now, req.quantity, 0, "available"⟩
        let s1 := addMovement
          { s with records := s.records ++ [bc], next_id := s.next_id + 1 }
          ⟨bc.id, "receipt", req.quantity, 0, req.quantity, "supplier_delivery", none, false⟩
        (.ok bc.id, updBinStatus s1 req.bin_id "occupied")

/-- Service `issue_goods` (`app/services/inventory.py`).  `today` is
`date.today()`; `user_role` gates the FEFO override. -/
def issue_goods (s : WhState) (req : IssueRequest) (today : Int) (user_role : String) :
    Except LedgerError Nat × WhState :=
  match findRecord s req.bin_content_id with
  | none => (.error .binContentNotFound, s)
  | some bc =>
    if bc.quantity < req.quantity then (.error .insufficientQuantity, s)
    else if req.quantity ≤ 0 then (.error .invalidQuantity, s)
    else if bc.use_by_date < today then (.error .productExpired, s)
    else if is_fefo_compliant s bc today = false ∧ req.force_non_fefo = false then
      (.error .fefoViolation, s)
    else if is_fefo_compliant s bc today = false ∧ req.force_non_fefo = true ∧
        ¬(user_role = "admin" ∨ user_role = "manager") then
      (.error .fefoOverrideRequired, s)
    else if is_fefo_compliant s bc today = false ∧ req.force_non_fefo = true ∧
        (req.override_reason = none ∨ req.override_reason = some "") then
      (.error .fefoOverrideRequired, s)
    else if bc.quantity - bc.reserved_quantity < req.quantity then
      (.error .insufficientAvailable, s)
    else
      let s1 := addMovement
        (updateRecord s bc.id (fun c => { c with quantity := c.quantity - req.quantity }))
        ⟨bc.id, "issue", -req.quantity, bc.quantity, bc.quantity - req.quantity, req.reason,
          some (is_fefo_compliant s bc today), req.force_non_fefo⟩
      let s2 := if bc.quantity - req.quantity = 0 then updBinStatus s1 bc.bin_id "empty" else s1
      (.ok bc.id, s2)

/-- Service `adjust_stock` (`app/services/inventory.py`). -/
def adjust_stock (s : WhState) (req : AdjustmentRequest) :
    Except LedgerError Nat × WhState :=
  match findRecord s req.bin_content_id with
  | none => (.error .binContentNotFound, s)
  | some bc =>
    if req.new_quantity < bc.reserved_quantity then (.error .reservedQuantityViolation, s)
    else
      let s1 := addMovement
        (updateRecord s bc.id (fun c => { c with quantity := req.new_quantity }))
        ⟨bc.id, "adjustment", req.new_quantity - bc.quantity, bc.quantity, req.new_quantity,
          req.reason, none, false⟩
      let s2 := updBinStatus s1 bc.bin_id (if req.new_quantity = 0 then "empty" else "occupied")
      (.ok bc.id, s2)

/-- Service `scrap_stock` (`app/services/inventory.py`): zero the quantity,
mark the row `scrapped`, record the pre-scrap quantity as a negative delta.
The source performs no check against `reserved_quantity`. -/
def scrap_stock (s : WhState) (req : ScrapRequest) :
    Except LedgerError Nat × WhState :=
  match findRecord s req.bin_content_id with
  | none => (.error .binContentNotFound, s)
  | some bc =>
    let s1 := addMovement
      (updateRecord s bc.id (fun c => { c with quantity := 0, status := "scrapped" }))
      ⟨bc.id, "scrap", -bc.quantity, bc.quantity, 0, req.reason, none, false⟩
    (.ok bc.id, updBinStatus s1 bc.bin_id "empty")

/-- Service `create_reservation` (`app/services/reservation.py`): FEFO-plan the
request, create the reservation with one item per allocation, increment
`reserved_quantity` on each allocated row.  Returns the new reservation id and
the `is_partial` flag. -/
def create_reservation (s : WhState) (req : ReservationCreate) (today : Int) :
    Except LedgerError (Nat × Bool) × WhState :=
  match findProduct s req.product_id with
  | none => (.error .productNotFound, s)
  | some product =>
    if product.is_active = false then (.error .productNotFound, s)
    else if fefoSorted s req.product_id today = [] then (.error .reservationNoStock, s)
    else
      let allocated := allocateGreedy req.quantity (fefoSorted s req.product_id today)
      if allocated = [] then (.error .reservationNoStock, s)
      else
        let total_reserved := (allocated.map (fun p => p.2)).sum
        let reservation : StockReservation :=
          ⟨s.next_id, req.product_id, total_reserved, req.reserved_until, "active",
            allocated.map (fun p => ⟨p.1.id, p.2⟩)⟩
        let s1 : WhState :=
          { s with reservations := s.reservations ++ [reservation], next_id := s.next_id + 1 }
        let s2 : WhState := { s1 with records := reserveAlloc allocated s1.records }
        (.ok (reservation.id, decide (total_reserved < req.quantity)), s2)

/-- Fulfillment loop of `fulfill_reservation` step 2: per item, decrement
`quantity` and `reserved_quantity` of the backing row, flip its bin to
`empty` when depleted, and write an `issue` movement for the exact item
quantity.  (The relationship lookup `item.bin_content` is a no-op skip when
the row does not exist, which referential integrity rules out.) -/
def fulfillItems : List ReservationItem → WhState → WhState
  | [], s => s
  | it :: rest, s =>
    match findRecord s it.bin_content_id with
    | none => fulfillItems rest s
    | some bc =>
      let s1 := addMovement
        (updateRecord s bc.id (fun c =>
          { c with quantity := c.quantity - it.quantity_reserved,
                   reserved_quantity := c.reserved_quantity - it.quantity_reserved }))
        ⟨bc.id, "issue", -it.quantity_reserved, bc.quantity,
          bc.quantity - it.quantity_reserved, "reservation_fulfillment", some true, false⟩
      let s2 := if bc.quantity - it.quantity_reserved ≤ 0 then updBinStatus s1 bc.bin_id "empty" else s1
      fulfillItems rest s2

/-- Service `fulfill_reservation` (`app/services/reservation.py`). -/
def fulfill_reservation (s : WhState) (rid : Nat) :
    Except LedgerError Nat × WhState :=
  match findReservation s rid with
  | none => (.error .reservationNotFound, s)
  | some res =>
    if res.status = "fulfilled" then (.error .reservationAlreadyFulfilled, s)
    else if res.status = "cancelled" then (.error .reservationAlreadyCancelled, s)
    else if res.status = "expired" then (.error .reservationExpired, s)
    else
      let s1 := fulfillItems res.items s
      let s2 : WhState :=
        { s1 with reservations := (s1.reservations.map
            (fun r => if r.id = rid then { r with status := "fulfilled" } else r)) }
      (.ok rid, s2)

/-- Service `cancel_reservation` (`app/services/reservation.py`): release every
item's reserved amount (no quantity movement) and mark the reservation
`cancelled`. -/
def cancel_reservation (s : WhState) (rid : Nat) :
    Except LedgerError Nat × WhState :=
  match findReservation s rid with
  | none => (.error .reservationNotFound, s)
  | some res =>
    if res.status = "fulfilled" then (.error .reservationAlreadyFulfilled, s)
    else if res.status = "cancelled" then (.error .reservationAlreadyCancelled, s)
    else if res.status = "expired" then (.error .reservationExpired, s)
    else
      let s1 : WhState := { s with records := releaseItems res.items s.records }
      let s2 : WhState :=
        { s1 with reservations := (s1.reservations.map
            (fun r => if r.id = rid then { r with status := "cancelled" } else r)) }
      (.ok rid, s2)

/-- Service `cleanup_expired_reservations` (`app/services/reservation.py`): for
every `active` reservation with `reserved_until < now`, release its items'
reserved amounts and set its status to `expired`; return the count. -/
def cleanup_expired_reservations (s : WhState) (now : Int) :
    Except LedgerError Nat × WhState :=
  let expired := s.reservations.filter
    (fun r => decide (r.status = "active") && decide (r.reserved_until < now))
  let s1 : WhState :=
    { s with
      records := expired.foldl (fun rs r => releaseItems r.items rs) s.records,
      reservations := (s.reservations.map
        (fun r =>
          if r.status = "active" ∧ r.reserved_until < now then { r with status := "expired" }
          else r)) }
  (.ok expired.length, s1)

/-- Service `transfer_within_warehouse` (`app/services/transfer.py`): the
single-step same-warehouse transfer.  Returns the id of the target
`bin_contents` row. -/
def transfer_within_warehouse (s : WhState) (req : TransferCreate) :
    Except LedgerError Nat × WhState :=
  match findRecord s req.source_bin_content_id with
  | none => (.error .binContentNotFound, s)
  | some src =>
    if src.quantity - src.reserved_quantity < req.quantity then
      (.error .transferInsufficientQuantity, s)
    else match findBin s req.target_bin_id with
    | none => (.error .binNotFound, s)
    | some targetBin =>
      match findBin s src.bin_id with
      | none => (.error .binNotFound, s)
      | some srcBin =>
        if ¬(srcBin.warehouse_id = targetBin.warehouse_id) then
          (.error .transferDifferentWarehouse, s)
        else if src.bin_id = targetBin.id then (.error .transferSameBin, s)
        else if targetBin.is_active = false then (.error .binInactive, s)
        else if occupiedByOther s targetBin.id src.product_id then
          (.error .transferTargetOccupied, s)
        else match s.records.find? (fun c =>
            c.bin_id == targetBin.id && c.product_id == src.product_id &&
              c.batch_number == src.batch_number) with
        | some tgt =>
          let s1 := addMovement
            (updateRecord s src.id (fun c => { c with quantity := c.quantity - req.quantity }))
            ⟨src.id, "transfer", -req.quantity, src.quantity, src.quantity - req.quantity,
              "transfer_out", none, false⟩
          let s2 := if src.quantity - req.quantity ≤ 0 then updBinStatus s1 src.bin_id "empty" else s1
          let s3 := addMovement
            (updateRecord s2 tgt.id (fun c => { c with quantity := c.quantity + req.quantity }))
            ⟨tgt.id, "transfer", req.quantity, tgt.quantity, tgt.quantity + req.quantity,
              "transfer_in", none, false⟩
          (.ok tgt.id, updBinStatus s3 targetBin.id "occupied")
        | none =>
          let tgt : BinContent :=
            ⟨s.next_id, targetBin.id, src.product_id, src.supplier_id, src.batch_number,
              src.use_by_date, src.received_date, req.quantity, 0, "available"⟩
          let s1 := addMovement
            (updateRecord s src.id (fun c => { c with quantity := c.quantity - req.quantity }))
            ⟨src.id, "transfer", -req.quantity, src.quantity, src.quantity - req.quantity,
              "transfer_out", none, false⟩
          let s2 := if src.quantity - req.quantity ≤ 0 then updBinStatus s1 src.bin_id "empty" else s1
          let s3 := addMovement
            { s2 with records := s2.records ++ [tgt], next_id := s2.next_id + 1 }
            ⟨tgt.id, "transfer", req.quantity, 0, req.quantity, "transfer_in", none, false⟩
          (.ok tgt.id, updBinStatus s3 targetBin.id "occupied")

/-- Service `create_cross_warehouse_transfer` (`app/services/transfer.py`):
decrement the source immediately, persist a `pending` transfer with
`quantity_sent`, write the outbound movement.  Returns the new transfer id. -/
def create_cross_warehouse_transfer (s : WhState)
    (req : CrossWarehouseTransferCreate) : Except LedgerError Nat × WhState :=
  match findRecord s req.source_bin_content_id with
  | none => (.error .binContentNotFound, s)
  | some src =>
    if src.quantity - src.reserved_quantity < req.quantity then
      (.error .transferInsufficientQuantity, s)
    else if (s.warehouses.find? (fun w => w.id == req.target_warehouse_id)) = none then
      (.error .warehouseNotFound, s)
    else match findBin s src.bin_id with
    | none => (.error .binNotFound, s)
    | some srcBin =>
      if srcBin.warehouse_id = req.target_warehouse_id then (.error .transferSameBin, s)
      else match (match req.target_bin_id with
        | none => Except.ok (none : Option Nat)
        | some tbid =>
          match s.bins.find? (fun (b : Bin) => b.id == tbid && b.warehouse_id == req.target_warehouse_id) with
          | none => Except.error LedgerError.binNotFound
          | some tb =>
            if tb.is_active = false then Except.error LedgerError.binInactive
            else Except.ok (some tb.id)) with
      | .error e => (.error e, s)
      | .ok target_bin_id =>
        let s1 := updateRecord s src.id (fun c => { c with quantity := c.quantity - req.quantity })
        let s2 := if src.quantity - req.quantity ≤ 0 then updBinStatus s1 src.bin_id "empty" else s1
        let transfer : WarehouseTransfer :=
          ⟨s.next_id, srcBin.warehouse_id, src.bin_id, src.id, req.target_warehouse_id,
            target_bin_id, req.quantity, none, "pending"⟩
        let s3 : WhState :=
          { s2 with transfers := s2.transfers ++ [transfer], next_id := s2.next_id + 1 }
        let s4 := addMovement s3
          ⟨src.id, "transfer", -req.quantity, src.quantity, src.quantity - req.quantity,
            "cross_warehouse_out", none, false⟩
        (.ok transfer.id, s4)

/-- Service `dispatch_transfer` (`app/services/transfer.py`): `pending ->
in_transit`, no quantity change. -/
def dispatch_transfer (s : WhState) (tid : Nat) :
    Except LedgerError Nat × WhState :=
  match findTransfer s tid with
  | none => (.error .transferNotFound, s)
  | some t =>
    if ¬(t.status = "pending") then (.error .transferAlreadyCompleted, s)
    else
      (.ok tid,
        { s with transfers := (s.transfers.map
            (fun u => if u.id = tid then { u with status := "in_transit" } else u)) })

/-- Service `confirm_cross_warehouse_transfer` (`app/services/transfer.py`):
create or augment the destination row by `received_quantity`, write the
inbound movement, move the transfer to terminal `received`. -/
def confirm_cross_warehouse_transfer (s : WhState) (tid : Nat)
    (req : TransferConfirmRequest) : Except LedgerError Nat × WhState :=
  match findTransfer s tid with
  | none => (.error .transferNotFound, s)
  | some t =>
    if t.status = "received" then (.error .transferAlreadyCompleted, s)
    else if t.status = "cancelled" then (.error .transferAlreadyCancelled, s)
    else if t.status = "pending" then (.error .transferNotDispatched, s)
    else match s.bins.find? (fun b =>
        b.id == req.target_bin_id && b.warehouse_id == t.target_warehouse_id) with
    | none => (.error .binNotFound, s)
    | some targetBin =>
      if targetBin.is_active = false then (.error .binInactive, s)
      else match findRecord s t.source_bin_content_id with
      | none => (.error .binContentNotFound, s)
      | some src =>
        if occupiedByOther s targetBin.id src.product_id then
          (.error .transferTargetOccupied, s)
        else
          let setT := fun (u : WhState) => { u with
            transfers := u.transfers.map (fun v =>
              if v.id = tid then
                { v with status := "received", target_bin_id := some targetBin.id,
                         quantity_received := some req.received_quantity }
              else v) }
          match s.records.find? (fun c =>
              c.bin_id == targetBin.id && c.product_id == src.product_id &&
                c.batch_number == src.batch_number) with
          | some tgt =>
            let s1 := addMovement
              (updateRecord s tgt.id (fun c => { c with quantity := c.quantity + req.received_quantity }))
              ⟨tgt.id, "transfer", req.received_quantity, tgt.quantity,
                tgt.quantity + req.received_quantity, "cross_warehouse_in", none, false⟩
            (.ok tgt.id, setT (updBinStatus s1 targetBin.id "occupied"))
          | none =>
            let tgt : BinContent :=
              ⟨s.next_id, targetBin.id, src.product_id, src.supplier_id, src.batch_number,
                src.use_by_date, src.received_date, req.received_quantity, 0, "available"⟩
            let s1 := addMovement
              { s with records := s.records ++ [tgt], next_id := s.next_id + 1 }
              ⟨tgt.id, "transfer", req.received_quantity, 0, req.received_quantity,
                "cross_warehouse_in", none, false⟩
            (.ok tgt.id, setT (updBinStatus s1 targetBin.id "occupied"))

/-- Service `cancel_transfer` (`app/services/transfer.py`): valid unless the
transfer is already `received` or `cancelled`; returns the full
`quantity_sent` to the source row with a reversing movement and moves the
transfer to terminal `cancelled`. -/
def cancel_transfer (s : WhState) (tid : Nat) :
    Except LedgerError Nat × WhState :=
  match findTransfer s tid with
  | none => (.error .transferNotFound, s)
  | some t =>
    if t.status = "received" then (.error .transferAlreadyCompleted, s)
    else if t.status = "cancelled" then (.error .transferAlreadyCancelled, s)
    else match findRecord s t.source_bin_content_id with
    | none => (.error .binContentNotFound, s)
    | some src =>
      let s1 := updBinStatus
        (updateRecord s src.id (fun c => { c with quantity := c.quantity + t.quantity_sent }))
        src.bin_id "occupied"
      let s2 := addMovement s1
        ⟨src.id, "transfer", t.quantity_sent, src.quantity, src.quantity + t.quantity_sent,
          "transfer_cancelled", none, false⟩
      let s3 : WhState :=
        { s2 with transfers := (s2.transfers.map
            (fun u => if u.id = tid then { u with status := "cancelled" } else u)) }
      (.ok tid, s3)

/-- Function `calculate_urgency` (`app/services/expiry.py`), verbatim
thresholds of the source: `< 7` critical, `< 14` high, `< 30` medium,
otherwise low. -/
def calculate_urgency (days_until_expiry : Int) : String :=
  if days_until_expiry < 7 then "critical"
  else if days_until_expiry < 14 then "high"
  else if days_until_expiry < 30 then "medium"
  else "low"

/-- One ledger operation together with its request payload and the ambient
clock values the source reads (`date.today()` / `datetime.now(UTC)`). -/
inductive Op where
  | receive (req : ReceiveRequest) (now : Int)
  | issue (req : IssueRequest) (today : Int) (role : String)
  | adjust (req : AdjustmentRequest)
  | scrap (req : ScrapRequest)
  | createRes (req : ReservationCreate) (today : Int)
  | fulfillRes (rid : Nat)
  | cancelRes (rid : Nat)
  | sweep (now : Int)
  | transferWithin (req : TransferCreate)
  | createCross (req : CrossWarehouseTransferCreate)
  | dispatch (tid : Nat)
  | confirm (tid : Nat) (req : TransferConfirmRequest)
  | cancelTransfer (tid : Nat)
deriving DecidableEq, Repr

/-- Raw result of one operation (result value or raised error, plus session
state). -/
def opRun (s : WhState) : Op → Except LedgerError Unit × WhState
  | .receive req now => let r := receive_goods s req now; (r.1.map (fun _ => ()), r.2)
  | .issue req today role => let r := issue_goods s req today role; (r.1.map (fun _ => ()), r.2)
  | .adjust req => let r := adjust_stock s req; (r.1.map (fun _ => ()), r.2)
  | .scrap req => let r := scrap_stock s req; (r.1.map (fun _ => ()), r.2)
  | .createRes req today => let r := create_reservation s req today; (r.1.map (fun _ => ()), r.2)
  | .fulfillRes rid => let r := fulfill_reservation s rid; (r.1.map (fun _ => ()), r.2)
  | .cancelRes rid => let r := cancel_reservation s rid; (r.1.map (fun _ => ()), r.2)
  | .sweep now => let r := cleanup_expired_reservations s now; (r.1.map (fun _ => ()), r.2)
  | .transferWithin req => let r := transfer_within_warehouse s req; (r.1.map (fun _ => ()), r.2)
  | .createCross req => let r := create_cross_warehouse_transfer s req; (r.1.map (fun _ => ()), r.2)
  | .dispatch tid => let r := dispatch_transfer s tid; (r.1.map (fun _ => ()), r.2)
  | .confirm tid req => let r := confirm_cross_warehouse_transfer s tid req; (r.1.map (fun _ => ()), r.2)
  | .cancelTransfer tid => let r := cancel_transfer s tid; (r.1.map (fun _ => ()), r.2)

/-- Transactional execution of one operation: commit the new state on success,
roll back to the pre-transaction state when the service raises. -/
def execOp (s : WhState) (op : Op) : WhState :=
  match opRun s op with
  | (.ok _, s2) => s2
  | (.error _, _) => s

/-- Sequential execution of a list of operations. -/
def run (s : WhState) (ops : List Op) : WhState :=
  ops.foldl execOp s

/-- Sum of the `quantity_reserved` of the reservation items that reference the
`bin_contents` row `i`. -/
def itemSumFor (items : List ReservationItem) (i : Nat) : Int :=
  ((items.filter (fun it => it.bin_content_id == i)).map (fun it => it.quantity_reserved)).sum

/-- Sum of the quantities an allocation plan assigns to the row `i`. -/
def allocSumFor (alloc : List (BinContent × Int)) (i : Nat) : Int :=
  ((alloc.filter (fun p => p.1.id == i)).map (fun p => p.2)).sum

/-- Sum, over all `active` reservations, of the line quantities held against
the `bin_contents` row `i`. -/
def activeLineSum (s : WhState) (i : Nat) : Int :=
  ((s.reservations.filter (fun r => decide (r.status = "active"))).map
    (fun r => itemSumFor r.items i)).sum

/-- The movement log of the row `i`, in creation order. -/
def movementsFor (s : WhState) (i : Nat) : List BinMovement :=
  s.movements.filter (fun m => m.bin_content_id == i)

/-- Replay of the movement log of the row `i`: the sum of its signed
quantities. -/
def movSumFor (s : WhState) (i : Nat) : Int :=
  ((movementsFor s i).map (fun m => m.quantity)).sum

/-- The reservation-bound invariant of §8 of the spec: for every Batch Stock
Record, `0 ≤ reserved ≤ quantity`. -/
def reservedInvariant (s : WhState) : Prop :=
  ∀ r ∈ s.records, 0 ≤ r.reserved_quantity ∧ r.reserved_quantity ≤ r.quantity

/-- Bookkeeping well-formedness of a database state: primary keys are unique
and below the fresh-id counter, and foreign keys of movements, reservation
items and transfers are below it as well. -/
def WfState (s : WhState) : Prop :=
  (s.records.map (fun r => r.id)).Nodup ∧
  (∀ r ∈ s.records, r.id < s.next_id) ∧
  (∀ m ∈ s.movements, m.bin_content_id < s.next_id) ∧
  (s.reservations.map (fun r => r.id)).Nodup ∧
  (∀ r ∈ s.reservations, r.id < s.next_id) ∧
  (∀ r ∈ s.reservations, ∀ it ∈ r.items, it.bin_content_id < s.next_id) ∧
  (s.transfers.map (fun t => t.id)).Nodup ∧
  (∀ t ∈ s.transfers, t.id < s.next_id) ∧
  (∀ t ∈ s.transfers, t.source_bin_content_id < s.next_id)

/-- Consistency of the reservation ledger: the §8 bound `0 ≤ reserved ≤
quantity`, non-negative reservation lines, the per-record sum of active
reservation lines bounded by the record's `reserved_quantity`, and
non-negative in-flight transfer quantities. -/
def InvRes (s : WhState) : Prop :=
  reservedInvariant s ∧
  (∀ res ∈ s.reservations, ∀ it ∈ res.items, 0 ≤ it.quantity_reserved) ∧
  (∀ r ∈ s.records, activeLineSum s r.id ≤ r.reserved_quantity) ∧
  (∀ t ∈ s.transfers, 0 ≤ t.quantity_sent) ∧
  (∀ res ∈ s.reservations, res.status = "active" ∨ res.status = "fulfilled" ∨
    res.status = "cancelled" ∨ res.status = "expired")

/-- The movement-log invariant of §8 of the spec: every entry's signed
quantity is `quantity_after - quantity_before`, replaying a record's entries
in creation order reproduces its current quantity, and the `quantity_after`
of its latest entry equals the current stored quantity. -/
def InvMov (s : WhState) : Prop :=
  (∀ m ∈ s.movements, m.quantity = m.quantity_after - m.quantity_before) ∧
  (∀ r ∈ s.records, movSumFor s r.id = r.quantity ∧
    ((movementsFor s r.id).getLast?.map (fun m => m.quantity_after)) = some r.quantity)

/-- Validity of an operation's request payload, as enforced by the pydantic
schema layer before the service runs. -/
def Op.wf : Op → Prop
  | .receive req _ => req.wf
  | .issue req _ _ => req.wf
  | .adjust req => req.wf
  | .scrap _ => True
  | .createRes req _ => req.wf
  | .fulfillRes _ => True
  | .cancelRes _ => True
  | .sweep _ => True
  | .transferWithin req => req.wf
  | .createCross req => req.wf
  | .dispatch _ => True
  | .confirm _ req => req.wf
  | .cancelTransfer _ => True

/-- An operation that is schema-valid and is not a scrap of a record holding a
non-zero reserved quantity (the one operation the source lets violate the
reservation bound). -/
def GoodOp (s : WhState) : Op → Prop
  | .scrap req => ∀ r ∈ s.records, r.id = req.bin_content_id → r.reserved_quantity = 0
  | .receive req _ => req.wf
  | .issue req _ _ => req.wf
  | .adjust req => req.wf
  | .createRes req _ => req.wf
  | .fulfillRes _ => True
  | .cancelRes _ => True
  | .sweep _ => True
  | .transferWithin req => req.wf
  | .createCross req => req.wf
  | .dispatch _ => True
  | .confirm _ req => req.wf
  | .cancelTransfer _ => True

/-- All operations of the sequence are good at their point of execution. -/
def RunOk : WhState → List Op → Prop
  | _, [] => True
  | s, op :: rest => GoodOp s op ∧ RunOk (execOp s op) rest

instance instDecidableOpWf (op : Op) : Decidable op.wf := by
  cases op <;>
    first
      | exact inferInstanceAs (Decidable True)
      | exact inferInstanceAs (Decidable (0 < _))
      | exact inferInstanceAs (Decidable (0 ≤ _))

instance instDecidableGoodOp (s : WhState) (op : Op) : Decidable (GoodOp s op) := by
  cases op <;>
    first
      | exact inferInstanceAs (Decidable (∀ r ∈ s.records, _ = _ → _ = _))
      | exact inferInstanceAs (Decidable True)
      | exact inferInstanceAs (Decidable (0 < _))
      | exact inferInstanceAs (Decidable (0 ≤ _))

instance instDecidableRunOk (s : WhState) (ops : List Op) : Decidable (RunOk s ops) :=
  match ops with
  | [] => inferInstanceAs (Decidable True)
  | op :: rest =>
    have : Decidable (RunOk (execOp s op) rest) := instDecidableRunOk (execOp s op) rest
    inferInstanceAs (Decidable (GoodOp s op ∧ RunOk (execOp s op) rest))

instance instDecidableEqExcept {e a : Type} [DecidableEq e] [DecidableEq a] :
    DecidableEq (Except e a)
  | .ok x, .ok y =>
    if h : x = y then .isTrue (by rw [h])
    else .isFalse (by intro hh; cases hh; exact h rfl)
  | .ok _, .error _ => .isFalse (by intro hh; cases hh)
  | .error _, .ok _ => .isFalse (by intro hh; cases hh)
  | .error x, .error y =>
    if h : x = y then .isTrue (by rw [h])
    else .isFalse (by intro hh; cases hh; exact h rfl)

instance instDecidableReservedInvariant (s : WhState) :
    Decidable (reservedInvariant s) := by
  unfold reservedInvariant
  infer_instance

instance instDecidableWfState (s : WhState) : Decidable (WfState s) := by
  unfold WfState
  infer_instance

instance instDecidableInvRes (s : WhState) : Decidable (InvRes s) := by
  unfold InvRes reservedInvariant
  infer_instance

instance instDecidableInvMov (s : WhState) : Decidable (InvMov s) := by
  unfold InvMov
  infer_instance

/-- Modelled from the spec: the urgency classification as the spec's §9 words
it — `expired` for negative day counts, `critical` under 3 days, `high` up to
7, `medium` up to 14, `low` beyond. -/
def specUrgency (days_until_expiry : Int) : String :=
  if days_until_expiry < 0 then "expired"
  else if days_until_expiry < 3 then "critical"
  else if days_until_expiry ≤ 7 then "high"
  else if days_until_expiry ≤ 14 then "medium"
  else "low"

/-- Example database: one warehouse, one occupied bin, one product, a single
batch row of 5 units with 3 reserved, and the active reservation holding
those 3 units until time 50. -/
def exResState : WhState :=
  ⟨[⟨1⟩], [⟨10, 1, true, "occupied"⟩], [⟨1, true⟩], [],
   [⟨1, 10, 1, none, "B1", 100, 0, 5, 3, "available"⟩],
   [], [⟨2, 1, 3, 50, "active", [⟨1, 3⟩]⟩], [], 7⟩

/-- Example database with no batch rows yet. -/
def exEmpty : WhState :=
  ⟨[⟨1⟩], [⟨10, 1, true, "empty"⟩], [⟨1, true⟩], [], [], [], [], [], 7⟩

/-- Example database: a single batch row of 10 units with 8 reserved. -/
def exIssueState : WhState :=
  ⟨[⟨1⟩], [⟨10, 1, true, "occupied"⟩], [⟨1, true⟩], [],
   [⟨1, 10, 1, none, "B1", 100, 0, 10, 8, "available"⟩], [], [], [], 7⟩

/-- Example database: two batch rows of one product with the same use-by
date, batch `BATCH-Z` stored first, batch `BATCH-A` second. -/
def exTieState : WhState :=
  ⟨[⟨1⟩], [⟨10, 1, true, "occupied"⟩, ⟨11, 1, true, "occupied"⟩], [⟨1, true⟩], [],
   [⟨1, 10, 1, none, "BATCH-Z", 100, 0, 50, 0, "available"⟩,
    ⟨2, 11, 1, none, "BATCH-A", 100, 1, 50, 0, "available"⟩], [], [], [], 7⟩

/-- Example database: a single batch row of 30 free units. -/
def exStock30 : WhState :=
  ⟨[⟨1⟩], [⟨10, 1, true, "occupied"⟩], [⟨1, true⟩], [],
   [⟨1, 10, 1, none, "B1", 100, 0, 30, 0, "available"⟩], [], [], [], 7⟩

/-- Example database: two warehouses and a batch row of 100 free units in
warehouse 1. -/
def exCrossState : WhState :=
  ⟨[⟨1⟩, ⟨2⟩], [⟨10, 1, true, "occupied"⟩], [⟨1, true⟩], [],
   [⟨1, 10, 1, none, "B1", 100, 0, 100, 0, "available"⟩], [], [], [], 7⟩

/-- The state after reserving 20 of the 30 free units of `exStock30`. -/
def exC7Mid : WhState := (create_reservation exStock30 ⟨1, 20, 50⟩ 0).2

/-- The state after a 40-unit cross-warehouse transfer out of `exCrossState`. -/
def exC8Mid : WhState :=
  (create_cross_warehouse_transfer exCrossState ⟨1, 2, none, 40⟩).2

/-- The state after sweeping `exResState` at time 100 (its reservation, held
until time 50, expires). -/
def exSweepMid : WhState := (cleanup_expired_reservations exResState 100).2

/-! Order-theoretic facts about the FEFO comparison. -/

theorem charListLt_irrefl (a : List Char) : charListLt a a = false := by
  induction a with
  | nil => rfl
  | cons x xs ih => simp [charListLt, ih]

theorem charListLt_eq_of_false (a b : List Char) (h1 : charListLt a b = false)
    (h2 : charListLt b a = false) : a = b := by
  induction a generalizing b with
  | nil =>
    cases b with
    | nil => rfl
    | cons x xs => simp [charListLt] at h1
  | cons x xs ih =>
    cases b with
    | nil => simp [charListLt] at h2
    | cons y ys =>
      simp only [charListLt] at h1 h2
      by_cases hxy : x < y
      · simp [hxy] at h1
      · by_cases hyx : y < x
        · simp [hxy, hyx] at h2
        · have hxyeq : x = y := le_antisymm (not_lt.mp hyx) (not_lt.mp hxy)
          subst hxyeq
          simp only [lt_irrefl, if_false] at h1 h2
          rw [ih _ h1 h2]

theorem charListLt_trans (a b c : List Char) (h1 : charListLt a b = true)
    (h2 : charListLt b c = true) : charListLt a c = true := by
  induction a generalizing b c with
  | nil =>
    cases c with
    | nil =>
      cases b with
      | nil => exact h1
      | cons y ys => simp [charListLt] at h2
    | cons z zs => simp [charListLt]
  | cons x xs ih =>
    cases b with
    | nil => simp [charListLt] at h1
    | cons y ys =>
      cases c with
      | nil => simp [charListLt] at h2
      | cons z zs =>
        simp only [charListLt] at h1 h2 ⊢
        by_cases hxy : x < y
        · by_cases hyz : y < z
          · simp [lt_trans hxy hyz]
          · by_cases hzy : z < y
            · simp [hyz, hzy] at h2
            · have : y = z := le_antisymm (not_lt.mp hzy) (not_lt.mp hyz)
              subst this
              simp [hxy]
        · by_cases hyx : y < x
          · simp [hxy, hyx] at h1
          · have : x = y := le_antisymm (not_lt.mp hyx) (not_lt.mp hxy)
            subst this
            simp only [lt_irrefl, if_false] at h1
            by_cases hyz : x < z
            · simp [hyz]
            · by_cases hzy : z < x
              · simp [hyz, hzy] at h2
              · have : x = z := le_antisymm (not_lt.mp hzy) (not_lt.mp hyz)
                subst this
                simp only [lt_irrefl, if_false] at h2 ⊢
                exact ih _ _ h1 h2

theorem strLtB_irrefl (a : String) : strLtB a a = false := charListLt_irrefl a.data

theorem strLtB_eq_of_false (a b : String) (h1 : strLtB a b = false)
    (h2 : strLtB b a = false) : a = b :=
  congrArg String.mk (charListLt_eq_of_false a.data b.data h1 h2)

theorem strLtB_trans (a b c : String) (h1 : strLtB a b = true)
    (h2 : strLtB b c = true) : strLtB a c = true :=
  charListLt_trans a.data b.data c.data h1 h2

instance : IsTotal BinContent fefoLe := by
  constructor
  intro a b
  unfold fefoLe fefoLeB
  rcases lt_trichotomy a.use_by_date b.use_by_date with h | h | h
  · left; simp [h]
  · cases hab : strLtB a.batch_number b.batch_number with
    | true => left; simp [h, hab, lt_irrefl]
    | false =>
      cases hba : strLtB b.batch_number a.batch_number with
      | true => right; simp [h, hab, hba, lt_irrefl]
      | false =>
        rcases le_total a.received_date b.received_date with hr | hr
        · left; simp [h, hab, hba, lt_irrefl, hr]
        · right; simp [h, hab, hba, lt_irrefl, hr]
  · right; simp [h]

theorem fefoLeB_trans (a b c : BinContent) (hab : fefoLeB a b = true)
    (hbc : fefoLeB b c = true) : fefoLeB a c = true := by
  unfold fefoLeB at hab hbc ⊢
  rcases lt_trichotomy a.use_by_date b.use_by_date with h1 | h1 | h1 <;>
    rcases lt_trichotomy b.use_by_date c.use_by_date with h2 | h2 | h2
  · simp [lt_trans h1 h2]
  · rw [← h2]; simp [h1]
  · by_cases hac : a.use_by_date < c.use_by_date
    · simp [hac]
    · simp [h2, asymm h2] at hbc
  · rw [h1]; simp [h2]
  · rw [h1] at hab
    rw [h2] at hbc
    rw [h1, h2]
    simp only [lt_irrefl, if_false] at hab hbc ⊢
    cases hb1 : strLtB a.batch_number b.batch_number with
    | true =>
      cases hb2 : strLtB b.batch_number c.batch_number with
      | true => simp [strLtB_trans _ _ _ hb1 hb2]
      | false =>
        cases hb3 : strLtB c.batch_number b.batch_number with
        | true => simp [hb2, hb3] at hbc
        | false =>
          have : b.batch_number = c.batch_number := strLtB_eq_of_false _ _ hb2 hb3
          rw [← this, hb1]
          simp
    | false =>
      cases hb0 : strLtB b.batch_number a.batch_number with
      | true => simp [hb1, hb0] at hab
      | false =>
        have hba : a.batch_number = b.batch_number := strLtB_eq_of_false _ _ hb1 hb0
        rw [hba]
        simp only [hb1, hb0, Bool.false_eq_true, if_false] at hab
        cases hb2 : strLtB b.batch_number c.batch_number with
        | true => simp [hb2]
        | false =>
          cases hb3 : strLtB c.batch_number b.batch_number with
          | true => simp [hb2, hb3] at hbc
          | false =>
            simp only [hb2, hb3, Bool.false_eq_true, if_false] at hbc ⊢
            simp only [decide_eq_true_eq] at hab hbc ⊢
            omega
  · simp [h2, asymm h2] at hbc
  · simp [h1, asymm h1] at hab
  · simp [h1, asymm h1] at hab
  · simp [h1, asymm h1] at hab

instance : IsTrans BinContent fefoLe := by
  constructor
  intro a b c hab hbc
  exact fefoLeB_trans a b c hab hbc

/-! Projection lemmas for the primitive state updates. -/

@[simp] theorem addMovement_records (s : WhState) (m : BinMovement) :
    (addMovement s m).records = s.records := rfl

@[simp] theorem addMovement_movements (s : WhState) (m : BinMovement) :
    (addMovement s m).movements = s.movements ++ [m] := rfl

@[simp] theorem addMovement_reservations (s : WhState) (m : BinMovement) :
    (addMovement s m).reservations = s.reservations := rfl

@[simp] theorem addMovement_transfers (s : WhState) (m : BinMovement) :
    (addMovement s m).transfers = s.transfers := rfl

@[simp] theorem addMovement_next_id (s : WhState) (m : BinMovement) :
    (addMovement s m).next_id = s.next_id := rfl

@[simp] theorem updateRecord_records (s : WhState) (i : Nat) (f : BinContent → BinContent) :
    (updateRecord s i f).records = updRecords s.records i f := rfl

@[simp] theorem updateRecord_movements (s : WhState) (i : Nat) (f : BinContent → BinContent) :
    (updateRecord s i f).movements = s.movements := rfl

@[simp] theorem updateRecord_reservations (s : WhState) (i : Nat) (f : BinContent → BinContent) :
    (updateRecord s i f).reservations = s.reservations := rfl

@[simp] theorem updateRecord_transfers (s : WhState) (i : Nat) (f : BinContent → BinContent) :
    (updateRecord s i f).transfers = s.transfers := rfl

@[simp] theorem updateRecord_next_id (s : WhState) (i : Nat) (f : BinContent → BinContent) :
    (updateRecord s i f).next_id = s.next_id := rfl

@[simp] theorem updBinStatus_records (s : WhState) (b : Nat) (st : String) :
    (updBinStatus s b st).records = s.records := rfl

@[simp] theorem updBinStatus_movements (s : WhState) (b : Nat) (st : String) :
    (updBinStatus s b st).movements = s.movements := rfl

@[simp] theorem updBinStatus_reservations (s : WhState) (b : Nat) (st : String) :
    (updBinStatus s b st).reservations = s.reservations := rfl

@[simp] theorem updBinStatus_transfers (s : WhState) (b : Nat) (st : String) :
    (updBinStatus s b st).transfers = s.transfers := rfl

@[simp] theorem updBinStatus_next_id (s : WhState) (b : Nat) (st : String) :
    (updBinStatus s b st).next_id = s.next_id := rfl

theorem invMov_updBinStatus (s : WhState) (b : Nat) (st : String) :
    InvMov (updBinStatus s b st) ↔ InvMov s := Iff.rfl

theorem invRes_updBinStatus (s : WhState) (b : Nat) (st : String) :
    InvRes (updBinStatus s b st) ↔ InvRes s := Iff.rfl

theorem wfState_updBinStatus (s : WhState) (b : Nat) (st : String) :
    WfState (updBinStatus s b st) ↔ WfState s := Iff.rfl

/-! Lookup facts. -/

theorem findRecord_mem (s : WhState) (i : Nat) (r : BinContent)
    (h : findRecord s i = some r) : r ∈ s.records ∧ r.id = i := by
  refine ⟨List.mem_of_find?_eq_some h, ?_⟩
  have := List.find?_some h
  simpa using this

theorem findRecord_none (s : WhState) (i : Nat) (h : findRecord s i = none) :
    ∀ r ∈ s.records, r.id ≠ i := by
  intro r hr
  have := List.find?_eq_none.mp h r hr
  simpa using this

theorem findReservation_mem (s : WhState) (i : Nat) (r : StockReservation)
    (h : findReservation s i = some r) : r ∈ s.reservations ∧ r.id = i := by
  refine ⟨List.mem_of_find?_eq_some h, ?_⟩
  have := List.find?_some h
  simpa using this

theorem findTransfer_mem (s : WhState) (i : Nat) (t : WarehouseTransfer)
    (h : findTransfer s i = some t) : t ∈ s.transfers ∧ t.id = i := by
  refine ⟨List.mem_of_find?_eq_some h, ?_⟩
  have := List.find?_some h
  simpa using this

theorem record_unique (s : WhState) (hN : (s.records.map (fun r => r.id)).Nodup)
    (r1 r2 : BinContent) (h1 : r1 ∈ s.records) (h2 : r2 ∈ s.records)
    (hid : r1.id = r2.id) : r1 = r2 :=
  List.inj_on_of_nodup_map hN h1 h2 hid

/-! Sum lemmas. -/

theorem itemSumFor_nil (i : Nat) : itemSumFor [] i = 0 := rfl

theorem itemSumFor_cons (it : ReservationItem) (l : List ReservationItem) (i : Nat) :
    itemSumFor (it :: l) i =
      (if it.bin_content_id = i then it.quantity_reserved else 0) + itemSumFor l i := by
  unfold itemSumFor
  rcases h : it.bin_content_id == i with _ | _
  · have : ¬(it.bin_content_id = i) := by simpa using h
    simp [List.filter_cons, h, this]
  · have : it.bin_content_id = i := by simpa using h
    simp [List.filter_cons, h, this]

theorem allocSumFor_nil (i : Nat) : allocSumFor [] i = 0 := rfl

theorem allocSumFor_cons (p : BinContent × Int) (l : List (BinContent × Int)) (i : Nat) :
    allocSumFor (p :: l) i = (if p.1.id = i then p.2 else 0) + allocSumFor l i := by
  unfold allocSumFor
  rcases h : p.1.id == i with _ | _
  · have : ¬(p.1.id = i) := by simpa using h
    simp [List.filter_cons, h, this]
  · have : p.1.id = i := by simpa using h
    simp [List.filter_cons, h, this]

theorem itemSumFor_map_alloc (alloc : List (BinContent × Int)) (i : Nat) :
    itemSumFor (alloc.map (fun p => ⟨p.1.id, p.2⟩)) i = allocSumFor alloc i := by
  induction alloc with
  | nil => rfl
  | cons p l ih => simp [itemSumFor_cons, allocSumFor_cons, ih]

/-! Map characterizations of the reservation folds. -/

theorem releaseItems_eq_map (items : List ReservationItem) (rs : List BinContent) :
    releaseItems items rs =
      rs.map (fun r => { r with reserved_quantity := r.reserved_quantity - itemSumFor items r.id }) := by
  induction items generalizing rs with
  | nil =>
    have : ∀ r : BinContent,
        ({ r with reserved_quantity := r.reserved_quantity - itemSumFor [] r.id }) = r := by
      intro r; cases r; simp [itemSumFor_nil]
    simp only [releaseItems, List.foldl_nil]
    rw [List.map_congr_left (fun r _ => this r)]
    simp
  | cons it rest ih =>
    show releaseItems rest (updRecords rs it.bin_content_id _) = _
    rw [ih, updRecords, List.map_map]
    apply List.map_congr_left
    intro r _
    simp only [Function.comp_apply]
    by_cases h : r.id = it.bin_content_id
    · simp only [if_pos h, itemSumFor_cons, h]
      cases r; simp; omega
    · have : ¬(it.bin_content_id = r.id) := fun hh => h hh.symm
      simp only [if_neg h, itemSumFor_cons, if_neg this]
      cases r; simp

theorem reserveAlloc_eq_map (alloc : List (BinContent × Int)) (rs : List BinContent) :
    reserveAlloc alloc rs =
      rs.map (fun r => { r with reserved_quantity := r.reserved_quantity + allocSumFor alloc r.id }) := by
  induction alloc generalizing rs with
  | nil =>
    have : ∀ r : BinContent,
        ({ r with reserved_quantity := r.reserved_quantity + allocSumFor [] r.id }) = r := by
      intro r; cases r; simp [allocSumFor_nil]
    simp only [reserveAlloc, List.foldl_nil]
    rw [List.map_congr_left (fun r _ => this r)]
    simp
  | cons p rest ih =>
    show reserveAlloc rest (updRecords rs p.1.id _) = _
    rw [ih, updRecords, List.map_map]
    apply List.map_congr_left
    intro r _
    simp only [Function.comp_apply]
    by_cases h : r.id = p.1.id
    · simp only [if_pos h, allocSumFor_cons, if_pos h.symm]
      cases r; simp; omega
    · have : ¬(p.1.id = r.id) := fun hh => h hh.symm
      simp only [if_neg h, allocSumFor_cons, if_neg this]
      cases r; simp

/-! Update-by-id lemmas. -/

theorem updRecords_map_id (rs : List BinContent) (i : Nat) (f : BinContent → BinContent)
    (hf : ∀ r, (f r).id = r.id) :
    (updRecords rs i f).map (fun r => r.id) = rs.map (fun r => r.id) := by
  unfold updRecords
  rw [List.map_map]
  apply List.map_congr_left
  intro r _
  simp only [Function.comp_apply]
  split <;> simp [hf]

theorem mem_updRecords (rs : List BinContent) (i : Nat) (f : BinContent → BinContent)
    (r' : BinContent) (h : r' ∈ updRecords rs i f) :
    ∃ r ∈ rs, (if r.id = i then f r else r) = r' := by
  unfold updRecords at h
  exact List.mem_map.mp h

theorem updRecords_of_no_match (rs : List BinContent) (i : Nat) (f : BinContent → BinContent)
    (h : ∀ r ∈ rs, r.id ≠ i) : updRecords rs i f = rs := by
  unfold updRecords
  rw [List.map_congr_left (fun r hr => if_neg (h r hr))]
  simp

/-! Movement-log lemmas. -/

theorem movementsFor_append (s s2 : WhState) (m : BinMovement)
    (hmov : s2.movements = s.movements ++ [m]) (i : Nat) :
    movementsFor s2 i = movementsFor s i ++ (if m.bin_content_id = i then [m] else []) := by
  unfold movementsFor
  rw [hmov, List.filter_append]
  congr 1
  rcases h : m.bin_content_id == i with _ | _
  · have : ¬(m.bin_content_id = i) := by simpa using h
    simp [h, this]
  · have : m.bin_content_id = i := by simpa using h
    simp [h, this]

theorem movSumFor_append (s s2 : WhState) (m : BinMovement)
    (hmov : s2.movements = s.movements ++ [m]) (i : Nat) :
    movSumFor s2 i = movSumFor s i + (if m.bin_content_id = i then m.quantity else 0) := by
  unfold movSumFor
  rw [movementsFor_append s s2 m hmov, List.map_append, List.sum_append]
  split <;> simp

theorem movementsFor_congr (s s2 : WhState) (hmov : s2.movements = s.movements) (i : Nat) :
    movementsFor s2 i = movementsFor s i := by
  unfold movementsFor
  rw [hmov]

theorem movementsFor_empty_of_fresh (s : WhState) (i : Nat)
    (h : ∀ m ∈ s.movements, m.bin_content_id < i) : movementsFor s i = [] := by
  unfold movementsFor
  apply List.filter_eq_nil_iff.mpr
  intro m hm
  have := h m hm
  simp only [beq_iff_eq]
  omega

/-- Single quantity change plus its paired movement entry preserve the
movement-log invariant. -/
theorem invMov_step (s s2 : WhState) (i : Nat) (bc : BinContent)
    (f : BinContent → BinContent) (m : BinMovement)
    (hrec : s2.records = updRecords s.records i f)
    (hmov : s2.movements = s.movements ++ [m])
    (hfind : findRecord s i = some bc)
    (hN : (s.records.map (fun r => r.id)).Nodup)
    (hM : InvMov s)
    (hfid : ∀ c, (f c).id = c.id)
    (hfq : (f bc).quantity = bc.quantity + m.quantity)
    (hmb : m.bin_content_id = i)
    (hbefore : m.quantity_before = bc.quantity)
    (hafter : m.quantity_after = bc.quantity + m.quantity) :
    InvMov s2 := by
  obtain ⟨hbcmem, hbcid⟩ := findRecord_mem s i bc hfind
  obtain ⟨hM1, hM2⟩ := hM
  constructor
  · intro m2 hm2
    rw [hmov, List.mem_append] at hm2
    rcases hm2 with hm2 | hm2
    · exact hM1 m2 hm2
    · rw [List.mem_singleton] at hm2
      subst hm2
      rw [hbefore, hafter]
      omega
  · intro r2 hr2
    rw [hrec] at hr2
    obtain ⟨r, hr, hreq⟩ := mem_updRecords _ _ _ _ hr2
    have hmovs := movementsFor_append s s2 m hmov r2.id
    have hsums := movSumFor_append s s2 m hmov r2.id
    by_cases hcase : r.id = i
    · have hrbc : r = bc := record_unique s hN r bc hr hbcmem (by rw [hcase, hbcid])
      subst hrbc
      rw [if_pos hcase] at hreq
      have hrid : r2.id = i := by rw [← hreq, hfid, hcase]
      have hfilter : m.bin_content_id = r2.id := by rw [hmb, hrid]
      constructor
      · rw [hsums, if_pos hfilter, hrid, ← hbcid, (hM2 r hr).1, ← hreq, hfq]
      · rw [hmovs, if_pos hfilter, List.getLast?_concat, ← hreq, hfq]
        simp [hafter]
    · rw [if_neg hcase] at hreq
      subst hreq
      have hfilter : ¬(m.bin_content_id = r.id) := by rw [hmb]; exact fun hh => hcase hh.symm
      constructor
      · rw [hsums, if_neg hfilter]
        simpa using (hM2 r hr).1
      · rw [hmovs, if_neg hfilter, List.append_nil]
        exact (hM2 r hr).2

/-- Single quantity change plus its paired movement entry preserve state
well-formedness. -/
theorem wf_step (s s2 : WhState) (i : Nat) (bc : BinContent)
    (f : BinContent → BinContent) (m : BinMovement)
    (hrec : s2.records = updRecords s.records i f)
    (hmov : s2.movements = s.movements ++ [m])
    (hres : s2.reservations = s.reservations)
    (htr : s2.transfers = s.transfers)
    (hnext : s2.next_id = s.next_id)
    (hfind : findRecord s i = some bc)
    (hfid : ∀ c, (f c).id = c.id)
    (hmb : m.bin_content_id = i)
    (hW : WfState s) :
    WfState s2 := by
  obtain ⟨hbcmem, hbcid⟩ := findRecord_mem s i bc hfind
  obtain ⟨w1, w2, w3, w4, w5, w6, w7, w8, w9⟩ := hW
  rw [WfState, hrec, hmov, hres, htr, hnext]
  refine ⟨?_, ?_, ?_, w4, w5, w6, w7, w8, w9⟩
  · rw [updRecords_map_id _ _ _ hfid]
    exact w1
  · intro r2 hr2
    obtain ⟨r, hr, hreq⟩ := mem_updRecords _ _ _ _ hr2
    have : r2.id = r.id := by
      rw [← hreq]; split <;> simp [hfid]
    rw [this]
    exact w2 r hr
  · intro m2 hm2
    rcases List.mem_append.mp hm2 with hm2 | hm2
    · exact w3 m2 hm2
    · rw [List.mem_singleton] at hm2
      subst hm2
      rw [hmb, ← hbcid]
      exact w2 bc hbcmem

/-- Creation of a fresh record plus its paired receipt movement preserves the
movement-log invariant. -/
theorem invMov_new (s s2 : WhState) (bc : BinContent) (m : BinMovement)
    (hrec : s2.records = s.records ++ [bc])
    (hmov : s2.movements = s.movements ++ [m])
    (hid : bc.id = s.next_id)
    (hW : WfState s) (hM : InvMov s)
    (hmb : m.bin_content_id = bc.id)
    (hbefore : m.quantity_before = 0)
    (hafter : m.quantity_after = bc.quantity)
    (hq : m.quantity = bc.quantity) :
    InvMov s2 := by
  obtain ⟨w1, w2, w3, w4, w5, w6, w7, w8, w9⟩ := hW
  obtain ⟨hM1, hM2⟩ := hM
  constructor
  · intro m2 hm2
    rw [hmov, List.mem_append] at hm2
    rcases hm2 with hm2 | hm2
    · exact hM1 m2 hm2
    · rw [List.mem_singleton] at hm2
      subst hm2
      rw [hbefore, hafter, hq]
      omega
  · intro r2 hr2
    rw [hrec] at hr2
    have hmovs := movementsFor_append s s2 m hmov
    have hsums := movSumFor_append s s2 m hmov
    rcases List.mem_append.mp hr2 with hr | hr
    · have hne : ¬(m.bin_content_id = r2.id) := by
        rw [hmb, hid]
        have := w2 r2 hr
        omega
      constructor
      · rw [hsums, if_neg hne]
        simpa using (hM2 r2 hr).1
      · rw [hmovs, if_neg hne, List.append_nil]
        exact (hM2 r2 hr).2
    · rw [List.mem_singleton] at hr
      subst hr
      have hfresh : movementsFor s r2.id = [] := by
        apply movementsFor_empty_of_fresh
        intro m2 hm2
        rw [hid]
        exact w3 m2 hm2
      constructor
      · rw [hsums, if_pos hmb]
        unfold movSumFor
        rw [hfresh]
        simpa using hq
      · rw [hmovs, if_pos hmb, hfresh, List.nil_append]
        simp [hafter]

/-- Creation of a fresh record plus its paired receipt movement preserves
state well-formedness. -/
theorem wf_new (s s2 : WhState) (bc : BinContent) (m : BinMovement)
    (hrec : s2.records = s.records ++ [bc])
    (hmov : s2.movements = s.movements ++ [m])
    (hres : s2.reservations = s.reservations)
    (htr : s2.transfers = s.transfers)
    (hnext : s2.next_id = s.next_id + 1)
    (hid : bc.id = s.next_id)
    (hmb : m.bin_content_id = bc.id)
    (hW : WfState s) :
    WfState s2 := by
  obtain ⟨w1, w2, w3, w4, w5, w6, w7, w8, w9⟩ := hW
  rw [WfState, hrec, hmov, hres, htr, hnext]
  refine ⟨?_, ?_, ?_, w4, ?_, ?_, w7, ?_, ?_⟩
  · rw [List.map_append, List.nodup_append]
    refine ⟨w1, by simp, ?_⟩
    intro x hx
    simp only [List.map_cons, List.map_nil, List.mem_singleton]
    rintro rfl
    rw [List.mem_map] at hx
    obtain ⟨r, hr, hrid⟩ := hx
    have := w2 r hr
    omega
  · intro r2 hr2
    rcases List.mem_append.mp hr2 with hr | hr
    · have := w2 r2 hr
      omega
    · rw [List.mem_singleton] at hr
      subst hr
      omega
  · intro m2 hm2
    rcases List.mem_append.mp hm2 with hm2 | hm2
    · have := w3 m2 hm2
      omega
    · rw [List.mem_singleton] at hm2
      subst hm2
      rw [hmb, hid]
      omega
  · intro r hr
    have := w5 r hr
    omega
  · intro r hr it hit
    have := w6 r hr it hit
    omega
  · intro t ht
    have := w8 t ht
    omega
  · intro t ht
    have := w9 t ht
    omega

/-- A record-list rewrite that keeps every row's id and quantity preserves the
movement-log invariant. -/
theorem invMov_mapRecords (s s2 : WhState) (g : BinContent → BinContent)
    (hrec : s2.records = s.records.map g)
    (hmov : s2.movements = s.movements)
    (hid : ∀ r, (g r).id = r.id)
    (hq : ∀ r, (g r).quantity = r.quantity)
    (hM : InvMov s) : InvMov s2 := by
  obtain ⟨hM1, hM2⟩ := hM
  constructor
  · intro m2 hm2
    rw [hmov] at hm2
    exact hM1 m2 hm2
  · intro r2 hr2
    rw [hrec, List.mem_map] at hr2
    obtain ⟨r, hr, hreq⟩ := hr2
    subst hreq
    have hmm := movementsFor_congr s s2 hmov (g r).id
    constructor
    · rw [movSumFor, hmm, hid, hq, ← movSumFor]
      exact (hM2 r hr).1
    · rw [hmm, hid, hq]
      exact (hM2 r hr).2

/-- A record-list rewrite that keeps every row's id preserves state
well-formedness when nothing else changes. -/
theorem wf_mapRecords (s s2 : WhState) (g : BinContent → BinContent)
    (hrec : s2.records = s.records.map g)
    (hmov : s2.movements = s.movements)
    (hres : s2.reservations = s.reservations)
    (htr : s2.transfers = s.transfers)
    (hnext : s2.next_id = s.next_id)
    (hid : ∀ r, (g r).id = r.id)
    (hW : WfState s) : WfState s2 := by
  obtain ⟨w1, w2, w3, w4, w5, w6, w7, w8, w9⟩ := hW
  rw [WfState, hrec, hmov, hres, htr, hnext]
  refine ⟨?_, ?_, w3, w4, w5, w6, w7, w8, w9⟩
  · rw [List.map_map]
    have : ((fun r : BinContent => r.id) ∘ g) = fun r => r.id := by
      funext r
      simp [hid]
    rw [this]
    exact w1
  · intro r2 hr2
    rw [List.mem_map] at hr2
    obtain ⟨r, hr, hreq⟩ := hr2
    subst hreq
    rw [hid]
    exact w2 r hr

/-- A reservation-list rewrite that keeps ids and items preserves state
well-formedness when nothing else changes. -/
theorem wf_mapReservations (s s2 : WhState) (g : StockReservation → StockReservation)
    (hres : s2.reservations = s.reservations.map g)
    (hrec : s2.records = s.records)
    (hmov : s2.movements = s.movements)
    (htr : s2.transfers = s.transfers)
    (hnext : s2.next_id = s.next_id)
    (hid : ∀ r, (g r).id = r.id)
    (hit : ∀ r, (g r).items = r.items)
    (hW : WfState s) : WfState s2 := by
  obtain ⟨w1, w2, w3, w4, w5, w6, w7, w8, w9⟩ := hW
  rw [WfState, hres, hrec, hmov, htr, hnext]
  refine ⟨w1, w2, w3, ?_, ?_, ?_, w7, w8, w9⟩
  · rw [List.map_map]
    have : ((fun r : StockReservation => r.id) ∘ g) = fun r => r.id := by
      funext r
      simp [hid]
    rw [this]
    exact w4
  · intro r2 hr2
    rw [List.mem_map] at hr2
    obtain ⟨r, hr, hreq⟩ := hr2
    subst hreq
    rw [hid]
    exact w5 r hr
  · intro r2 hr2 it hit2
    rw [List.mem_map] at hr2
    obtain ⟨r, hr, hreq⟩ := hr2
    subst hreq
    rw [hit] at hit2
    exact w6 r hr it hit2

/-- A transfer-list rewrite that keeps ids and source references preserves
state well-formedness when nothing else changes. -/
theorem wf_mapTransfers (s s2 : WhState) (g : WarehouseTransfer → WarehouseTransfer)
    (htr : s2.transfers = s.transfers.map g)
    (hrec : s2.records = s.records)
    (hmov : s2.movements = s.movements)
    (hres : s2.reservations = s.reservations)
    (hnext : s2.next_id = s.next_id)
    (hid : ∀ t, (g t).id = t.id)
    (hsrc : ∀ t, (g t).source_bin_content_id = t.source_bin_content_id)
    (hW : WfState s) : WfState s2 := by
  obtain ⟨w1, w2, w3, w4, w5, w6, w7, w8, w9⟩ := hW
  rw [WfState, htr, hrec, hmov, hres, hnext]
  refine ⟨w1, w2, w3, w4, w5, w6, ?_, ?_, ?_⟩
  · rw [List.map_map]
    have : ((fun t : WarehouseTransfer => t.id) ∘ g) = fun t => t.id := by
      funext t
      simp [hid]
    rw [this]
    exact w7
  · intro t2 ht2
    rw [List.mem_map] at ht2
    obtain ⟨t, ht, hteq⟩ := ht2
    subst hteq
    rw [hid]
    exact w8 t ht
  · intro t2 ht2
    rw [List.mem_map] at ht2
    obtain ⟨t, ht, hteq⟩ := ht2
    subst hteq
    rw [hsrc]
    exact w9 t ht

theorem find_id_of_mem (l : List BinContent) (hN : (l.map (fun r => r.id)).Nodup)
    (bc : BinContent) (hmem : bc ∈ l) :
    l.find? (fun c => c.id == bc.id) = some bc := by
  induction l with
  | nil => cases hmem
  | cons x xs ih =>
    rw [List.find?_cons]
    rcases List.mem_cons.mp hmem with heq | htail
    · subst heq
      simp
    · rcases hx : (x.id == bc.id) with _ | _
      · simp only [cond_false]
        exact ih (by simpa using (List.nodup_cons.mp (by simpa using hN)).2) htail
      · exfalso
        have hxid : x.id = bc.id := by simpa using hx
        have hnotin : x.id ∉ xs.map (fun r => r.id) :=
          (List.nodup_cons.mp (by simpa using hN)).1
        exact hnotin (hxid ▸ List.mem_map.mpr ⟨bc, htail, rfl⟩)

theorem findRecord_of_mem (s : WhState) (hN : (s.records.map (fun r => r.id)).Nodup)
    (bc : BinContent) (hmem : bc ∈ s.records) : findRecord s bc.id = some bc :=
  find_id_of_mem s.records hN bc hmem

/-- `receive_goods` preserves well-formedness and the movement-log
invariant. -/
theorem receive_goods_ok_wfMov (s : WhState) (req : ReceiveRequest) (now : Int)
    (v : Nat) (s2 : WhState) (h : receive_goods s req now = (.ok v, s2))
    (hW : WfState s) (hM : InvMov s) : WfState s2 ∧ InvMov s2 := by
  unfold receive_goods at h
  split at h
  · simp at h
  · split at h
    · simp at h
    · split at h
      · simp at h
      · split at h
        · simp at h
        · split at h
          · simp at h
          · split at h
            · simp at h
            · split at h
              next bc hfound =>
                simp only [Prod.mk.injEq, Except.ok.injEq] at h
                obtain ⟨hv, hs2⟩ := h
                subst hs2
                have hfind : findRecord s bc.id = some bc :=
                  findRecord_of_mem s hW.1 bc (List.mem_of_find?_eq_some hfound)
                constructor
                · exact wf_step s _ bc.id bc _ _ rfl rfl rfl rfl rfl hfind (fun c => rfl) rfl hW
                · exact invMov_step s _ bc.id bc _ _ rfl rfl hfind hW.1 hM (fun c => rfl) rfl rfl rfl rfl
              next hnone =>
                simp only [Prod.mk.injEq, Except.ok.injEq] at h
                obtain ⟨hv, hs2⟩ := h
                subst hs2
                constructor
                · exact wf_new s _ _ _ rfl rfl rfl rfl rfl rfl rfl hW
                · exact invMov_new s _ _ _ rfl rfl rfl hW hM rfl rfl rfl rfl

/-- `issue_goods` preserves well-formedness and the movement-log invariant. -/
theorem issue_goods_ok_wfMov (s : WhState) (req : IssueRequest) (today : Int)
    (role : String) (v : Nat) (s2 : WhState)
    (h : issue_goods s req today role = (.ok v, s2))
    (hW : WfState s) (hM : InvMov s) : WfState s2 ∧ InvMov s2 := by
  unfold issue_goods at h
  split at h
  · simp at h
  next bc heq =>
    split at h
    · simp at h
    split at h
    · simp at h
    split at h
    · simp at h
    split at h
    · simp at h
    split at h
    · simp at h
    split at h
    · simp at h
    split at h
    · simp at h
    simp only [Prod.mk.injEq, Except.ok.injEq] at h
    obtain ⟨hv, hs2⟩ := h
    subst hs2
    have hbid : bc.id = req.bin_content_id := (findRecord_mem _ _ _ heq).2
    have hfind : findRecord s bc.id = some bc := by rw [hbid]; exact heq
    refine ⟨?_, ?_⟩ <;> split <;>
      first
        | exact wf_step s _ bc.id bc _ _ rfl rfl rfl rfl rfl hfind (fun c => rfl) rfl hW
        | exact invMov_step s _ bc.id bc _ _ rfl rfl hfind hW.1 hM (fun c => rfl)
            (by simp; try omega) rfl rfl (by simp; try omega)

/-- `adjust_stock` preserves well-formedness and the movement-log invariant. -/
theorem adjust_stock_ok_wfMov (s : WhState) (req : AdjustmentRequest) (v : Nat)
    (s2 : WhState) (h : adjust_stock s req = (.ok v, s2))
    (hW : WfState s) (hM : InvMov s) : WfState s2 ∧ InvMov s2 := by
  unfold adjust_stock at h
  split at h
  · simp at h
  next bc heq =>
    split at h
    · simp at h
    simp only [Prod.mk.injEq, Except.ok.injEq] at h
    obtain ⟨hv, hs2⟩ := h
    subst hs2
    have hbid : bc.id = req.bin_content_id := (findRecord_mem _ _ _ heq).2
    have hfind : findRecord s bc.id = some bc := by rw [hbid]; exact heq
    constructor
    · exact wf_step s _ bc.id bc _ _ rfl rfl rfl rfl rfl hfind (fun c => rfl) rfl hW
    · exact invMov_step s _ bc.id bc _ _ rfl rfl hfind hW.1 hM (fun c => rfl)
        (by simp; try omega) rfl rfl (by simp; try omega)

/-- `scrap_stock` preserves well-formedness and the movement-log invariant. -/
theorem scrap_stock_ok_wfMov (s : WhState) (req : ScrapRequest) (v : Nat)
    (s2 : WhState) (h : scrap_stock s req = (.ok v, s2))
    (hW : WfState s) (hM : InvMov s) : WfState s2 ∧ InvMov s2 := by
  unfold scrap_stock at h
  split at h
  · simp at h
  next bc heq =>
    simp only [Prod.mk.injEq, Except.ok.injEq] at h
    obtain ⟨hv, hs2⟩ := h
    subst hs2
    have hbid : bc.id = req.bin_content_id := (findRecord_mem _ _ _ heq).2
    have hfind : findRecord s bc.id = some bc := by rw [hbid]; exact heq
    constructor
    · exact wf_step s _ bc.id bc _ _ rfl rfl rfl rfl rfl hfind (fun c => rfl) rfl hW
    · exact invMov_step s _ bc.id bc _ _ rfl rfl hfind hW.1 hM (fun c => rfl)
        (by simp; try omega) rfl rfl (by simp; try omega)

theorem invMov_congr (s s2 : WhState) (hrec : s2.records = s.records)
    (hmov : s2.movements = s.movements) (hM : InvMov s) : InvMov s2 := by
  obtain ⟨hM1, hM2⟩ := hM
  constructor
  · intro m hm
    rw [hmov] at hm
    exact hM1 m hm
  · intro r hr
    rw [hrec] at hr
    have hmm := movementsFor_congr s s2 hmov r.id
    refine ⟨?_, ?_⟩
    · rw [movSumFor, hmm, ← movSumFor]
      exact (hM2 r hr).1
    · rw [hmm]
      exact (hM2 r hr).2

theorem wf_congr (s s2 : WhState) (hrec : s2.records = s.records)
    (hmov : s2.movements = s.movements) (hres : s2.reservations = s.reservations)
    (htr : s2.transfers = s.transfers) (hnext : s2.next_id = s.next_id)
    (hW : WfState s) : WfState s2 := by
  rw [WfState, hrec, hmov, hres, htr, hnext]
  exact hW

theorem mem_updRecords_of_ne (rs : List BinContent) (i : Nat) (f : BinContent → BinContent)
    (r : BinContent) (hr : r ∈ rs) (hne : r.id ≠ i) : r ∈ updRecords rs i f :=
  List.mem_map.mpr ⟨r, hr, by rw [if_neg hne]⟩

theorem releaseFold_eq_map (l : List StockReservation) (rs : List BinContent) :
    l.foldl (fun rs r => releaseItems r.items rs) rs =
      rs.map (fun x => { x with reserved_quantity :=
        x.reserved_quantity - ((l.map (fun r => itemSumFor r.items x.id)).sum) }) := by
  induction l generalizing rs with
  | nil =>
    have : ∀ x : BinContent,
        ({ x with reserved_quantity :=
          x.reserved_quantity - (([] : List StockReservation).map
            (fun r => itemSumFor r.items x.id)).sum }) = x := by
      intro x; cases x; simp
    simp only [List.foldl_nil]
    rw [List.map_congr_left (fun x _ => this x)]
    simp
  | cons q rest ih =>
    show rest.foldl _ (releaseItems q.items rs) = _
    rw [ih, releaseItems_eq_map, List.map_map]
    apply List.map_congr_left
    intro x _
    simp only [Function.comp_apply, List.map_cons, List.sum_cons]
    cases x
    simp
    omega

theorem allocateGreedy_mem_fst (n : Int) (l : List BinContent) (p : BinContent × Int)
    (hp : p ∈ allocateGreedy n l) : p.1 ∈ l := by
  induction l generalizing n with
  | nil => simp [allocateGreedy] at hp
  | cons c rest ih =>
    unfold allocateGreedy at hp
    split at hp
    · simp at hp
    · dsimp only at hp
      split at hp
      · exact List.mem_cons_of_mem c (ih _ hp)
      · rcases List.mem_cons.mp hp with hh | hh
        · rw [hh]
          exact List.mem_cons_self c rest
        · exact List.mem_cons_of_mem c (ih _ hh)

theorem fefoSorted_mem (s : WhState) (pid : Nat) (today : Int) (x : BinContent)
    (hx : x ∈ fefoSorted s pid today) : x ∈ fefoEligible s pid today :=
  (List.perm_insertionSort fefoLe (fefoEligible s pid today)).mem_iff.mp hx

theorem fefoEligible_mem (s : WhState) (pid : Nat) (today : Int) (x : BinContent)
    (hx : x ∈ fefoEligible s pid today) :
    x ∈ s.records ∧ x.product_id = pid ∧ x.status = "available" ∧
      x.reserved_quantity < x.quantity ∧ today ≤ x.use_by_date := by
  unfold fefoEligible at hx
  have hmem := List.mem_of_mem_filter hx
  have hprop := List.of_mem_filter hx
  simp only [Bool.and_eq_true, beq_iff_eq, decide_eq_true_eq] at hprop
  exact ⟨hmem, hprop.1.1.1, hprop.1.1.2, hprop.1.2, hprop.2⟩

/-- Every fresh-record id bound of a well-formed state applies to the rows an
allocation plan draws from. -/
theorem fefoPlan_fst_mem (s : WhState) (pid : Nat) (qty today : Int)
    (p : BinContent × Int) (hp : p ∈ fefoPlan s pid qty today) :
    p.1 ∈ s.records :=
  (fefoEligible_mem s pid today p.1
    (fefoSorted_mem s pid today p.1 (allocateGreedy_mem_fst qty _ p hp))).1

theorem wf_addReservation (s s2 : WhState) (res : StockReservation)
    (hrec : s2.records = s.records)
    (hmov : s2.movements = s.movements)
    (htr : s2.transfers = s.transfers)
    (hres : s2.reservations = s.reservations ++ [res])
    (hnext : s2.next_id = s.next_id + 1)
    (hid : res.id = s.next_id)
    (hitems : ∀ it ∈ res.items, it.bin_content_id < s.next_id)
    (hW : WfState s) : WfState s2 := by
  obtain ⟨w1, w2, w3, w4, w5, w6, w7, w8, w9⟩ := hW
  rw [WfState, hrec, hmov, htr, hres, hnext]
  refine ⟨w1, ?_, ?_, ?_, ?_, ?_, w7, ?_, ?_⟩
  · intro r hr
    have := w2 r hr
    omega
  · intro m hm
    have := w3 m hm
    omega
  · rw [List.map_append, List.nodup_append]
    refine ⟨w4, by simp, ?_⟩
    intro x hx
    simp only [List.map_cons, List.map_nil, List.mem_singleton]
    rintro rfl
    rw [List.mem_map] at hx
    obtain ⟨r, hr, hrid⟩ := hx
    have := w5 r hr
    omega
  · intro r hr
    rcases List.mem_append.mp hr with hr | hr
    · have := w5 r hr
      omega
    · rw [List.mem_singleton] at hr
      subst hr
      omega
  · intro r hr it hit
    rcases List.mem_append.mp hr with hr | hr
    · have := w6 r hr it hit
      omega
    · rw [List.mem_singleton] at hr
      subst hr
      have := hitems it hit
      omega
  · intro t ht
    have := w8 t ht
    omega
  · intro t ht
    have := w9 t ht
    omega

theorem wf_cross (s s2 : WhState) (i : Nat) (bc : BinContent)
    (f : BinContent → BinContent) (m : BinMovement) (t : WarehouseTransfer)
    (hrec : s2.records = updRecords s.records i f)
    (hmov : s2.movements = s.movements ++ [m])
    (hres : s2.reservations = s.reservations)
    (htr : s2.transfers = s.transfers ++ [t])
    (hnext : s2.next_id = s.next_id + 1)
    (hfind : findRecord s i = some bc)
    (hfid : ∀ c, (f c).id = c.id)
    (hmb : m.bin_content_id = i)
    (htid : t.id = s.next_id)
    (htsrc : t.source_bin_content_id = i)
    (hW : WfState s) : WfState s2 := by
  obtain ⟨hbcmem, hbcid⟩ := findRecord_mem s i bc hfind
  obtain ⟨w1, w2, w3, w4, w5, w6, w7, w8, w9⟩ := hW
  have hi : i < s.next_id := by rw [← hbcid]; exact w2 bc hbcmem
  rw [WfState, hrec, hmov, hres, htr, hnext]
  refine ⟨?_, ?_, ?_, w4, ?_, ?_, ?_, ?_, ?_⟩
  · rw [updRecords_map_id _ _ _ hfid]
    exact w1
  · intro r2 hr2
    obtain ⟨r, hr, hreq⟩ := mem_updRecords _ _ _ _ hr2
    have : r2.id = r.id := by
      rw [← hreq]; split <;> simp [hfid]
    rw [this]
    have := w2 r hr
    omega
  · intro m2 hm2
    rcases List.mem_append.mp hm2 with hm2 | hm2
    · have := w3 m2 hm2
      omega
    · rw [List.mem_singleton] at hm2
      subst hm2
      omega
  · intro r hr
    have := w5 r hr
    omega
  · intro r hr it hit
    have := w6 r hr it hit
    omega
  · rw [List.map_append, List.nodup_append]
    refine ⟨w7, by simp, ?_⟩
    intro x hx
    simp only [List.map_cons, List.map_nil, List.mem_singleton]
    rintro rfl
    rw [List.mem_map] at hx
    obtain ⟨u, hu, huid⟩ := hx
    have := w8 u hu
    omega
  · intro u hu
    rcases List.mem_append.mp hu with hu | hu
    · have := w8 u hu
      omega
    · rw [List.mem_singleton] at hu
      subst hu
      omega
  · intro u hu
    rcases List.mem_append.mp hu with hu | hu
    · have := w9 u hu
      omega
    · rw [List.mem_singleton] at hu
      subst hu
      omega

/-- The fulfillment loop preserves well-formedness and the movement-log
invariant. -/
theorem fulfillItems_wfMov (items : List ReservationItem) (s : WhState)
    (hW : WfState s) (hM : InvMov s) :
    WfState (fulfillItems items s) ∧ InvMov (fulfillItems items s) := by
  induction items generalizing s with
  | nil => exact ⟨hW, hM⟩
  | cons it rest ih =>
    rcases hf : findRecord s it.bin_content_id with _ | bc
    · simp only [fulfillItems, hf]
      exact ih s hW hM
    · have hbid : bc.id = it.bin_content_id := (findRecord_mem _ _ _ hf).2
      have hfind : findRecord s bc.id = some bc := by rw [hbid]; exact hf
      simp only [fulfillItems, hf]
      refine ih _ ?_ ?_
      · split <;>
          exact wf_step s _ bc.id bc _ _ rfl rfl rfl rfl rfl hfind (fun c => rfl) rfl hW
      · split <;>
          exact invMov_step s _ bc.id bc _ _ rfl rfl hfind hW.1 hM (fun c => rfl)
            (by simp; try omega) rfl rfl (by simp; try omega)

/-- `fulfill_reservation` preserves well-formedness and the movement-log
invariant. -/
theorem fulfill_reservation_ok_wfMov (s : WhState) (rid : Nat) (v : Nat)
    (s2 : WhState) (h : fulfill_reservation s rid = (.ok v, s2))
    (hW : WfState s) (hM : InvMov s) : WfState s2 ∧ InvMov s2 := by
  unfold fulfill_reservation at h
  split at h
  · simp at h
  next res heq =>
    split at h
    · simp at h
    split at h
    · simp at h
    split at h
    · simp at h
    simp only [Prod.mk.injEq, Except.ok.injEq] at h
    obtain ⟨hv, hs2⟩ := h
    subst hs2
    obtain ⟨W1, M1⟩ := fulfillItems_wfMov res.items s hW hM
    constructor
    · exact wf_mapReservations (fulfillItems res.items s) _ _ rfl rfl rfl rfl rfl
        (fun r => by split <;> rfl) (fun r => by split <;> rfl) W1
    · exact invMov_congr (fulfillItems res.items s) _ rfl rfl M1

/-- `cancel_reservation` preserves well-formedness and the movement-log
invariant. -/
theorem cancel_reservation_ok_wfMov (s : WhState) (rid : Nat) (v : Nat)
    (s2 : WhState) (h : cancel_reservation s rid = (.ok v, s2))
    (hW : WfState s) (hM : InvMov s) : WfState s2 ∧ InvMov s2 := by
  unfold cancel_reservation at h
  split at h
  · simp at h
  next res heq =>
    split at h
    · simp at h
    split at h
    · simp at h
    split at h
    · simp at h
    simp only [Prod.mk.injEq, Except.ok.injEq] at h
    obtain ⟨hv, hs2⟩ := h
    subst hs2
    have W1 : WfState { s with records := releaseItems res.items s.records } :=
      wf_mapRecords s _ _ (releaseItems_eq_map res.items s.records) rfl rfl rfl rfl
        (fun r => rfl) hW
    have M1 : InvMov { s with records := releaseItems res.items s.records } :=
      invMov_mapRecords s _ _ (releaseItems_eq_map res.items s.records) rfl
        (fun r => rfl) (fun r => rfl) hM
    constructor
    · exact wf_mapReservations { s with records := releaseItems res.items s.records } _ _
        rfl rfl rfl rfl rfl (fun r => by split <;> rfl) (fun r => by split <;> rfl) W1
    · exact invMov_congr { s with records := releaseItems res.items s.records } _ rfl rfl M1

/-- `cleanup_expired_reservations` preserves well-formedness and the
movement-log invariant. -/
theorem cleanup_ok_wfMov (s : WhState) (now : Int) (v : Nat) (s2 : WhState)
    (h : cleanup_expired_reservations s now = (.ok v, s2))
    (hW : WfState s) (hM : InvMov s) : WfState s2 ∧ InvMov s2 := by
  unfold cleanup_expired_reservations at h
  simp only [Prod.mk.injEq, Except.ok.injEq] at h
  obtain ⟨hv, hs2⟩ := h
  subst hs2
  have hrecmap := releaseFold_eq_map
    (s.reservations.filter (fun r => decide (r.status = "active") && decide (r.reserved_until < now)))
    s.records
  have W1 : WfState { s with records :=
      ((s.reservations.filter (fun r => decide (r.status = "active") && decide (r.reserved_until < now))).foldl
        (fun rs r => releaseItems r.items rs) s.records) } :=
    wf_mapRecords s _ _ hrecmap rfl rfl rfl rfl (fun r => rfl) hW
  have M1 : InvMov { s with records :=
      ((s.reservations.filter (fun r => decide (r.status = "active") && decide (r.reserved_until < now))).foldl
        (fun rs r => releaseItems r.items rs) s.records) } :=
    invMov_mapRecords s _ _ hrecmap rfl (fun r => rfl) (fun r => rfl) hM
  constructor
  · exact wf_mapReservations { s with records :=
        ((s.reservations.filter (fun r => decide (r.status = "active") && decide (r.reserved_until < now))).foldl
          (fun rs r => releaseItems r.items rs) s.records) } _ _ rfl rfl rfl rfl rfl
      (fun r => by split <;> rfl) (fun r => by split <;> rfl) W1
  · exact invMov_congr { s with records :=
        ((s.reservations.filter (fun r => decide (r.status = "active") && decide (r.reserved_until < now))).foldl
          (fun rs r => releaseItems r.items rs) s.records) } _ rfl rfl M1

/-- `create_reservation` preserves well-formedness and the movement-log
invariant. -/
theorem create_reservation_ok_wfMov (s : WhState) (req : ReservationCreate)
    (today : Int) (v : Nat × Bool) (s2 : WhState)
    (h : create_reservation s req today = (.ok v, s2))
    (hW : WfState s) (hM : InvMov s) : WfState s2 ∧ InvMov s2 := by
  unfold create_reservation at h
  split at h
  · simp at h
  split at h
  · simp at h
  split at h
  · simp at h
  dsimp only at h
  split at h
  · simp at h
  simp only [Prod.mk.injEq, Except.ok.injEq] at h
  obtain ⟨hv, hs2⟩ := h
  subst hs2
  have hitems : ∀ it ∈ (allocateGreedy req.quantity (fefoSorted s req.product_id today)).map
      (fun p => (⟨p.1.id, p.2⟩ : ReservationItem)), it.bin_content_id < s.next_id := by
    intro it hit
    rw [List.mem_map] at hit
    obtain ⟨p, hp, hpeq⟩ := hit
    have hmem : p.1 ∈ s.records := fefoPlan_fst_mem s req.product_id req.quantity today p hp
    have := hW.2.1 p.1 hmem
    rw [← hpeq]
    exact this
  have W1 : WfState { s with
      reservations := s.reservations ++
        [⟨s.next_id, req.product_id,
          ((allocateGreedy req.quantity (fefoSorted s req.product_id today)).map (fun p => p.2)).sum,
          req.reserved_until, "active",
          (allocateGreedy req.quantity (fefoSorted s req.product_id today)).map
            (fun p => ⟨p.1.id, p.2⟩)⟩],
      next_id := s.next_id + 1 } :=
    wf_addReservation s _ _ rfl rfl rfl rfl rfl rfl hitems hW
  constructor
  · exact wf_mapRecords { s with
        reservations := s.reservations ++
          [⟨s.next_id, req.product_id,
            ((allocateGreedy req.quantity (fefoSorted s req.product_id today)).map (fun p => p.2)).sum,
            req.reserved_until, "active",
            (allocateGreedy req.quantity (fefoSorted s req.product_id today)).map
              (fun p => ⟨p.1.id, p.2⟩)⟩],
        next_id := s.next_id + 1 } _ _
      (reserveAlloc_eq_map (allocateGreedy req.quantity (fefoSorted s req.product_id today)) s.records)
      rfl rfl rfl rfl (fun r => rfl) W1
  · exact invMov_mapRecords s _ _
      (reserveAlloc_eq_map (allocateGreedy req.quantity (fefoSorted s req.product_id today)) s.records)
      rfl (fun r => rfl) (fun r => rfl) hM

/-- `dispatch_transfer` preserves well-formedness and the movement-log
invariant. -/
theorem dispatch_transfer_ok_wfMov (s : WhState) (tid : Nat) (v : Nat)
    (s2 : WhState) (h : dispatch_transfer s tid = (.ok v, s2))
    (hW : WfState s) (hM : InvMov s) : WfState s2 ∧ InvMov s2 := by
  unfold dispatch_transfer at h
  split at h
  · simp at h
  split at h
  · simp at h
  simp only [Prod.mk.injEq, Except.ok.injEq] at h
  obtain ⟨hv, hs2⟩ := h
  subst hs2
  constructor
  · exact wf_mapTransfers s _ _ rfl rfl rfl rfl rfl
      (fun t => by split <;> rfl) (fun t => by split <;> rfl) hW
  · exact invMov_congr s _ rfl rfl hM

/-- `transfer_within_warehouse` preserves well-formedness and the movement-log
invariant. -/
theorem transfer_within_ok_wfMov (s : WhState) (req : TransferCreate) (v : Nat)
    (s2 : WhState) (h : transfer_within_warehouse s req = (.ok v, s2))
    (hW : WfState s) (hM : InvMov s) : WfState s2 ∧ InvMov s2 := by
  unfold transfer_within_warehouse at h
  split at h
  · simp at h
  next src heqsrc =>
    split at h
    · simp at h
    split at h
    · simp at h
    next targetBin heqtb =>
      split at h
      · simp at h
      next srcBin heqsb =>
        split at h
        · simp at h
        split at h
        · simp at h
        next hnsb =>
          split at h
          · simp at h
          split at h
          · simp at h
          have hsrcm := findRecord_mem _ _ _ heqsrc
          have hfindsrc : findRecord s src.id = some src := by rw [hsrcm.2]; exact heqsrc
          have W_A : WfState (addMovement (updateRecord s src.id
              (fun c => { c with quantity := c.quantity - req.quantity }))
              ⟨src.id, "transfer", -req.quantity, src.quantity, src.quantity - req.quantity,
                "transfer_out", none, false⟩) :=
            wf_step s _ src.id src _ _ rfl rfl rfl rfl rfl hfindsrc (fun c => rfl) rfl hW
          have M_A : InvMov (addMovement (updateRecord s src.id
              (fun c => { c with quantity := c.quantity - req.quantity }))
              ⟨src.id, "transfer", -req.quantity, src.quantity, src.quantity - req.quantity,
                "transfer_out", none, false⟩) :=
            invMov_step s _ src.id src _ _ rfl rfl hfindsrc hW.1 hM (fun c => rfl)
              (by simp; try omega) rfl rfl (by simp; try omega)
          split at h
          next tgt heqtgt =>
            simp only [Prod.mk.injEq, Except.ok.injEq] at h
            obtain ⟨hv, hs2⟩ := h
            subst hs2
            have htgtmem : tgt ∈ s.records := List.mem_of_find?_eq_some heqtgt
            have htgtbin : tgt.bin_id = targetBin.id := by
              have := List.find?_some heqtgt
              simp only [Bool.and_eq_true, beq_iff_eq] at this
              exact this.1.1
            have hne : tgt.id ≠ src.id := by
              intro hh
              have heqr : tgt = src := record_unique s hW.1 tgt src htgtmem hsrcm.1 hh
              exact hnsb (by rw [← heqr]; exact htgtbin)
            have htgtA : tgt ∈ (addMovement (updateRecord s src.id
                (fun c => { c with quantity := c.quantity - req.quantity }))
                ⟨src.id, "transfer", -req.quantity, src.quantity, src.quantity - req.quantity,
                  "transfer_out", none, false⟩).records :=
              mem_updRecords_of_ne s.records src.id _ tgt htgtmem hne
            have hfindtgt : findRecord (addMovement (updateRecord s src.id
                (fun c => { c with quantity := c.quantity - req.quantity }))
                ⟨src.id, "transfer", -req.quantity, src.quantity, src.quantity - req.quantity,
                  "transfer_out", none, false⟩) tgt.id = some tgt :=
              findRecord_of_mem _ W_A.1 tgt htgtA
            refine ⟨?_, ?_⟩ <;> split <;>
              first
                | exact wf_step _ _ tgt.id tgt _ _ rfl rfl rfl rfl rfl hfindtgt
                    (fun c => rfl) rfl W_A
                | exact invMov_step _ _ tgt.id tgt _ _ rfl rfl hfindtgt W_A.1 M_A
                    (fun c => rfl) (by simp; try omega) rfl rfl (by simp; try omega)
          next hnone =>
            simp only [Prod.mk.injEq, Except.ok.injEq] at h
            obtain ⟨hv, hs2⟩ := h
            subst hs2
            refine ⟨?_, ?_⟩ <;> split <;>
              first
                | exact wf_new _ _ _ _ rfl rfl rfl rfl rfl rfl rfl W_A
                | exact invMov_new _ _ _ _ rfl rfl rfl W_A M_A rfl rfl rfl rfl

/-- `create_cross_warehouse_transfer` preserves well-formedness and the
movement-log invariant. -/
theorem create_cross_ok_wfMov (s : WhState) (req : CrossWarehouseTransferCreate)
    (v : Nat) (s2 : WhState) (h : create_cross_warehouse_transfer s req = (.ok v, s2))
    (hW : WfState s) (hM : InvMov s) : WfState s2 ∧ InvMov s2 := by
  unfold create_cross_warehouse_transfer at h
  split at h
  · simp at h
  next src heqsrc =>
    split at h
    · simp at h
    split at h
    · simp at h
    split at h
    · simp at h
    next srcBin heqsb =>
      split at h
      · simp at h
      next hnsame =>
        split at h
        · simp at h
        next tbid heqtb =>
          simp only [Prod.mk.injEq, Except.ok.injEq] at h
          obtain ⟨hv, hs2⟩ := h
          subst hs2
          have hsrcm := findRecord_mem _ _ _ heqsrc
          have hfindsrc : findRecord s src.id = some src := by rw [hsrcm.2]; exact heqsrc
          refine ⟨?_, ?_⟩ <;> split <;>
            first
              | exact wf_cross s _ src.id src _ _ _ rfl rfl rfl rfl rfl hfindsrc
                  (fun c => rfl) rfl rfl rfl hW
              | exact invMov_step s _ src.id src _ _ rfl rfl hfindsrc hW.1 hM
                  (fun c => rfl) (by simp; try omega) rfl rfl (by simp; try omega)

/-- `confirm_cross_warehouse_transfer` preserves well-formedness and the
movement-log invariant. -/
theorem confirm_cross_ok_wfMov (s : WhState) (tid : Nat)
    (req : TransferConfirmRequest) (v : Nat) (s2 : WhState)
    (h : confirm_cross_warehouse_transfer s tid req = (.ok v, s2))
    (hW : WfState s) (hM : InvMov s) : WfState s2 ∧ InvMov s2 := by
  unfold confirm_cross_warehouse_transfer at h
  split at h
  · simp at h
  next t heqt =>
    split at h
    · simp at h
    split at h
    · simp at h
    split at h
    · simp at h
    split at h
    · simp at h
    next targetBin heqtb =>
      split at h
      · simp at h
      split at h
      · simp at h
      next src heqsrc =>
        split at h
        · simp at h
        split at h
        next tgt heqtgt =>
          simp only [Prod.mk.injEq, Except.ok.injEq] at h
          obtain ⟨hv, hs2⟩ := h
          subst hs2
          have htgtmem : tgt ∈ s.records := List.mem_of_find?_eq_some heqtgt
          have hfindtgt : findRecord s tgt.id = some tgt :=
            findRecord_of_mem s hW.1 tgt htgtmem
          have W1 : WfState (updBinStatus (addMovement (updateRecord s tgt.id
              (fun c => { c with quantity := c.quantity + req.received_quantity }))
              ⟨tgt.id, "transfer", req.received_quantity, tgt.quantity,
                tgt.quantity + req.received_quantity, "cross_warehouse_in", none, false⟩)
              targetBin.id "occupied") :=
            wf_step s _ tgt.id tgt _ _ rfl rfl rfl rfl rfl hfindtgt (fun c => rfl) rfl hW
          constructor
          · exact wf_mapTransfers (updBinStatus (addMovement (updateRecord s tgt.id
                (fun c => { c with quantity := c.quantity + req.received_quantity }))
                ⟨tgt.id, "transfer", req.received_quantity, tgt.quantity,
                  tgt.quantity + req.received_quantity, "cross_warehouse_in", none, false⟩)
                targetBin.id "occupied") _ _ rfl rfl rfl rfl rfl
              (fun u => by split <;> rfl) (fun u => by split <;> rfl) W1
          · exact invMov_step s _ tgt.id tgt _ _ rfl rfl hfindtgt hW.1 hM (fun c => rfl)
              (by simp; try omega) rfl rfl (by simp; try omega)
        next hnone =>
          simp only [Prod.mk.injEq, Except.ok.injEq] at h
          obtain ⟨hv, hs2⟩ := h
          subst hs2
          have W1 : WfState (updBinStatus (addMovement { s with
              records := s.records ++ [⟨s.next_id, targetBin.id, src.product_id, src.supplier_id,
                src.batch_number, src.use_by_date, src.received_date, req.received_quantity, 0,
                "available"⟩],
              next_id := s.next_id + 1 }
              ⟨s.next_id, "transfer", req.received_quantity, 0, req.received_quantity,
                "cross_warehouse_in", none, false⟩) targetBin.id "occupied") :=
            wf_new s _ _ _ rfl rfl rfl rfl rfl rfl rfl hW
          constructor
          · exact wf_mapTransfers (updBinStatus (addMovement { s with
                records := s.records ++ [⟨s.next_id, targetBin.id, src.product_id, src.supplier_id,
                  src.batch_number, src.use_by_date, src.received_date, req.received_quantity, 0,
                  "available"⟩],
                next_id := s.next_id + 1 }
                ⟨s.next_id, "transfer", req.received_quantity, 0, req.received_quantity,
                  "cross_warehouse_in", none, false⟩) targetBin.id "occupied") _ _ rfl rfl rfl rfl rfl
              (fun u => by split <;> rfl) (fun u => by split <;> rfl) W1
          · exact invMov_new s _ _ _ rfl rfl rfl hW hM rfl rfl rfl rfl

/-- `cancel_transfer` preserves well-formedness and the movement-log
invariant. -/
theorem cancel_transfer_ok_wfMov (s : WhState) (tid : Nat) (v : Nat)
    (s2 : WhState) (h : cancel_transfer s tid = (.ok v, s2))
    (hW : WfState s) (hM : InvMov s) : WfState s2 ∧ InvMov s2 := by
  unfold cancel_transfer at h
  split at h
  · simp at h
  next t heqt =>
    split at h
    · simp at h
    split at h
    · simp at h
    split at h
    · simp at h
    next src heqsrc =>
      simp only [Prod.mk.injEq, Except.ok.injEq] at h
      obtain ⟨hv, hs2⟩ := h
      subst hs2
      have hsrcm := findRecord_mem _ _ _ heqsrc
      have hfindsrc : findRecord s src.id = some src := by rw [hsrcm.2]; exact heqsrc
      have W1 : WfState (addMovement (updBinStatus (updateRecord s src.id
          (fun c => { c with quantity := c.quantity + t.quantity_sent })) src.bin_id "occupied")
          ⟨src.id, "transfer", t.quantity_sent, src.quantity, src.quantity + t.quantity_sent,
            "transfer_cancelled", none, false⟩) :=
        wf_step s _ src.id src _ _ rfl rfl rfl rfl rfl hfindsrc (fun c => rfl) rfl hW
      constructor
      · exact wf_mapTransfers (addMovement (updBinStatus (updateRecord s src.id
            (fun c => { c with quantity := c.quantity + t.quantity_sent })) src.bin_id "occupied")
            ⟨src.id, "transfer", t.quantity_sent, src.quantity, src.quantity + t.quantity_sent,
              "transfer_cancelled", none, false⟩) _ _ rfl rfl rfl rfl rfl
          (fun u => by split <;> rfl) (fun u => by split <;> rfl) W1
      · exact invMov_step s _ src.id src _ _ rfl rfl hfindsrc hW.1 hM (fun c => rfl)
          (by simp; try omega) rfl rfl (by simp; try omega)

/-- Every committed operation preserves well-formedness and the movement-log
invariant. -/
theorem execOp_wfMov (s : WhState) (op : Op) (hW : WfState s) (hM : InvMov s) :
    WfState (execOp s op) ∧ InvMov (execOp s op) := by
  cases op with
  | receive req now =>
    unfold execOp opRun
    rcases hrun : receive_goods s req now with ⟨fst, snd⟩
    simp only [hrun]
    cases fst with
    | error e => exact ⟨hW, hM⟩
    | ok val => exact receive_goods_ok_wfMov s req now val snd hrun hW hM
  | issue req today role =>
    unfold execOp opRun
    rcases hrun : issue_goods s req today role with ⟨fst, snd⟩
    simp only [hrun]
    cases fst with
    | error e => exact ⟨hW, hM⟩
    | ok val => exact issue_goods_ok_wfMov s req today role val snd hrun hW hM
  | adjust req =>
    unfold execOp opRun
    rcases hrun : adjust_stock s req with ⟨fst, snd⟩
    simp only [hrun]
    cases fst with
    | error e => exact ⟨hW, hM⟩
    | ok val => exact adjust_stock_ok_wfMov s req val snd hrun hW hM
  | scrap req =>
    unfold execOp opRun
    rcases hrun : scrap_stock s req with ⟨fst, snd⟩
    simp only [hrun]
    cases fst with
    | error e => exact ⟨hW, hM⟩
    | ok val => exact scrap_stock_ok_wfMov s req val snd hrun hW hM
  | createRes req today =>
    unfold execOp opRun
    rcases hrun : create_reservation s req today with ⟨fst, snd⟩
    simp only [hrun]
    cases fst with
    | error e => exact ⟨hW, hM⟩
    | ok val => exact create_reservation_ok_wfMov s req today val snd hrun hW hM
  | fulfillRes rid =>
    unfold execOp opRun
    rcases hrun : fulfill_reservation s rid with ⟨fst, snd⟩
    simp only [hrun]
    cases fst with
    | error e => exact ⟨hW, hM⟩
    | ok val => exact fulfill_reservation_ok_wfMov s rid val snd hrun hW hM
  | cancelRes rid =>
    unfold execOp opRun
    rcases hrun : cancel_reservation s rid with ⟨fst, snd⟩
    simp only [hrun]
    cases fst with
    | error e => exact ⟨hW, hM⟩
    | ok val => exact cancel_reservation_ok_wfMov s rid val snd hrun hW hM
  | sweep now =>
    unfold execOp opRun
    rcases hrun : cleanup_expired_reservations s now with ⟨fst, snd⟩
    simp only [hrun]
    cases fst with
    | error e => exact ⟨hW, hM⟩
    | ok val => exact cleanup_ok_wfMov s now val snd hrun hW hM
  | transferWithin req =>
    unfold execOp opRun
    rcases hrun : transfer_within_warehouse s req with ⟨fst, snd⟩
    simp only [hrun]
    cases fst with
    | error e => exact ⟨hW, hM⟩
    | ok val => exact transfer_within_ok_wfMov s req val snd hrun hW hM
  | createCross req =>
    unfold execOp opRun
    rcases hrun : create_cross_warehouse_transfer s req with ⟨fst, snd⟩
    simp only [hrun]
    cases fst with
    | error e => exact ⟨hW, hM⟩
    | ok val => exact create_cross_ok_wfMov s req val snd hrun hW hM
  | dispatch tid =>
    unfold execOp opRun
    rcases hrun : dispatch_transfer s tid with ⟨fst, snd⟩
    simp only [hrun]
    cases fst with
    | error e => exact ⟨hW, hM⟩
    | ok val => exact dispatch_transfer_ok_wfMov s tid val snd hrun hW hM
  | confirm tid req =>
    unfold execOp opRun
    rcases hrun : confirm_cross_warehouse_transfer s tid req with ⟨fst, snd⟩
    simp only [hrun]
    cases fst with
    | error e => exact ⟨hW, hM⟩
    | ok val => exact confirm_cross_ok_wfMov s tid req val snd hrun hW hM
  | cancelTransfer tid =>
    unfold execOp opRun
    rcases hrun : cancel_transfer s tid with ⟨fst, snd⟩
    simp only [hrun]
    cases fst with
    | error e => exact ⟨hW, hM⟩
    | ok val => exact cancel_transfer_ok_wfMov s tid val snd hrun hW hM

/-- Every committed operation sequence preserves well-formedness and the
movement-log invariant. -/
theorem run_wfMov (s : WhState) (ops : List Op) (hW : WfState s) (hM : InvMov s) :
    WfState (run s ops) ∧ InvMov (run s ops) := by
  induction ops generalizing s with
  | nil => exact ⟨hW, hM⟩
  | cons op rest ih =>
    have h1 := execOp_wfMov s op hW hM
    exact ih (execOp s op) h1.1 h1.2

/-! Facts about sums of reservation lines and allocation plans. -/

theorem itemSumFor_eq_zero (items : List ReservationItem) (j : Nat)
    (h : ∀ it ∈ items, it.bin_content_id ≠ j) : itemSumFor items j = 0 := by
  unfold itemSumFor
  have : items.filter (fun it => it.bin_content_id == j) = [] := by
    apply List.filter_eq_nil_iff.mpr
    intro it hit
    simpa using h it hit
  rw [this]
  rfl

theorem itemSumFor_nonneg (items : List ReservationItem) (j : Nat)
    (h : ∀ it ∈ items, 0 ≤ it.quantity_reserved) : 0 ≤ itemSumFor items j := by
  unfold itemSumFor
  apply List.sum_nonneg
  intro x hx
  rw [List.mem_map] at hx
  obtain ⟨it, hit, hiteq⟩ := hx
  rw [← hiteq]
  exact h it (List.mem_of_mem_filter hit)

theorem activeLineSum_congr (s s2 : WhState) (hres : s2.reservations = s.reservations)
    (j : Nat) : activeLineSum s2 j = activeLineSum s j := by
  unfold activeLineSum
  rw [hres]

theorem activeLineSum_nonneg (s : WhState) (j : Nat)
    (h : ∀ res ∈ s.reservations, ∀ it ∈ res.items, 0 ≤ it.quantity_reserved) :
    0 ≤ activeLineSum s j := by
  unfold activeLineSum
  apply List.sum_nonneg
  intro x hx
  rw [List.mem_map] at hx
  obtain ⟨res, hres, hreseq⟩ := hx
  rw [← hreseq]
  exact itemSumFor_nonneg res.items j (h res (List.mem_of_mem_filter hres))

theorem activeLineSum_fresh (s : WhState) (j : Nat)
    (h : ∀ res ∈ s.reservations, ∀ it ∈ res.items, it.bin_content_id < j) :
    activeLineSum s j = 0 := by
  unfold activeLineSum
  have : ∀ x ∈ s.reservations.filter (fun r => decide (r.status = "active")),
      itemSumFor x.items j = 0 := by
    intro x hx
    apply itemSumFor_eq_zero
    intro it hit
    have := h x (List.mem_of_mem_filter hx) it hit
    omega
  rw [List.map_congr_left this]
  simp

theorem activeLineSum_append (s s2 : WhState) (res : StockReservation)
    (hres : s2.reservations = s.reservations ++ [res])
    (hact : res.status = "active") (j : Nat) :
    activeLineSum s2 j = activeLineSum s j + itemSumFor res.items j := by
  unfold activeLineSum
  rw [hres, List.filter_append, List.map_append, List.sum_append]
  congr 1
  simp [List.filter_cons, hact]

theorem allocSumFor_eq_zero (alloc : List (BinContent × Int)) (j : Nat)
    (h : ∀ p ∈ alloc, p.1.id ≠ j) : allocSumFor alloc j = 0 := by
  unfold allocSumFor
  have : alloc.filter (fun p => p.1.id == j) = [] := by
    apply List.filter_eq_nil_iff.mpr
    intro p hp
    simpa using h p hp
  rw [this]
  rfl

theorem allocateGreedy_fst_sublist (n : Int) (l : List BinContent) :
    List.Sublist ((allocateGreedy n l).map (fun p => p.1)) l := by
  induction l generalizing n with
  | nil => simp [allocateGreedy]
  | cons c rest ih =>
    unfold allocateGreedy
    split
    · simp
    · dsimp only
      split
      · exact (ih n).cons c
      · simpa using (ih _).cons₂ c

theorem allocateGreedy_entry_bounds (n : Int) (l : List BinContent)
    (p : BinContent × Int) (hp : p ∈ allocateGreedy n l) :
    0 < p.2 ∧ p.2 ≤ p.1.quantity - p.1.reserved_quantity := by
  induction l generalizing n with
  | nil => simp [allocateGreedy] at hp
  | cons c rest ih =>
    unfold allocateGreedy at hp
    split at hp
    · simp at hp
    · next hrem =>
      dsimp only at hp
      split at hp
      · exact ih _ hp
      · next havail =>
        rcases List.mem_cons.mp hp with hh | hh
        · subst hh
          constructor
          · simp only []
            omega
          · simp only []
            omega
        · exact ih _ hh

theorem allocSumFor_bounds (alloc : List (BinContent × Int)) (r : BinContent)
    (hb : ∀ p ∈ alloc, 0 < p.2 ∧ p.2 ≤ p.1.quantity - p.1.reserved_quantity)
    (hnd : (alloc.map (fun p => p.1.id)).Nodup)
    (hrb : r.reserved_quantity ≤ r.quantity)
    (huniq : ∀ p ∈ alloc, p.1.id = r.id → p.1 = r) :
    0 ≤ allocSumFor alloc r.id ∧ allocSumFor alloc r.id ≤ r.quantity - r.reserved_quantity := by
  induction alloc with
  | nil =>
    rw [allocSumFor_nil]
    omega
  | cons p rest ih =>
    rw [allocSumFor_cons]
    by_cases hc : p.1.id = r.id
    · have hzero : allocSumFor rest r.id = 0 := by
        apply allocSumFor_eq_zero
        intro q hq hqid
        have hpn : p.1.id ∉ rest.map (fun p => p.1.id) := (List.nodup_cons.mp (by simpa using hnd)).1
        exact hpn (by rw [hc, ← hqid]; exact List.mem_map.mpr ⟨q, hq, rfl⟩)
      have hpr : p.1 = r := huniq p (List.mem_cons_self p rest) hc
      have := hb p (List.mem_cons_self p rest)
      rw [if_pos hc, hzero, ← hpr]
      omega
    · have hrest := ih (fun q hq => hb q (List.mem_cons_of_mem p hq))
        (List.nodup_cons.mp (by simpa using hnd)).2
        (fun q hq hqid => huniq q (List.mem_cons_of_mem p hq) hqid)
      rw [if_neg hc]
      omega

theorem fefoSorted_ids_nodup (s : WhState) (pid : Nat) (today : Int)
    (hN : (s.records.map (fun r => r.id)).Nodup) :
    ((fefoSorted s pid today).map (fun r => r.id)).Nodup := by
  have hperm : (fefoSorted s pid today).Perm (fefoEligible s pid today) :=
    List.perm_insertionSort fefoLe (fefoEligible s pid today)
  have hsub : List.Sublist (fefoEligible s pid today) s.records := List.filter_sublist _
  have h1 : ((fefoEligible s pid today).map (fun r => r.id)).Nodup :=
    (hsub.map (fun r => r.id)).nodup hN
  exact ((hperm.map (fun r => r.id)).nodup_iff).mpr h1

theorem fefoPlan_ids_nodup (s : WhState) (pid : Nat) (qty today : Int)
    (hN : (s.records.map (fun r => r.id)).Nodup) :
    ((fefoPlan s pid qty today).map (fun p => p.1.id)).Nodup := by
  have hsub : List.Sublist ((fefoPlan s pid qty today).map (fun p => p.1))
      (fefoSorted s pid today) := allocateGreedy_fst_sublist qty _
  have := (hsub.map (fun r => r.id)).nodup (fefoSorted_ids_nodup s pid today hN)
  simpa [List.map_map, Function.comp] using this

theorem records_if_updBinStatus (c : Prop) [Decidable c] (X : WhState) (b : Nat) (st : String) :
    (if c then updBinStatus X b st else X).records = X.records := by
  split <;> rfl

/-- Per-row effect of the fulfillment loop on a `bin_contents` row. -/
def fulfillApply (items : List ReservationItem) (r : BinContent) : BinContent :=
  { r with quantity := r.quantity - itemSumFor items r.id,
           reserved_quantity := r.reserved_quantity - itemSumFor items r.id }

/-- Marking the reservations selected by `p` with a non-active status removes
exactly their line sums from the active line sum. -/
theorem lineSum_map_status (l : List StockReservation) (p : StockReservation → Bool)
    (st : String) (hst : ¬(st = "active")) (j : Nat) :
    (((l.map (fun r => if p r = true then { r with status := st } else r)).filter
        (fun r => decide (r.status = "active"))).map (fun r => itemSumFor r.items j)).sum =
      ((l.filter (fun r => decide (r.status = "active"))).map
        (fun r => itemSumFor r.items j)).sum -
        ((l.filter (fun r => p r && decide (r.status = "active"))).map
          (fun r => itemSumFor r.items j)).sum := by
  induction l with
  | nil => simp
  | cons r rest ih =>
    cases hp : p r with
    | false =>
      cases hact : decide (r.status = "active") with
      | false =>
        simp only [List.map_cons, List.filter_cons, hp, hact, Bool.false_eq_true, if_false,
          Bool.false_and]
        exact ih
      | true =>
        simp only [List.map_cons, List.filter_cons, hp, hact, Bool.false_eq_true, if_false,
          Bool.false_and, if_true, List.sum_cons]
        rw [ih]
        omega
    | true =>
      have hstact : decide (({ r with status := st } : StockReservation).status = "active") = false := by
        simpa using hst
      cases hact : decide (r.status = "active") with
      | false =>
        simp only [List.map_cons, List.filter_cons, hp, hact, hstact, Bool.false_eq_true,
          if_false, Bool.true_and, if_true]
        exact ih
      | true =>
        simp only [List.map_cons, List.filter_cons, hp, hact, hstact, Bool.false_eq_true,
          if_false, Bool.true_and, if_true, List.sum_cons]
        rw [ih]
        omega

/-- Record-list effect of the fulfillment loop. -/
theorem fulfillItems_records (items : List ReservationItem) (s : WhState) :
    (fulfillItems items s).records = s.records.map (fulfillApply items) := by
  induction items generalizing s with
  | nil =>
    have hid : ∀ r ∈ s.records, fulfillApply [] r = r := by
      intro r _
      unfold fulfillApply
      cases r
      simp [itemSumFor_nil]
    simp only [fulfillItems]
    rw [List.map_congr_left hid]
    simp
  | cons it rest ih =>
    rcases hf : findRecord s it.bin_content_id with _ | bc
    · simp only [fulfillItems, hf]
      rw [ih]
      apply List.map_congr_left
      intro r hr
      have hne : ¬(it.bin_content_id = r.id) := fun hh =>
        findRecord_none s it.bin_content_id hf r hr hh.symm
      unfold fulfillApply
      rw [itemSumFor_cons, if_neg hne]
      cases r
      simp
    · have hbid : bc.id = it.bin_content_id := (findRecord_mem _ _ _ hf).2
      simp only [fulfillItems, hf]
      rw [ih, records_if_updBinStatus]
      show (updRecords s.records bc.id _).map _ = _
      rw [updRecords, List.map_map]
      apply List.map_congr_left
      intro r hr
      simp only [Function.comp_apply]
      unfold fulfillApply
      by_cases hc : r.id = bc.id
      · have hcc : it.bin_content_id = r.id := by rw [hc, hbid]
        rw [if_pos hc, itemSumFor_cons, if_pos hcc]
        cases r
        simp
        constructor <;> omega
      · have hcc : ¬(it.bin_content_id = r.id) := by
          rw [← hbid]
          exact fun hh => hc hh.symm
        rw [if_neg hc, itemSumFor_cons, if_neg hcc]
        cases r
        simp

theorem filter_id_active_eq (l : List StockReservation) (rid : Nat) (res : StockReservation)
    (hnd : (l.map (fun r => r.id)).Nodup) (hmem : res ∈ l) (hid : res.id = rid) :
    l.filter (fun r => decide (r.id = rid) && decide (r.status = "active")) =
      (if res.status = "active" then [res] else []) := by
  induction l with
  | nil => cases hmem
  | cons x xs ih =>
    rw [List.map_cons, List.nodup_cons] at hnd
    rw [List.filter_cons]
    rcases List.mem_cons.mp hmem with heq | htail
    · have hrest : xs.filter (fun r => decide (r.id = rid) && decide (r.status = "active")) = [] := by
        apply List.filter_eq_nil_iff.mpr
        intro q hq
        simp only [Bool.and_eq_true, decide_eq_true_eq, not_and]
        intro hqid _
        apply hnd.1
        rw [← heq, hid, ← hqid]
        exact List.mem_map.mpr ⟨q, hq, rfl⟩
      rw [← heq]
      have hydec : decide (res.id = rid) = true := by simp [hid]
      cases hact : decide (res.status = "active") with
      | false =>
        have hnact : ¬(res.status = "active") := by simpa using hact
        simp only [hydec, hact, Bool.true_and, Bool.false_eq_true, if_false]
        rw [hrest, if_neg hnact]
      | true =>
        have hyact : res.status = "active" := by simpa using hact
        simp only [hydec, hact, Bool.true_and, if_true]
        rw [hrest, if_pos hyact]
    · have hxid : ¬(x.id = rid) := by
        intro hh
        apply hnd.1
        rw [hh, ← hid]
        exact List.mem_map.mpr ⟨res, htail, rfl⟩
      have hxdec : decide (x.id = rid) = false := by simpa using hxid
      simp only [hxdec, Bool.false_and, cond_false]
      exact ih hnd.2 htail
theorem activeLineSum_set_status (s s2 : WhState) (rid : Nat) (res : StockReservation)
    (st : String) (hst : ¬(st = "active"))
    (hres2 : s2.reservations = s.reservations.map
      (fun r => if r.id = rid then { r with status := st } else r))
    (hnd : (s.reservations.map (fun r => r.id)).Nodup)
    (hmem : res ∈ s.reservations) (hid : res.id = rid) (hact : res.status = "active")
    (j : Nat) :
    activeLineSum s2 j = activeLineSum s j - itemSumFor res.items j := by
  unfold activeLineSum
  rw [hres2]
  have hmapeq : s.reservations.map (fun r => if r.id = rid then { r with status := st } else r)
      = s.reservations.map (fun r =>
          if (fun r : StockReservation => decide (r.id = rid)) r = true
          then { r with status := st } else r) := by
    apply List.map_congr_left
    intro r _
    by_cases h : r.id = rid <;> simp [h]
  rw [hmapeq, lineSum_map_status _ _ _ hst j]
  congr 1
  rw [filter_id_active_eq s.reservations rid res hnd hmem hid, if_pos hact]
  simp

theorem activeLineSum_sweep_eq (s s2 : WhState) (now : Int)
    (hres2 : s2.reservations = s.reservations.map
      (fun r => if r.status = "active" ∧ r.reserved_until < now
        then { r with status := "expired" } else r)) (j : Nat) :
    activeLineSum s2 j = activeLineSum s j -
      (((s.reservations.filter
        (fun r => decide (r.status = "active") && decide (r.reserved_until < now))).map
          (fun r => itemSumFor r.items j)).sum) := by
  unfold activeLineSum
  rw [hres2]
  have hmapeq : s.reservations.map
      (fun r => if r.status = "active" ∧ r.reserved_until < now
        then { r with status := "expired" } else r)
      = s.reservations.map (fun r =>
          if (fun r : StockReservation =>
            decide (r.status = "active") && decide (r.reserved_until < now)) r = true
          then { r with status := "expired" } else r) := by
    apply List.map_congr_left
    intro r _
    by_cases h1 : r.status = "active" <;> by_cases h2 : r.reserved_until < now <;>
      simp [h1, h2]
  rw [hmapeq, lineSum_map_status _ _ _ (by simp) j]
  congr 1
  have hfeq : (s.reservations.filter
      (fun r => (decide (r.status = "active") && decide (r.reserved_until < now)) &&
        decide (r.status = "active"))) =
      (s.reservations.filter
        (fun r => decide (r.status = "active") && decide (r.reserved_until < now))) := by
    apply List.filter_congr
    intro r _
    by_cases h1 : r.status = "active" <;> by_cases h2 : r.reserved_until < now <;>
      simp [h1, h2]
  rw [hfeq]

/-- Reservation-consistency is stable under changes that keep records,
reservations, and the non-negativity of transfer quantities. -/
theorem invRes_congr (s s2 : WhState) (hrec : s2.records = s.records)
    (hres : s2.reservations = s.reservations)
    (htrq : ∀ t ∈ s2.transfers, 0 ≤ t.quantity_sent)
    (hR : InvRes s) : InvRes s2 := by
  obtain ⟨hR1, hR2, hR3, hR4, hR5⟩ := hR
  refine ⟨?_, ?_, ?_, htrq, ?_⟩
  · intro r hr
    rw [hrec] at hr
    exact hR1 r hr
  · intro res hresm it hit
    rw [hres] at hresm
    exact hR2 res hresm it hit
  · intro r hr
    rw [hrec] at hr
    rw [activeLineSum_congr s s2 hres]
    exact hR3 r hr
  · intro res hresm
    rw [hres] at hresm
    exact hR5 res hresm

/-- Reservation-consistency is preserved by a single record update that keeps
ids and reserved quantities and keeps the updated quantity at or above the
reserved quantity. -/
theorem invRes_updRecord (s s2 : WhState) (i : Nat) (f : BinContent → BinContent)
    (hrec : s2.records = updRecords s.records i f)
    (hres : s2.reservations = s.reservations)
    (htrq : ∀ t ∈ s2.transfers, 0 ≤ t.quantity_sent)
    (hfid : ∀ c, (f c).id = c.id)
    (hfres : ∀ c, (f c).reserved_quantity = c.reserved_quantity)
    (hfq : ∀ c ∈ s.records, c.id = i → c.reserved_quantity ≤ (f c).quantity)
    (hR : InvRes s) : InvRes s2 := by
  obtain ⟨hR1, hR2, hR3, hR4, hR5⟩ := hR
  refine ⟨?_, ?_, ?_, htrq, ?_⟩
  · intro r2 hr2
    rw [hrec] at hr2
    obtain ⟨r, hr, hreq⟩ := mem_updRecords _ _ _ _ hr2
    by_cases hc : r.id = i
    · rw [if_pos hc] at hreq
      subst hreq
      rw [hfres]
      exact ⟨(hR1 r hr).1, hfq r hr hc⟩
    · rw [if_neg hc] at hreq
      subst hreq
      exact hR1 r hr
  · intro res hresm it hit
    rw [hres] at hresm
    exact hR2 res hresm it hit
  · intro r2 hr2
    rw [hrec] at hr2
    obtain ⟨r, hr, hreq⟩ := mem_updRecords _ _ _ _ hr2
    have hid2 : r2.id = r.id := by
      rw [← hreq]; split <;> simp [hfid]
    have hres2 : r2.reserved_quantity = r.reserved_quantity := by
      rw [← hreq]; split <;> simp [hfres]
    rw [activeLineSum_congr s s2 hres, hid2, hres2]
    exact hR3 r hr
  · intro res hresm
    rw [hres] at hresm
    exact hR5 res hresm

/-- Reservation-consistency is preserved by appending a fresh record with zero
reserved quantity. -/
theorem invRes_newRecord (s s2 : WhState) (bc : BinContent)
    (hrec : s2.records = s.records ++ [bc])
    (hres : s2.reservations = s.reservations)
    (htrq : ∀ t ∈ s2.transfers, 0 ≤ t.quantity_sent)
    (hbc0 : bc.reserved_quantity = 0) (hbcq : 0 ≤ bc.quantity)
    (hfresh : ∀ res ∈ s.reservations, ∀ it ∈ res.items, it.bin_content_id < bc.id)
    (hR : InvRes s) : InvRes s2 := by
  obtain ⟨hR1, hR2, hR3, hR4, hR5⟩ := hR
  refine ⟨?_, ?_, ?_, htrq, ?_⟩
  · intro r2 hr2
    rw [hrec] at hr2
    rcases List.mem_append.mp hr2 with hr | hr
    · exact hR1 r2 hr
    · rw [List.mem_singleton] at hr
      subst hr
      rw [hbc0]
      exact ⟨le_refl 0, hbcq⟩
  · intro res hresm it hit
    rw [hres] at hresm
    exact hR2 res hresm it hit
  · intro r2 hr2
    rw [hrec] at hr2
    rw [activeLineSum_congr s s2 hres]
    rcases List.mem_append.mp hr2 with hr | hr
    · exact hR3 r2 hr
    · rw [List.mem_singleton] at hr
      subst hr
      rw [activeLineSum_fresh s r2.id hfresh, hbc0]
  · intro res hresm
    rw [hres] at hresm
    exact hR5 res hresm
theorem reservations_if_updBinStatus (c : Prop) [Decidable c] (X : WhState) (b : Nat) (st : String) :
    (if c then updBinStatus X b st else X).reservations = X.reservations := by
  split <;> rfl

theorem transfers_if_updBinStatus (c : Prop) [Decidable c] (X : WhState) (b : Nat) (st : String) :
    (if c then updBinStatus X b st else X).transfers = X.transfers := by
  split <;> rfl

theorem fulfillItems_reservations (items : List ReservationItem) (s : WhState) :
    (fulfillItems items s).reservations = s.reservations := by
  induction items generalizing s with
  | nil => rfl
  | cons it rest ih =>
    rcases hf : findRecord s it.bin_content_id with _ | bc
    · simp only [fulfillItems, hf]
      exact ih s
    · simp only [fulfillItems, hf]
      rw [ih, reservations_if_updBinStatus]
      rfl

theorem fulfillItems_transfers (items : List ReservationItem) (s : WhState) :
    (fulfillItems items s).transfers = s.transfers := by
  induction items generalizing s with
  | nil => rfl
  | cons it rest ih =>
    rcases hf : findRecord s it.bin_content_id with _ | bc
    · simp only [fulfillItems, hf]
      exact ih s
    · simp only [fulfillItems, hf]
      rw [ih, transfers_if_updBinStatus]
      rfl

/-- The fulfillment loop alone preserves state well-formedness. -/
theorem fulfillItems_wf (items : List ReservationItem) (s : WhState)
    (hW : WfState s) : WfState (fulfillItems items s) := by
  induction items generalizing s with
  | nil => exact hW
  | cons it rest ih =>
    rcases hf : findRecord s it.bin_content_id with _ | bc
    · simp only [fulfillItems, hf]
      exact ih s hW
    · have hbid : bc.id = it.bin_content_id := (findRecord_mem _ _ _ hf).2
      have hfind : findRecord s bc.id = some bc := by rw [hbid]; exact hf
      simp only [fulfillItems, hf]
      refine ih _ ?_
      split <;>
        exact wf_step s _ bc.id bc _ _ rfl rfl rfl rfl rfl hfind (fun c => rfl) rfl hW

/-- `receive_goods` preserves well-formedness and reservation-consistency. -/
theorem receive_goods_ok_wfRes (s : WhState) (req : ReceiveRequest) (now : Int)
    (v : Nat) (s2 : WhState) (h : receive_goods s req now = (.ok v, s2))
    (hwf : req.wf) (hW : WfState s) (hR : InvRes s) : WfState s2 ∧ InvRes s2 := by
  unfold receive_goods at h
  split at h
  · simp at h
  · split at h
    · simp at h
    · split at h
      · simp at h
      · split at h
        · simp at h
        · split at h
          · simp at h
          · split at h
            · simp at h
            · split at h
              next bc hfound =>
                simp only [Prod.mk.injEq, Except.ok.injEq] at h
                obtain ⟨hv, hs2⟩ := h
                subst hs2
                have hfind : findRecord s bc.id = some bc :=
                  findRecord_of_mem s hW.1 bc (List.mem_of_find?_eq_some hfound)
                constructor
                · exact wf_step s _ bc.id bc _ _ rfl rfl rfl rfl rfl hfind (fun c => rfl) rfl hW
                · refine invRes_updRecord s _ bc.id _ rfl rfl ?_ (fun c => rfl) (fun c => rfl)
                    ?_ hR
                  · intro t ht
                    exact hR.2.2.2.1 t ht
                  · intro c hc hci
                    have := (hR.1 c hc).2
                    have hq : 0 < req.quantity := hwf
                    show c.reserved_quantity ≤ c.quantity + req.quantity
                    omega
              next hnone =>
                simp only [Prod.mk.injEq, Except.ok.injEq] at h
                obtain ⟨hv, hs2⟩ := h
                subst hs2
                constructor
                · exact wf_new s _ _ _ rfl rfl rfl rfl rfl rfl rfl hW
                · refine invRes_newRecord s _ _ rfl rfl ?_ rfl (le_of_lt hwf) ?_ hR
                  · intro t ht
                    exact hR.2.2.2.1 t ht
                  · intro res hres it hit
                    exact hW.2.2.2.2.2.1 res hres it hit

/-- `issue_goods` preserves well-formedness and reservation-consistency. -/
theorem issue_goods_ok_wfRes (s : WhState) (req : IssueRequest) (today : Int)
    (role : String) (v : Nat) (s2 : WhState)
    (h : issue_goods s req today role = (.ok v, s2))
    (hW : WfState s) (hR : InvRes s) : WfState s2 ∧ InvRes s2 := by
  unfold issue_goods at h
  split at h
  · simp at h
  next bc heq =>
    split at h
    · simp at h
    split at h
    · simp at h
    split at h
    · simp at h
    split at h
    · simp at h
    split at h
    · simp at h
    split at h
    · simp at h
    split at h
    · simp at h
    next hna =>
      simp only [Prod.mk.injEq, Except.ok.injEq] at h
      obtain ⟨hv, hs2⟩ := h
      subst hs2
      have hbid : bc.id = req.bin_content_id := (findRecord_mem _ _ _ heq).2
      have hfind : findRecord s bc.id = some bc := by rw [hbid]; exact heq
      refine ⟨?_, ?_⟩ <;> split
      · exact wf_step s _ bc.id bc _ _ rfl rfl rfl rfl rfl hfind (fun c => rfl) rfl hW
      · exact wf_step s _ bc.id bc _ _ rfl rfl rfl rfl rfl hfind (fun c => rfl) rfl hW
      all_goals
        refine invRes_updRecord s _ bc.id _ rfl rfl ?_ (fun c => rfl) (fun c => rfl) ?_ hR
      all_goals
        try (intro t ht; exact hR.2.2.2.1 t ht)
      all_goals
        intro c hc hci
        have hcbc : c = bc := record_unique s hW.1 c bc hc (findRecord_mem _ _ _ hfind).1 hci
        subst hcbc
        show c.reserved_quantity ≤ c.quantity - req.quantity
        omega

/-- `adjust_stock` preserves well-formedness and reservation-consistency. -/
theorem adjust_stock_ok_wfRes (s : WhState) (req : AdjustmentRequest) (v : Nat)
    (s2 : WhState) (h : adjust_stock s req = (.ok v, s2))
    (hW : WfState s) (hR : InvRes s) : WfState s2 ∧ InvRes s2 := by
  unfold adjust_stock at h
  split at h
  · simp at h
  next bc heq =>
    split at h
    · simp at h
    next hna =>
      simp only [Prod.mk.injEq, Except.ok.injEq] at h
      obtain ⟨hv, hs2⟩ := h
      subst hs2
      have hbid : bc.id = req.bin_content_id := (findRecord_mem _ _ _ heq).2
      have hfind : findRecord s bc.id = some bc := by rw [hbid]; exact heq
      constructor
      · exact wf_step s _ bc.id bc _ _ rfl rfl rfl rfl rfl hfind (fun c => rfl) rfl hW
      · refine invRes_updRecord s _ bc.id _ rfl rfl ?_ (fun c => rfl) (fun c => rfl) ?_ hR
        · intro t ht
          exact hR.2.2.2.1 t ht
        · intro c hc hci
          have hcbc : c = bc := record_unique s hW.1 c bc hc (findRecord_mem _ _ _ hfind).1 hci
          subst hcbc
          show c.reserved_quantity ≤ req.new_quantity
          omega

/-- `scrap_stock` on a record with zero reserved quantity preserves
well-formedness and reservation-consistency. -/
theorem scrap_stock_ok_wfRes (s : WhState) (req : ScrapRequest) (v : Nat)
    (s2 : WhState) (h : scrap_stock s req = (.ok v, s2))
    (hg : ∀ r ∈ s.records, r.id = req.bin_content_id → r.reserved_quantity = 0)
    (hW : WfState s) (hR : InvRes s) : WfState s2 ∧ InvRes s2 := by
  unfold scrap_stock at h
  split at h
  · simp at h
  next bc heq =>
    simp only [Prod.mk.injEq, Except.ok.injEq] at h
    obtain ⟨hv, hs2⟩ := h
    subst hs2
    have hbid : bc.id = req.bin_content_id := (findRecord_mem _ _ _ heq).2
    have hfind : findRecord s bc.id = some bc := by rw [hbid]; exact heq
    constructor
    · exact wf_step s _ bc.id bc _ _ rfl rfl rfl rfl rfl hfind (fun c => rfl) rfl hW
    · refine invRes_updRecord s _ bc.id _ rfl rfl ?_ (fun c => rfl) (fun c => rfl) ?_ hR
      · intro t ht
        exact hR.2.2.2.1 t ht
      · intro c hc hci
        have := hg c hc (by rw [hci, hbid])
        show c.reserved_quantity ≤ (0 : Int)
        omega
/-- `create_reservation` preserves well-formedness and
reservation-consistency. -/
theorem create_reservation_ok_wfRes (s : WhState) (req : ReservationCreate)
    (today : Int) (v : Nat × Bool) (s2 : WhState)
    (h : create_reservation s req today = (.ok v, s2))
    (hW : WfState s) (hR : InvRes s) : WfState s2 ∧ InvRes s2 := by
  unfold create_reservation at h
  split at h
  · simp at h
  split at h
  · simp at h
  split at h
  · simp at h
  dsimp only at h
  split at h
  · simp at h
  simp only [Prod.mk.injEq, Except.ok.injEq] at h
  obtain ⟨hv, hs2⟩ := h
  subst hs2
  set alloc := allocateGreedy req.quantity (fefoSorted s req.product_id today) with halloc
  set nres := (⟨s.next_id, req.product_id, (alloc.map (fun p => p.2)).sum,
    req.reserved_until, "active", alloc.map (fun p => ⟨p.1.id, p.2⟩)⟩ : StockReservation)
    with hnres
  have hb : ∀ p ∈ alloc, 0 < p.2 ∧ p.2 ≤ p.1.quantity - p.1.reserved_quantity := by
    intro p hp
    rw [halloc] at hp
    exact allocateGreedy_entry_bounds req.quantity _ p hp
  have hfst : ∀ p ∈ alloc, p.1 ∈ s.records := by
    intro p hp
    rw [halloc] at hp
    exact fefoPlan_fst_mem s req.product_id req.quantity today p hp
  have hndplan : (alloc.map (fun p => p.1.id)).Nodup := by
    rw [halloc]
    exact fefoPlan_ids_nodup s req.product_id req.quantity today hW.1
  have hitems : ∀ it ∈ nres.items, it.bin_content_id < s.next_id := by
    intro it hit
    rw [hnres] at hit
    simp only [List.mem_map] at hit
    obtain ⟨p, hp, hpeq⟩ := hit
    have := hW.2.1 p.1 (hfst p hp)
    rw [← hpeq]
    exact this
  have W1 : WfState { s with
                      reservations := s.reservations ++ [nres],
                      next_id := s.next_id + 1 } :=
    wf_addReservation s _ _ rfl rfl rfl rfl rfl (by rw [hnres]) hitems hW
  have hsum : ∀ j, activeLineSum ({ s with
                      records := reserveAlloc alloc s.records,
                      reservations := s.reservations ++ [nres],
                      next_id := s.next_id + 1 }) j
      = activeLineSum s j + itemSumFor nres.items j :=
    activeLineSum_append s _ nres rfl (by rw [hnres])
  constructor
  · exact wf_mapRecords { s with
                          reservations := s.reservations ++ [nres],
                          next_id := s.next_id + 1 } _ _
      (reserveAlloc_eq_map alloc s.records)
      rfl rfl rfl rfl (fun r => rfl) W1
  · obtain ⟨hR1, hR2, hR3, hR4, hR5⟩ := hR
    refine ⟨?_, ?_, ?_, ?_, ?_⟩
    · intro r2 hr2
      rw [show ({ s with
                  records := reserveAlloc alloc s.records,
                  reservations := s.reservations ++ [nres],
                  next_id := s.next_id + 1 } : WhState).records
          = reserveAlloc alloc s.records from rfl,
        reserveAlloc_eq_map, List.mem_map] at hr2
      obtain ⟨r, hr, hreq⟩ := hr2
      subst hreq
      have huniq : ∀ p ∈ alloc, p.1.id = r.id → p.1 = r := fun p hp hpid =>
        record_unique s hW.1 p.1 r (hfst p hp) hr hpid
      have hbounds := allocSumFor_bounds alloc r hb hndplan (hR1 r hr).2 huniq
      have h1 := (hR1 r hr).1
      constructor
      · show (0 : Int) ≤ r.reserved_quantity + allocSumFor alloc r.id
        omega
      · show r.reserved_quantity + allocSumFor alloc r.id ≤ r.quantity
        omega
    · intro res2 hres2 it hit
      rcases List.mem_append.mp hres2 with hh | hh
      · exact hR2 res2 hh it hit
      · rw [List.mem_singleton] at hh
        subst hh
        rw [hnres] at hit
        simp only [List.mem_map] at hit
        obtain ⟨p, hp, hpeq⟩ := hit
        have := (hb p hp).1
        rw [← hpeq]
        show (0 : Int) ≤ p.2
        omega
    · intro r2 hr2
      rw [show ({ s with
                  records := reserveAlloc alloc s.records,
                  reservations := s.reservations ++ [nres],
                  next_id := s.next_id + 1 } : WhState).records
          = reserveAlloc alloc s.records from rfl,
        reserveAlloc_eq_map, List.mem_map] at hr2
      obtain ⟨r, hr, hreq⟩ := hr2
      subst hreq
      have h3 := hR3 r hr
      have he := hsum r.id
      have hims : itemSumFor nres.items r.id = allocSumFor alloc r.id := by
        rw [hnres]
        exact itemSumFor_map_alloc alloc r.id
      show activeLineSum _ r.id ≤ r.reserved_quantity + allocSumFor alloc r.id
      rw [he, hims]
      omega
    · intro t ht
      exact hR4 t ht
    · intro res2 hres2
      rcases List.mem_append.mp hres2 with hh | hh
      · exact hR5 res2 hh
      · rw [List.mem_singleton] at hh
        subst hh
        left
        rw [hnres]
/-- `fulfill_reservation` preserves well-formedness and
reservation-consistency. -/
theorem fulfill_reservation_ok_wfRes (s : WhState) (rid : Nat) (v : Nat)
    (s2 : WhState) (h : fulfill_reservation s rid = (.ok v, s2))
    (hW : WfState s) (hR : InvRes s) : WfState s2 ∧ InvRes s2 := by
  unfold fulfill_reservation at h
  split at h
  · simp at h
  next res heq =>
    split at h
    · simp at h
    next hn1 =>
      split at h
      · simp at h
      next hn2 =>
        split at h
        · simp at h
        next hn3 =>
          simp only [Prod.mk.injEq, Except.ok.injEq] at h
          obtain ⟨hv, hs2⟩ := h
          subst hs2
          obtain ⟨hmem, hid⟩ := findReservation_mem s rid res heq
          have hact : res.status = "active" := by
            rcases hR.2.2.2.2 res hmem with hh | hh | hh | hh
            · exact hh
            · exact absurd hh hn1
            · exact absurd hh hn2
            · exact absurd hh hn3
          obtain ⟨hR1, hR2, hR3, hR4, hR5⟩ := hR
          have hkey : ∀ sX : WhState,
              sX.records = s.records.map (fulfillApply res.items) →
              sX.reservations = s.reservations.map
                (fun r => if r.id = rid then { r with status := "fulfilled" } else r) →
              sX.transfers = s.transfers →
              InvRes sX := by
            intro sX hrec2 hres2 htr2
            have hitems2 : ∀ res2 ∈ sX.reservations, ∀ it ∈ res2.items,
                0 ≤ it.quantity_reserved := by
              intro res2 hres2m it hit
              rw [hres2, List.mem_map] at hres2m
              obtain ⟨r0, hr0, hr0eq⟩ := hres2m
              subst hr0eq
              rw [show (if r0.id = rid then { r0 with status := "fulfilled" } else r0).items
                  = r0.items from by split <;> rfl] at hit
              exact hR2 r0 hr0 it hit
            have hsumX : ∀ j, activeLineSum sX j =
                activeLineSum s j - itemSumFor res.items j :=
              activeLineSum_set_status s sX rid res "fulfilled" (by simp) hres2
                hW.2.2.2.1 hmem hid hact
            have hnn : ∀ j, 0 ≤ activeLineSum sX j :=
              fun j => activeLineSum_nonneg sX j hitems2
            have hts : ∀ j, 0 ≤ itemSumFor res.items j :=
              fun j => itemSumFor_nonneg _ j (hR2 res hmem)
            refine ⟨?_, hitems2, ?_, ?_, ?_⟩
            · intro r2 hr2
              rw [hrec2, List.mem_map] at hr2
              obtain ⟨r, hr, hreq⟩ := hr2
              subst hreq
              have h1 := hR1 r hr
              have h3 := hR3 r hr
              have e1 := hsumX r.id
              have e2 := hnn r.id
              have e3 := hts r.id
              constructor
              · show (0 : Int) ≤ r.reserved_quantity - itemSumFor res.items r.id
                omega
              · show r.reserved_quantity - itemSumFor res.items r.id ≤
                  r.quantity - itemSumFor res.items r.id
                omega
            · intro r2 hr2
              rw [hrec2, List.mem_map] at hr2
              obtain ⟨r, hr, hreq⟩ := hr2
              subst hreq
              have h3 := hR3 r hr
              show activeLineSum sX r.id ≤
                r.reserved_quantity - itemSumFor res.items r.id
              rw [hsumX r.id]
              omega
            · intro t ht
              rw [htr2] at ht
              exact hR4 t ht
            · intro res2 hres2m
              rw [hres2, List.mem_map] at hres2m
              obtain ⟨r0, hr0, hr0eq⟩ := hres2m
              subst hr0eq
              by_cases hc : r0.id = rid
              · rw [if_pos hc]
                right
                left
                rfl
              · rw [if_neg hc]
                exact hR5 r0 hr0
          constructor
          · exact wf_mapReservations (fulfillItems res.items s) _ _ rfl rfl rfl rfl rfl
              (fun r => by split <;> rfl) (fun r => by split <;> rfl)
              (fulfillItems_wf res.items s hW)
          · apply hkey
            · exact fulfillItems_records res.items s
            · exact congrArg
                (List.map (fun r => if r.id = rid then { r with status := "fulfilled" } else r))
                (fulfillItems_reservations res.items s)
            · exact fulfillItems_transfers res.items s

/-- `cancel_reservation` preserves well-formedness and
reservation-consistency. -/
theorem cancel_reservation_ok_wfRes (s : WhState) (rid : Nat) (v : Nat)
    (s2 : WhState) (h : cancel_reservation s rid = (.ok v, s2))
    (hW : WfState s) (hR : InvRes s) : WfState s2 ∧ InvRes s2 := by
  unfold cancel_reservation at h
  split at h
  · simp at h
  next res heq =>
    split at h
    · simp at h
    next hn1 =>
      split at h
      · simp at h
      next hn2 =>
        split at h
        · simp at h
        next hn3 =>
          simp only [Prod.mk.injEq, Except.ok.injEq] at h
          obtain ⟨hv, hs2⟩ := h
          subst hs2
          obtain ⟨hmem, hid⟩ := findReservation_mem s rid res heq
          have hact : res.status = "active" := by
            rcases hR.2.2.2.2 res hmem with hh | hh | hh | hh
            · exact hh
            · exact absurd hh hn1
            · exact absurd hh hn2
            · exact absurd hh hn3
          obtain ⟨hR1, hR2, hR3, hR4, hR5⟩ := hR
          have hkey : ∀ sX : WhState,
              sX.records = s.records.map (fun r =>
                { r with reserved_quantity :=
                           r.reserved_quantity - itemSumFor res.items r.id }) →
              sX.reservations = s.reservations.map
                (fun r => if r.id = rid then { r with status := "cancelled" } else r) →
              sX.transfers = s.transfers →
              InvRes sX := by
            intro sX hrec2 hres2 htr2
            have hitems2 : ∀ res2 ∈ sX.reservations, ∀ it ∈ res2.items,
                0 ≤ it.quantity_reserved := by
              intro res2 hres2m it hit
              rw [hres2, List.mem_map] at hres2m
              obtain ⟨r0, hr0, hr0eq⟩ := hres2m
              subst hr0eq
              rw [show (if r0.id = rid then { r0 with status := "cancelled" } else r0).items
                  = r0.items from by split <;> rfl] at hit
              exact hR2 r0 hr0 it hit
            have hsumX : ∀ j, activeLineSum sX j =
                activeLineSum s j - itemSumFor res.items j :=
              activeLineSum_set_status s sX rid res "cancelled" (by simp) hres2
                hW.2.2.2.1 hmem hid hact
            have hnn : ∀ j, 0 ≤ activeLineSum sX j :=
              fun j => activeLineSum_nonneg sX j hitems2
            have hts : ∀ j, 0 ≤ itemSumFor res.items j :=
              fun j => itemSumFor_nonneg _ j (hR2 res hmem)
            refine ⟨?_, hitems2, ?_, ?_, ?_⟩
            · intro r2 hr2
              rw [hrec2, List.mem_map] at hr2
              obtain ⟨r, hr, hreq⟩ := hr2
              subst hreq
              have h1 := hR1 r hr
              have h3 := hR3 r hr
              have e1 := hsumX r.id
              have e2 := hnn r.id
              have e3 := hts r.id
              constructor
              · show (0 : Int) ≤ r.reserved_quantity - itemSumFor res.items r.id
                omega
              · show r.reserved_quantity - itemSumFor res.items r.id ≤ r.quantity
                omega
            · intro r2 hr2
              rw [hrec2, List.mem_map] at hr2
              obtain ⟨r, hr, hreq⟩ := hr2
              subst hreq
              have h3 := hR3 r hr
              show activeLineSum sX r.id ≤
                r.reserved_quantity - itemSumFor res.items r.id
              rw [hsumX r.id]
              omega
            · intro t ht
              rw [htr2] at ht
              exact hR4 t ht
            · intro res2 hres2m
              rw [hres2, List.mem_map] at hres2m
              obtain ⟨r0, hr0, hr0eq⟩ := hres2m
              subst hr0eq
              by_cases hc : r0.id = rid
              · rw [if_pos hc]
                right
                right
                left
                rfl
              · rw [if_neg hc]
                exact hR5 r0 hr0
          have W1 : WfState { s with records := releaseItems res.items s.records } :=
            wf_mapRecords s _ _ (releaseItems_eq_map res.items s.records) rfl rfl rfl rfl
              (fun r => rfl) hW
          constructor
          · exact wf_mapReservations { s with records := releaseItems res.items s.records }
              _ _ rfl rfl rfl rfl rfl
              (fun r => by split <;> rfl) (fun r => by split <;> rfl) W1
          · apply hkey
            · exact releaseItems_eq_map res.items s.records
            · rfl
            · rfl
/-- `cleanup_expired_reservations` preserves well-formedness and
reservation-consistency. -/
theorem cleanup_ok_wfRes (s : WhState) (now : Int) (v : Nat) (s2 : WhState)
    (h : cleanup_expired_reservations s now = (.ok v, s2))
    (hW : WfState s) (hR : InvRes s) : WfState s2 ∧ InvRes s2 := by
  unfold cleanup_expired_reservations at h
  simp only [Prod.mk.injEq, Except.ok.injEq] at h
  obtain ⟨hv, hs2⟩ := h
  subst hs2
  obtain ⟨hR1, hR2, hR3, hR4, hR5⟩ := hR
  have hrecmap := releaseFold_eq_map
    (s.reservations.filter (fun r => decide (r.status = "active") && decide (r.reserved_until < now)))
    s.records
  have hkey : ∀ sX : WhState,
      sX.records = s.records.map (fun x =>
        { x with reserved_quantity :=
                   x.reserved_quantity - (((s.reservations.filter
                     (fun r => decide (r.status = "active") && decide (r.reserved_until < now))).map
                       (fun r => itemSumFor r.items x.id)).sum) }) →
      sX.reservations = s.reservations.map
        (fun r => if r.status = "active" ∧ r.reserved_until < now
          then { r with status := "expired" } else r) →
      sX.transfers = s.transfers →
      InvRes sX := by
    intro sX hrec2 hres2 htr2
    have hitems2 : ∀ res2 ∈ sX.reservations, ∀ it ∈ res2.items,
        0 ≤ it.quantity_reserved := by
      intro res2 hres2m it hit
      rw [hres2, List.mem_map] at hres2m
      obtain ⟨r0, hr0, hr0eq⟩ := hres2m
      subst hr0eq
      rw [show (if r0.status = "active" ∧ r0.reserved_until < now
          then { r0 with status := "expired" } else r0).items
          = r0.items from by split <;> rfl] at hit
      exact hR2 r0 hr0 it hit
    have hsumX : ∀ j, activeLineSum sX j = activeLineSum s j -
        (((s.reservations.filter
          (fun r => decide (r.status = "active") && decide (r.reserved_until < now))).map
            (fun r => itemSumFor r.items j)).sum) :=
      activeLineSum_sweep_eq s sX now hres2
    have hnn : ∀ j, 0 ≤ activeLineSum sX j :=
      fun j => activeLineSum_nonneg sX j hitems2
    have hSnn : ∀ j, (0 : Int) ≤ (((s.reservations.filter
        (fun r => decide (r.status = "active") && decide (r.reserved_until < now))).map
          (fun r => itemSumFor r.items j)).sum) := by
      intro j
      apply List.sum_nonneg
      intro x hx
      rw [List.mem_map] at hx
      obtain ⟨r0, hr0, hxeq⟩ := hx
      have hr0m : r0 ∈ s.reservations := List.mem_of_mem_filter hr0
      rw [← hxeq]
      exact itemSumFor_nonneg _ j (hR2 r0 hr0m)
    refine ⟨?_, hitems2, ?_, ?_, ?_⟩
    · intro r2 hr2
      rw [hrec2, List.mem_map] at hr2
      obtain ⟨r, hr, hreq⟩ := hr2
      subst hreq
      have h1 := hR1 r hr
      have h3 := hR3 r hr
      have e1 := hsumX r.id
      have e2 := hnn r.id
      have e3 := hSnn r.id
      constructor
      · show (0 : Int) ≤ r.reserved_quantity - (((s.reservations.filter
          (fun q => decide (q.status = "active") && decide (q.reserved_until < now))).map
            (fun q => itemSumFor q.items r.id)).sum)
        omega
      · show r.reserved_quantity - (((s.reservations.filter
          (fun q => decide (q.status = "active") && decide (q.reserved_until < now))).map
            (fun q => itemSumFor q.items r.id)).sum) ≤ r.quantity
        omega
    · intro r2 hr2
      rw [hrec2, List.mem_map] at hr2
      obtain ⟨r, hr, hreq⟩ := hr2
      subst hreq
      have h3 := hR3 r hr
      show activeLineSum sX r.id ≤ r.reserved_quantity - (((s.reservations.filter
        (fun q => decide (q.status = "active") && decide (q.reserved_until < now))).map
          (fun q => itemSumFor q.items r.id)).sum)
      rw [hsumX r.id]
      omega
    · intro t ht
      rw [htr2] at ht
      exact hR4 t ht
    · intro res2 hres2m
      rw [hres2, List.mem_map] at hres2m
      obtain ⟨r0, hr0, hr0eq⟩ := hres2m
      subst hr0eq
      by_cases hc : r0.status = "active" ∧ r0.reserved_until < now
      · rw [if_pos hc]
        right
        right
        right
        rfl
      · rw [if_neg hc]
        exact hR5 r0 hr0
  have W1 : WfState { s with records :=
      ((s.reservations.filter (fun r => decide (r.status = "active") && decide (r.reserved_until < now))).foldl
        (fun rs r => releaseItems r.items rs) s.records) } :=
    wf_mapRecords s _ _ hrecmap rfl rfl rfl rfl (fun r => rfl) hW
  constructor
  · exact wf_mapReservations { s with records :=
        ((s.reservations.filter (fun r => decide (r.status = "active") && decide (r.reserved_until < now))).foldl
          (fun rs r => releaseItems r.items rs) s.records) } _ _ rfl rfl rfl rfl rfl
      (fun r => by split <;> rfl) (fun r => by split <;> rfl) W1
  · apply hkey
    · exact hrecmap
    · rfl
    · rfl
/-- `dispatch_transfer` preserves well-formedness and
reservation-consistency. -/
theorem dispatch_transfer_ok_wfRes (s : WhState) (tid : Nat) (v : Nat)
    (s2 : WhState) (h : dispatch_transfer s tid = (.ok v, s2))
    (hW : WfState s) (hR : InvRes s) : WfState s2 ∧ InvRes s2 := by
  unfold dispatch_transfer at h
  split at h
  · simp at h
  split at h
  · simp at h
  simp only [Prod.mk.injEq, Except.ok.injEq] at h
  obtain ⟨hv, hs2⟩ := h
  subst hs2
  have htrqD : ∀ t2 ∈ s.transfers.map
      (fun u => if u.id = tid then { u with status := "in_transit" } else u),
      0 ≤ t2.quantity_sent := by
    intro t2 ht2
    rw [List.mem_map] at ht2
    obtain ⟨u, hu, hueq⟩ := ht2
    subst hueq
    rw [show (if u.id = tid then ({ u with status := "in_transit" } : WarehouseTransfer)
        else u).quantity_sent = u.quantity_sent from by split <;> rfl]
    exact hR.2.2.2.1 u hu
  constructor
  · exact wf_mapTransfers s _ _ rfl rfl rfl rfl rfl
      (fun t => by split <;> rfl) (fun t => by split <;> rfl) hW
  · exact invRes_congr s _ rfl rfl htrqD hR

/-- `transfer_within_warehouse` preserves well-formedness and
reservation-consistency. -/
theorem transfer_within_ok_wfRes (s : WhState) (req : TransferCreate) (v : Nat)
    (s2 : WhState) (h : transfer_within_warehouse s req = (.ok v, s2))
    (hwf : req.wf) (hW : WfState s) (hR : InvRes s) : WfState s2 ∧ InvRes s2 := by
  have hq : (0 : Int) < req.quantity := hwf
  unfold transfer_within_warehouse at h
  split at h
  · simp at h
  next src heqsrc =>
    split at h
    · simp at h
    next hna =>
      split at h
      · simp at h
      next targetBin heqtb =>
        split at h
        · simp at h
        next srcBin heqsb =>
          split at h
          · simp at h
          split at h
          · simp at h
          next hnsb =>
            split at h
            · simp at h
            split at h
            · simp at h
            have hsrcm := findRecord_mem _ _ _ heqsrc
            have hfindsrc : findRecord s src.id = some src := by rw [hsrcm.2]; exact heqsrc
            have hfqA : ∀ c ∈ s.records, c.id = src.id →
                c.reserved_quantity ≤ c.quantity - req.quantity := by
              intro c hc hcid
              have hceq : c = src := record_unique s hW.1 c src hc hsrcm.1 hcid
              rw [hceq]
              omega
            have W_A : WfState (addMovement (updateRecord s src.id
                (fun c => { c with quantity := c.quantity - req.quantity }))
                ⟨src.id, "transfer", -req.quantity, src.quantity, src.quantity - req.quantity,
                  "transfer_out", none, false⟩) :=
              wf_step s _ src.id src _ _ rfl rfl rfl rfl rfl hfindsrc (fun c => rfl) rfl hW
            have R_A : InvRes (addMovement (updateRecord s src.id
                (fun c => { c with quantity := c.quantity - req.quantity }))
                ⟨src.id, "transfer", -req.quantity, src.quantity, src.quantity - req.quantity,
                  "transfer_out", none, false⟩) :=
              invRes_updRecord s _ src.id
                (fun c => { c with quantity := c.quantity - req.quantity })
                rfl rfl (fun t ht => hR.2.2.2.1 t ht) (fun c => rfl) (fun c => rfl) hfqA hR
            split at h
            next tgt heqtgt =>
              simp only [Prod.mk.injEq, Except.ok.injEq] at h
              obtain ⟨hv, hs2⟩ := h
              subst hs2
              have htgtmem : tgt ∈ s.records := List.mem_of_find?_eq_some heqtgt
              have htgtbin : tgt.bin_id = targetBin.id := by
                have := List.find?_some heqtgt
                simp only [Bool.and_eq_true, beq_iff_eq] at this
                exact this.1.1
              have hne : tgt.id ≠ src.id := by
                intro hh
                have heqr : tgt = src := record_unique s hW.1 tgt src htgtmem hsrcm.1 hh
                exact hnsb (by rw [← heqr]; exact htgtbin)
              have htgtA : tgt ∈ (addMovement (updateRecord s src.id
                  (fun c => { c with quantity := c.quantity - req.quantity }))
                  ⟨src.id, "transfer", -req.quantity, src.quantity, src.quantity - req.quantity,
                    "transfer_out", none, false⟩).records :=
                mem_updRecords_of_ne s.records src.id _ tgt htgtmem hne
              have hfindtgt : findRecord (addMovement (updateRecord s src.id
                  (fun c => { c with quantity := c.quantity - req.quantity }))
                  ⟨src.id, "transfer", -req.quantity, src.quantity, src.quantity - req.quantity,
                    "transfer_out", none, false⟩) tgt.id = some tgt :=
                findRecord_of_mem _ W_A.1 tgt htgtA
              have hfqB : ∀ c ∈ (addMovement (updateRecord s src.id
                  (fun c => { c with quantity := c.quantity - req.quantity }))
                  ⟨src.id, "transfer", -req.quantity, src.quantity, src.quantity - req.quantity,
                    "transfer_out", none, false⟩).records, c.id = tgt.id →
                  c.reserved_quantity ≤ c.quantity + req.quantity := by
                intro c hc _
                have := R_A.1 c hc
                omega
              refine ⟨?_, ?_⟩ <;> split <;>
                first
                  | exact wf_step _ _ tgt.id tgt _ _ rfl rfl rfl rfl rfl hfindtgt
                      (fun c => rfl) rfl W_A
                  | exact invRes_updRecord (addMovement (updateRecord s src.id
                      (fun c => { c with quantity := c.quantity - req.quantity }))
                      ⟨src.id, "transfer", -req.quantity, src.quantity,
                        src.quantity - req.quantity, "transfer_out", none, false⟩) _ tgt.id
                      (fun c => { c with quantity := c.quantity + req.quantity })
                      rfl rfl (fun t ht => hR.2.2.2.1 t ht) (fun c => rfl) (fun c => rfl)
                      hfqB R_A
            next hnone =>
              simp only [Prod.mk.injEq, Except.ok.injEq] at h
              obtain ⟨hv, hs2⟩ := h
              subst hs2
              refine ⟨?_, ?_⟩ <;> split <;>
                first
                  | exact wf_new _ _ _ _ rfl rfl rfl rfl rfl rfl rfl W_A
                  | exact invRes_newRecord (addMovement (updateRecord s src.id
                      (fun c => { c with quantity := c.quantity - req.quantity }))
                      ⟨src.id, "transfer", -req.quantity, src.quantity,
                        src.quantity - req.quantity, "transfer_out", none, false⟩) _
                      ⟨s.next_id, targetBin.id, src.product_id, src.supplier_id,
                        src.batch_number, src.use_by_date, src.received_date, req.quantity,
                        0, "available"⟩
                      rfl rfl (fun t ht => hR.2.2.2.1 t ht) rfl (le_of_lt hq)
                      (fun res hres it hit => hW.2.2.2.2.2.1 res hres it hit) R_A
/-- `create_cross_warehouse_transfer` preserves well-formedness and
reservation-consistency. -/
theorem create_cross_ok_wfRes (s : WhState) (req : CrossWarehouseTransferCreate)
    (v : Nat) (s2 : WhState) (h : create_cross_warehouse_transfer s req = (.ok v, s2))
    (hwf : req.wf) (hW : WfState s) (hR : InvRes s) : WfState s2 ∧ InvRes s2 := by
  have hq : (0 : Int) < req.quantity := hwf
  unfold create_cross_warehouse_transfer at h
  split at h
  · simp at h
  next src heqsrc =>
    split at h
    · simp at h
    next hna =>
      split at h
      · simp at h
      split at h
      · simp at h
      next srcBin heqsb =>
        split at h
        · simp at h
        next hnsame =>
          split at h
          · simp at h
          next tbid heqtb =>
            simp only [Prod.mk.injEq, Except.ok.injEq] at h
            obtain ⟨hv, hs2⟩ := h
            subst hs2
            have hsrcm := findRecord_mem _ _ _ heqsrc
            have hfindsrc : findRecord s src.id = some src := by rw [hsrcm.2]; exact heqsrc
            have hfqA : ∀ c ∈ s.records, c.id = src.id →
                c.reserved_quantity ≤ c.quantity - req.quantity := by
              intro c hc hcid
              have hceq : c = src := record_unique s hW.1 c src hc hsrcm.1 hcid
              rw [hceq]
              omega
            have htrq : ∀ t ∈ s.transfers ++
                [(⟨s.next_id, srcBin.warehouse_id, src.bin_id, src.id,
                  req.target_warehouse_id, tbid, req.quantity, none, "pending"⟩ :
                  WarehouseTransfer)], 0 ≤ t.quantity_sent := by
              intro t ht
              rcases List.mem_append.mp ht with hh | hh
              · exact hR.2.2.2.1 t hh
              · rw [List.mem_singleton] at hh
                subst hh
                exact le_of_lt hq
            refine ⟨?_, ?_⟩ <;> split <;>
              first
                | exact wf_cross s _ src.id src _ _ _ rfl rfl rfl rfl rfl hfindsrc
                    (fun c => rfl) rfl rfl rfl hW
                | exact invRes_updRecord s _ src.id
                    (fun c => { c with quantity := c.quantity - req.quantity })
                    rfl rfl htrq (fun c => rfl) (fun c => rfl) hfqA hR

/-- `confirm_cross_warehouse_transfer` preserves well-formedness and
reservation-consistency. -/
theorem confirm_cross_ok_wfRes (s : WhState) (tid : Nat)
    (req : TransferConfirmRequest) (v : Nat) (s2 : WhState)
    (h : confirm_cross_warehouse_transfer s tid req = (.ok v, s2))
    (hwf : req.wf) (hW : WfState s) (hR : InvRes s) : WfState s2 ∧ InvRes s2 := by
  have hq : (0 : Int) < req.received_quantity := hwf
  unfold confirm_cross_warehouse_transfer at h
  split at h
  · simp at h
  next t heqt =>
    split at h
    · simp at h
    split at h
    · simp at h
    split at h
    · simp at h
    split at h
    · simp at h
    next targetBin heqtb =>
      split at h
      · simp at h
      split at h
      · simp at h
      next src heqsrc =>
        split at h
        · simp at h
        have htrqC : ∀ t2 ∈ s.transfers.map (fun u =>
            if u.id = tid then
              { u with status := "received", target_bin_id := some targetBin.id,
                       quantity_received := some req.received_quantity }
            else u), 0 ≤ t2.quantity_sent := by
          intro t2 ht2
          rw [List.mem_map] at ht2
          obtain ⟨u, hu, hueq⟩ := ht2
          subst hueq
          rw [show (if u.id = tid then
              ({ u with status := "received", target_bin_id := some targetBin.id,
                        quantity_received := some req.received_quantity } :
                WarehouseTransfer)
              else u).quantity_sent = u.quantity_sent from by split <;> rfl]
          exact hR.2.2.2.1 u hu
        split at h
        next tgt heqtgt =>
          simp only [Prod.mk.injEq, Except.ok.injEq] at h
          obtain ⟨hv, hs2⟩ := h
          subst hs2
          have htgtmem : tgt ∈ s.records := List.mem_of_find?_eq_some heqtgt
          have hfindtgt : findRecord s tgt.id = some tgt :=
            findRecord_of_mem s hW.1 tgt htgtmem
          have hfqC : ∀ c ∈ s.records, c.id = tgt.id →
              c.reserved_quantity ≤ c.quantity + req.received_quantity := by
            intro c hc _
            have := hR.1 c hc
            omega
          have W1 : WfState (updBinStatus (addMovement (updateRecord s tgt.id
              (fun c => { c with quantity := c.quantity + req.received_quantity }))
              ⟨tgt.id, "transfer", req.received_quantity, tgt.quantity,
                tgt.quantity + req.received_quantity, "cross_warehouse_in", none, false⟩)
              targetBin.id "occupied") :=
            wf_step s _ tgt.id tgt _ _ rfl rfl rfl rfl rfl hfindtgt (fun c => rfl) rfl hW
          constructor
          · exact wf_mapTransfers (updBinStatus (addMovement (updateRecord s tgt.id
                (fun c => { c with quantity := c.quantity + req.received_quantity }))
                ⟨tgt.id, "transfer", req.received_quantity, tgt.quantity,
                  tgt.quantity + req.received_quantity, "cross_warehouse_in", none, false⟩)
                targetBin.id "occupied") _ _ rfl rfl rfl rfl rfl
              (fun u => by split <;> rfl) (fun u => by split <;> rfl) W1
          · exact invRes_updRecord s _ tgt.id
              (fun c => { c with quantity := c.quantity + req.received_quantity })
              rfl rfl htrqC (fun c => rfl) (fun c => rfl) hfqC hR
        next hnone =>
          simp only [Prod.mk.injEq, Except.ok.injEq] at h
          obtain ⟨hv, hs2⟩ := h
          subst hs2
          have W1 : WfState (updBinStatus (addMovement { s with
              records := s.records ++ [⟨s.next_id, targetBin.id, src.product_id, src.supplier_id,
                src.batch_number, src.use_by_date, src.received_date, req.received_quantity, 0,
                "available"⟩],
              next_id := s.next_id + 1 }
              ⟨s.next_id, "transfer", req.received_quantity, 0, req.received_quantity,
                "cross_warehouse_in", none, false⟩) targetBin.id "occupied") :=
            wf_new s _ _ _ rfl rfl rfl rfl rfl rfl rfl hW
          constructor
          · exact wf_mapTransfers (updBinStatus (addMovement { s with
                records := s.records ++ [⟨s.next_id, targetBin.id, src.product_id, src.supplier_id,
                  src.batch_number, src.use_by_date, src.received_date, req.received_quantity, 0,
                  "available"⟩],
                next_id := s.next_id + 1 }
                ⟨s.next_id, "transfer", req.received_quantity, 0, req.received_quantity,
                  "cross_warehouse_in", none, false⟩) targetBin.id "occupied") _ _ rfl rfl rfl rfl rfl
              (fun u => by split <;> rfl) (fun u => by split <;> rfl) W1
          · exact invRes_newRecord s _
              ⟨s.next_id, targetBin.id, src.product_id, src.supplier_id,
                src.batch_number, src.use_by_date, src.received_date, req.received_quantity,
                0, "available"⟩
              rfl rfl htrqC rfl (le_of_lt hq)
              (fun res hres it hit => hW.2.2.2.2.2.1 res hres it hit) hR

/-- `cancel_transfer` preserves well-formedness and
reservation-consistency. -/
theorem cancel_transfer_ok_wfRes (s : WhState) (tid : Nat) (v : Nat)
    (s2 : WhState) (h : cancel_transfer s tid = (.ok v, s2))
    (hW : WfState s) (hR : InvRes s) : WfState s2 ∧ InvRes s2 := by
  unfold cancel_transfer at h
  split at h
  · simp at h
  next t heqt =>
    split at h
    · simp at h
    split at h
    · simp at h
    split at h
    · simp at h
    next src heqsrc =>
      simp only [Prod.mk.injEq, Except.ok.injEq] at h
      obtain ⟨hv, hs2⟩ := h
      subst hs2
      have hsrcm := findRecord_mem _ _ _ heqsrc
      have hfindsrc : findRecord s src.id = some src := by rw [hsrcm.2]; exact heqsrc
      have hqs : (0 : Int) ≤ t.quantity_sent :=
        hR.2.2.2.1 t (findTransfer_mem s tid t heqt).1
      have hfqX : ∀ c ∈ s.records, c.id = src.id →
          c.reserved_quantity ≤ c.quantity + t.quantity_sent := by
        intro c hc _
        have := hR.1 c hc
        omega
      have htrqX : ∀ t2 ∈ s.transfers.map
          (fun u => if u.id = tid then { u with status := "cancelled" } else u),
          0 ≤ t2.quantity_sent := by
        intro t2 ht2
        rw [List.mem_map] at ht2
        obtain ⟨u, hu, hueq⟩ := ht2
        subst hueq
        rw [show (if u.id = tid then ({ u with status := "cancelled" } : WarehouseTransfer)
            else u).quantity_sent = u.quantity_sent from by split <;> rfl]
        exact hR.2.2.2.1 u hu
      have W1 : WfState (addMovement (updBinStatus (updateRecord s src.id
          (fun c => { c with quantity := c.quantity + t.quantity_sent })) src.bin_id "occupied")
          ⟨src.id, "transfer", t.quantity_sent, src.quantity, src.quantity + t.quantity_sent,
            "transfer_cancelled", none, false⟩) :=
        wf_step s _ src.id src _ _ rfl rfl rfl rfl rfl hfindsrc (fun c => rfl) rfl hW
      constructor
      · exact wf_mapTransfers (addMovement (updBinStatus (updateRecord s src.id
            (fun c => { c with quantity := c.quantity + t.quantity_sent })) src.bin_id "occupied")
            ⟨src.id, "transfer", t.quantity_sent, src.quantity, src.quantity + t.quantity_sent,
              "transfer_cancelled", none, false⟩) _ _ rfl rfl rfl rfl rfl
          (fun u => by split <;> rfl) (fun u => by split <;> rfl) W1
      · exact invRes_updRecord s _ src.id
          (fun c => { c with quantity := c.quantity + t.quantity_sent })
          rfl rfl htrqX (fun c => rfl) (fun c => rfl) hfqX hR
/-- Every committed good operation preserves well-formedness and
reservation-consistency. -/
theorem execOp_wfRes (s : WhState) (op : Op) (hG : GoodOp s op)
    (hW : WfState s) (hR : InvRes s) :
    WfState (execOp s op) ∧ InvRes (execOp s op) := by
  cases op with
  | receive req now =>
    unfold execOp opRun
    rcases hrun : receive_goods s req now with ⟨fst, snd⟩
    simp only [hrun]
    cases fst with
    | error e => exact ⟨hW, hR⟩
    | ok val => exact receive_goods_ok_wfRes s req now val snd hrun hG hW hR
  | issue req today role =>
    unfold execOp opRun
    rcases hrun : issue_goods s req today role with ⟨fst, snd⟩
    simp only [hrun]
    cases fst with
    | error e => exact ⟨hW, hR⟩
    | ok val => exact issue_goods_ok_wfRes s req today role val snd hrun hW hR
  | adjust req =>
    unfold execOp opRun
    rcases hrun : adjust_stock s req with ⟨fst, snd⟩
    simp only [hrun]
    cases fst with
    | error e => exact ⟨hW, hR⟩
    | ok val => exact adjust_stock_ok_wfRes s req val snd hrun hW hR
  | scrap req =>
    unfold execOp opRun
    rcases hrun : scrap_stock s req with ⟨fst, snd⟩
    simp only [hrun]
    cases fst with
    | error e => exact ⟨hW, hR⟩
    | ok val => exact scrap_stock_ok_wfRes s req val snd hrun hG hW hR
  | createRes req today =>
    unfold execOp opRun
    rcases hrun : create_reservation s req today with ⟨fst, snd⟩
    simp only [hrun]
    cases fst with
    | error e => exact ⟨hW, hR⟩
    | ok val => exact create_reservation_ok_wfRes s req today val snd hrun hW hR
  | fulfillRes rid =>
    unfold execOp opRun
    rcases hrun : fulfill_reservation s rid with ⟨fst, snd⟩
    simp only [hrun]
    cases fst with
    | error e => exact ⟨hW, hR⟩
    | ok val => exact fulfill_reservation_ok_wfRes s rid val snd hrun hW hR
  | cancelRes rid =>
    unfold execOp opRun
    rcases hrun : cancel_reservation s rid with ⟨fst, snd⟩
    simp only [hrun]
    cases fst with
    | error e => exact ⟨hW, hR⟩
    | ok val => exact cancel_reservation_ok_wfRes s rid val snd hrun hW hR
  | sweep now =>
    unfold execOp opRun
    rcases hrun : cleanup_expired_reservations s now with ⟨fst, snd⟩
    simp only [hrun]
    cases fst with
    | error e => exact ⟨hW, hR⟩
    | ok val => exact cleanup_ok_wfRes s now val snd hrun hW hR
  | transferWithin req =>
    unfold execOp opRun
    rcases hrun : transfer_within_warehouse s req with ⟨fst, snd⟩
    simp only [hrun]
    cases fst with
    | error e => exact ⟨hW, hR⟩
    | ok val => exact transfer_within_ok_wfRes s req val snd hrun hG hW hR
  | createCross req =>
    unfold execOp opRun
    rcases hrun : create_cross_warehouse_transfer s req with ⟨fst, snd⟩
    simp only [hrun]
    cases fst with
    | error e => exact ⟨hW, hR⟩
    | ok val => exact create_cross_ok_wfRes s req val snd hrun hG hW hR
  | dispatch tid =>
    unfold execOp opRun
    rcases hrun : dispatch_transfer s tid with ⟨fst, snd⟩
    simp only [hrun]
    cases fst with
    | error e => exact ⟨hW, hR⟩
    | ok val => exact dispatch_transfer_ok_wfRes s tid val snd hrun hW hR
  | confirm tid req =>
    unfold execOp opRun
    rcases hrun : confirm_cross_warehouse_transfer s tid req with ⟨fst, snd⟩
    simp only [hrun]
    cases fst with
    | error e => exact ⟨hW, hR⟩
    | ok val => exact confirm_cross_ok_wfRes s tid req val snd hrun hG hW hR
  | cancelTransfer tid =>
    unfold execOp opRun
    rcases hrun : cancel_transfer s tid with ⟨fst, snd⟩
    simp only [hrun]
    cases fst with
    | error e => exact ⟨hW, hR⟩
    | ok val => exact cancel_transfer_ok_wfRes s tid val snd hrun hW hR

/-- A sequence of good committed operations preserves well-formedness and
reservation-consistency. -/
theorem run_wfRes (s : WhState) (ops : List Op) (hRun : RunOk s ops)
    (hW : WfState s) (hR : InvRes s) :
    WfState (run s ops) ∧ InvRes (run s ops) := by
  induction ops generalizing s with
  | nil => exact ⟨hW, hR⟩
  | cons op rest ih =>
    obtain ⟨hg, hrest⟩ := hRun
    have h1 := execOp_wfRes s op hg hW hR
    exact ih (execOp s op) hrest h1.1 h1.2
/-! Helper facts for the claim theorems: lookups through appends and maps,
structure-update cancellation, and the total allocated by the greedy walk. -/

theorem find?_append_none {α : Type} (p : α → Bool) (l1 l2 : List α)
    (h : l1.find? p = none) : (l1 ++ l2).find? p = l2.find? p := by
  induction l1 with
  | nil => rfl
  | cons x xs ih =>
    cases hpx : p x with
    | true =>
      rw [List.find?_cons_of_pos _ hpx] at h
      simp at h
    | false =>
      rw [List.find?_cons_of_neg _ (by simp [hpx])] at h
      rw [List.cons_append, List.find?_cons_of_neg _ (by simp [hpx])]
      exact ih h

theorem find?_fresh_id_none (l : List StockReservation) (n : Nat)
    (h : ∀ r ∈ l, r.id < n) : l.find? (fun r => r.id == n) = none := by
  rw [List.find?_eq_none]
  intro r hr
  have := h r hr
  simp only [beq_iff_eq]
  omega

theorem find?_fresh_tid_none (l : List WarehouseTransfer) (n : Nat)
    (h : ∀ t ∈ l, t.id < n) : l.find? (fun t => t.id == n) = none := by
  rw [List.find?_eq_none]
  intro t ht
  have := h t ht
  simp only [beq_iff_eq]
  omega

theorem find?_updRecords_self (rs : List BinContent) (i : Nat)
    (f : BinContent → BinContent) (c : BinContent)
    (hid : ∀ x, (f x).id = x.id)
    (h : rs.find? (fun c => c.id == i) = some c) :
    (updRecords rs i f).find? (fun c => c.id == i) = some (if c.id = i then f c else c) := by
  induction rs with
  | nil => simp [List.find?] at h
  | cons x xs ih =>
    unfold updRecords at ih ⊢
    rw [List.map_cons]
    by_cases hx : x.id = i
    · rw [List.find?_cons_of_pos _ (by simp [hx])] at h
      rw [List.find?_cons_of_pos]
      · rw [Option.some.injEq] at h
        rw [← h]
      · rw [if_pos hx]
        simp only [beq_iff_eq, hid x]
        exact hx
    · rw [List.find?_cons_of_neg _ (by simp [hx])] at h
      rw [List.find?_cons_of_neg]
      · exact ih h
      · rw [if_neg hx]
        simp [hx]

theorem find?_map_transfer_id (g : WarehouseTransfer → WarehouseTransfer)
    (hid : ∀ u, (g u).id = u.id) (l : List WarehouseTransfer) (i : Nat) :
    (l.map g).find? (fun t => t.id == i) = (l.find? (fun t => t.id == i)).map g := by
  induction l with
  | nil => rfl
  | cons x xs ih =>
    rw [List.map_cons]
    by_cases hx : x.id = i
    · rw [List.find?_cons_of_pos _ (by show ((g x).id == i) = true; rw [hid x]; simp [hx]),
        List.find?_cons_of_pos _ (by simp [hx])]
      rfl
    · rw [List.find?_cons_of_neg _
          (by show ¬((g x).id == i) = true; rw [hid x]; simp [hx]),
        List.find?_cons_of_neg _ (by simp [hx])]
      exact ih

theorem binContent_set_reserved_self (r : BinContent) (x : Int)
    (h : x = r.reserved_quantity) :
    ({ r with reserved_quantity := x } : BinContent) = r := by
  cases r
  cases h
  rfl

theorem binContent_set_quantity_self (r : BinContent) (x : Int)
    (h : x = r.quantity) : ({ r with quantity := x } : BinContent) = r := by
  cases r
  cases h
  rfl

theorem availSum_nonneg (l : List BinContent)
    (hpos : ∀ c ∈ l, 0 < c.quantity - c.reserved_quantity) :
    0 ≤ ((l.map (fun c => c.quantity - c.reserved_quantity)).sum) := by
  apply List.sum_nonneg
  intro x hx
  rw [List.mem_map] at hx
  obtain ⟨c, hc, hceq⟩ := hx
  have := hpos c hc
  omega

theorem allocateGreedy_pair_sum (n : Int) (l : List BinContent) (hn : 0 ≤ n)
    (hpos : ∀ c ∈ l, 0 < c.quantity - c.reserved_quantity) :
    ((allocateGreedy n l).map (fun p => p.2)).sum =
      min n ((l.map (fun c => c.quantity - c.reserved_quantity)).sum) := by
  induction l generalizing n with
  | nil =>
    simp [allocateGreedy]
    omega
  | cons c rest ih =>
    have hrest : ∀ x ∈ rest, 0 < x.quantity - x.reserved_quantity :=
      fun x hx => hpos x (List.mem_cons_of_mem c hx)
    have hR := availSum_nonneg rest hrest
    have hc := hpos c (List.mem_cons_self c rest)
    unfold allocateGreedy
    dsimp only
    split
    · next hle =>
      rw [List.map_nil, List.sum_nil, List.map_cons, List.sum_cons]
      omega
    · next hgt =>
      rw [if_neg (by omega)]
      rw [List.map_cons, List.sum_cons,
        ih (n - min (c.quantity - c.reserved_quantity) n) (by omega) hrest,
        List.map_cons, List.sum_cons]
      omega

theorem allocateGreedy_ne_nil (n : Int) (l : List BinContent) (hn : 0 < n)
    (hl : l ≠ []) (hpos : ∀ c ∈ l, 0 < c.quantity - c.reserved_quantity) :
    allocateGreedy n l ≠ [] := by
  cases l with
  | nil => exact absurd rfl hl
  | cons c rest =>
    have hc := hpos c (List.mem_cons_self c rest)
    unfold allocateGreedy
    dsimp only
    rw [if_neg (by omega), if_neg (by omega)]
    simp

theorem fefoSorted_eq_nil_iff (s : WhState) (pid : Nat) (today : Int) :
    fefoSorted s pid today = [] ↔ fefoEligible s pid today = [] := by
  constructor
  · intro h
    have hperm := List.perm_insertionSort fefoLe (fefoEligible s pid today)
    rw [show fefoSorted s pid today =
      List.insertionSort fefoLe (fefoEligible s pid today) from rfl] at h
    rw [h] at hperm
    exact hperm.symm.eq_nil
  · intro h
    rw [show fefoSorted s pid today =
      List.insertionSort fefoLe (fefoEligible s pid today) from rfl, h]
    rfl
/-- C1: the bound `0 ≤ reserved_quantity ≤ quantity` on every `bin_contents`
row is preserved by every sequence of committed ledger operations whose
requests pass schema validation and that scrap only rows with zero reserved
quantity.  (The claim's "in particular after Scrap of a record whose reserved
quantity is non-zero" is refuted by `C1_counterexample`: `scrap_stock`
performs no check against `reserved_quantity`.) -/
theorem C1_theorem (s : WhState) (ops : List Op) (hRun : RunOk s ops)
    (hW : WfState s) (hR : InvRes s) :
    ∀ r ∈ (run s ops).records,
      0 ≤ r.reserved_quantity ∧ r.reserved_quantity ≤ r.quantity :=
  fun r hr => ((run_wfRes s ops hRun hW hR).2).1 r hr

/-- Witness for C1: a committed scrap of a zero-reserved row keeps the
bound. -/
theorem C1_witness :
    RunOk exStock30 [Op.scrap ⟨1, "damaged"⟩] ∧ WfState exStock30 ∧
    InvRes exStock30 ∧
    (∀ r ∈ (run exStock30 [Op.scrap ⟨1, "damaged"⟩]).records,
      0 ≤ r.reserved_quantity ∧ r.reserved_quantity ≤ r.quantity) :=
  ⟨by decide, by decide, by decide,
    C1_theorem exStock30 [Op.scrap ⟨1, "damaged"⟩] (by decide) (by decide) (by decide)⟩

/-- Counterexample for C1 as claimed: scrapping the 5-unit row of
`exResState`, which has 3 units reserved, zeroes its quantity while leaving
`reserved_quantity = 3`, so `0 ≤ reserved ≤ quantity` fails afterwards. -/
theorem C1_counterexample :
    WfState exResState ∧ InvRes exResState ∧
    ¬ (∀ r ∈ (run exResState [Op.scrap ⟨1, "damaged"⟩]).records,
        0 ≤ r.reserved_quantity ∧ r.reserved_quantity ≤ r.quantity) := by
  decide

/-- C2: starting from a state whose movement log replays correctly, after any
sequence of operations every movement's signed quantity is
`quantity_after - quantity_before`, replaying each record's movements in
creation order sums to its current quantity, and the last entry's
`quantity_after` equals the stored quantity. -/
theorem C2_theorem (s : WhState) (ops : List Op) (hW : WfState s)
    (hM : InvMov s) :
    (∀ m ∈ (run s ops).movements,
      m.quantity = m.quantity_after - m.quantity_before) ∧
    (∀ r ∈ (run s ops).records, movSumFor (run s ops) r.id = r.quantity ∧
      ((movementsFor (run s ops) r.id).getLast?.map (fun m => m.quantity_after)) =
        some r.quantity) :=
  (run_wfMov s ops hW hM).2

/-- Witness for C2: receiving 4 units into the empty database yields a state
whose log replays correctly. -/
theorem C2_witness :
    WfState exEmpty ∧ InvMov exEmpty ∧
    InvMov (run exEmpty [Op.receive ⟨10, 1, none, "B1", 100, 4⟩ 0]) :=
  ⟨by decide, by decide,
    C2_theorem exEmpty [Op.receive ⟨10, 1, none, "B1", 100, 4⟩ 0] (by decide) (by decide)⟩

/-- C5: the urgency classification of `calculate_urgency` is exactly
`critical` under 7 days, `high` from 7 to under 14, `medium` from 14 to under
30 and `low` from 30 days on.  (The claim's thresholds `<3`/`≤7`/`≤14` and
its `expired` band are refuted by `C5_counterexample`.) -/
theorem C5_theorem (d : Int) :
    (calculate_urgency d = "critical" ↔ d < 7) ∧
    (calculate_urgency d = "high" ↔ 7 ≤ d ∧ d < 14) ∧
    (calculate_urgency d = "medium" ↔ 14 ≤ d ∧ d < 30) ∧
    (calculate_urgency d = "low" ↔ 30 ≤ d) := by
  unfold calculate_urgency
  by_cases h1 : d < 7 <;> by_cases h2 : d < 14 <;> by_cases h3 : d < 30 <;>
    simp [h1, h2, h3] <;> omega

/-- Counterexample for C5 as claimed: at 5 days the source returns
`critical` where the spec's bands give `high`, and at -1 days it returns
`critical` where the spec says `expired`. -/
theorem C5_counterexample :
    calculate_urgency 5 = "critical" ∧ specUrgency 5 = "high" ∧
    calculate_urgency (-1) = "critical" ∧ specUrgency (-1) = "expired" ∧
    ¬ calculate_urgency 5 = specUrgency 5 := by
  decide

/-- C10: whenever `receive_goods`, `issue_goods`, `adjust_stock` or
`transfer_within_warehouse` returns a domain error, the returned state is the
untouched input state: no row and no movement was written. -/
theorem C10_theorem (s : WhState) (e : LedgerError) (s2 : WhState) :
    (∀ req now, receive_goods s req now = (.error e, s2) → s2 = s) ∧
    (∀ req today role, issue_goods s req today role = (.error e, s2) → s2 = s) ∧
    (∀ req, adjust_stock s req = (.error e, s2) → s2 = s) ∧
    (∀ req, transfer_within_warehouse s req = (.error e, s2) → s2 = s) := by
  refine ⟨?_, ?_, ?_, ?_⟩
  · intro req now h
    unfold receive_goods at h
    repeat' split at h
    all_goals
      first
        | (simp only [Prod.mk.injEq] at h; exact h.2.symm)
        | simp at h
  · intro req today role h
    unfold issue_goods at h
    repeat' split at h
    all_goals
      first
        | (simp only [Prod.mk.injEq] at h; exact h.2.symm)
        | simp at h
  · intro req h
    unfold adjust_stock at h
    repeat' split at h
    all_goals
      first
        | (simp only [Prod.mk.injEq] at h; exact h.2.symm)
        | simp at h
  · intro req h
    unfold transfer_within_warehouse at h
    repeat' split at h
    all_goals
      first
        | (simp only [Prod.mk.injEq] at h; exact h.2.symm)
        | simp at h

/-- Witness for C10: receiving into the absent bin 99 fails and leaves the
state untouched. -/
theorem C10_witness :
    receive_goods exEmpty ⟨99, 1, none, "B1", 100, 4⟩ 0 =
      (.error .binNotFound, exEmpty) ∧ exEmpty = exEmpty :=
  ⟨by decide,
    (C10_theorem exEmpty .binNotFound exEmpty).1 ⟨99, 1, none, "B1", 100, 4⟩ 0 (by decide)⟩
/-- C4: once the earlier guards of `issue_goods` pass (row found, requested
quantity positive and within the total quantity, not expired, FEFO-compliant
or acceptably overridden), a request exceeding `quantity - reserved_quantity`
is rejected with `insufficientAvailable` and the state is unchanged.  (The
claim's unconditional form — this error regardless of the other guards — is
refuted by `C4_counterexample`: the insufficient-total check fires first.) -/
theorem C4_theorem (s : WhState) (req : IssueRequest) (today : Int)
    (role : String) (bc : BinContent)
    (h1 : findRecord s req.bin_content_id = some bc)
    (h2 : ¬ bc.quantity < req.quantity) (h3 : ¬ req.quantity ≤ 0)
    (h4 : ¬ bc.use_by_date < today)
    (h5 : ¬(is_fefo_compliant s bc today = false ∧ req.force_non_fefo = false))
    (h6 : ¬(is_fefo_compliant s bc today = false ∧ req.force_non_fefo = true ∧
      ¬(role = "admin" ∨ role = "manager")))
    (h7 : ¬(is_fefo_compliant s bc today = false ∧ req.force_non_fefo = true ∧
      (req.override_reason = none ∨ req.override_reason = some "")))
    (h8 : bc.quantity - bc.reserved_quantity < req.quantity) :
    issue_goods s req today role = (.error .insufficientAvailable, s) := by
  unfold issue_goods
  rw [h1]
  dsimp only
  rw [if_neg h2, if_neg h3, if_neg h4, if_neg h5, if_neg h6, if_neg h7, if_pos h8]

/-- Witness for C4: issuing 5 from the 10-unit row with 8 reserved passes
every earlier guard and fails with `insufficientAvailable`. -/
theorem C4_witness :
    issue_goods exIssueState ⟨1, 5, "sale", false, none⟩ 0 "worker" =
      (.error .insufficientAvailable, exIssueState) :=
  C4_theorem exIssueState ⟨1, 5, "sale", false, none⟩ 0 "worker"
    ⟨1, 10, 1, none, "B1", 100, 0, 10, 8, "available"⟩
    (by decide) (by decide) (by decide) (by decide) (by decide) (by decide)
    (by decide) (by decide)

/-- Counterexample for C4 as claimed: requesting 20 from the 10-unit row with
8 reserved exceeds `quantity - reserved` (2), yet `issue_goods` reports
`insufficientQuantity`, not `insufficientAvailable`, because the
insufficient-total guard precedes the availability guard. -/
theorem C4_counterexample :
    findRecord exIssueState 1 =
      some ⟨1, 10, 1, none, "B1", 100, 0, 10, 8, "available"⟩ ∧
    (10 : Int) - 8 < 20 ∧
    issue_goods exIssueState ⟨1, 20, "sale", false, none⟩ 0 "worker" =
      (.error .insufficientQuantity, exIssueState) := by
  decide
/-- C9: `cleanup_expired_reservations` is idempotent at a fixed clock value:
after one sweep at `now`, a second sweep at the same `now` changes nothing
and reports 0, so no reservation's lines are released twice.  (The claim's
"at the same (or any later) time" is refuted by `C9_counterexample`: a later
second sweep can expire reservations the first one left active.) -/
theorem C9_theorem (s : WhState) (now : Int) (c : Nat) (s1 : WhState)
    (h : cleanup_expired_reservations s now = (.ok c, s1)) :
    cleanup_expired_reservations s1 now = (.ok 0, s1) := by
  have hs1 : s1 = (cleanup_expired_reservations s now).2 := by rw [h]
  subst hs1
  have hgg : ∀ r0 ∈ s.reservations,
      (fun r => if r.status = "active" ∧ r.reserved_until < now
        then { r with status := "expired" } else r)
      ((fun r => if r.status = "active" ∧ r.reserved_until < now
        then { r with status := "expired" } else r) r0) =
      (fun r => if r.status = "active" ∧ r.reserved_until < now
        then { r with status := "expired" } else r) r0 := by
    intro r0 _
    dsimp only
    by_cases hc0 : r0.status = "active" ∧ r0.reserved_until < now
    · rw [if_pos hc0, if_neg (by simp)]
    · rw [if_neg hc0, if_neg hc0]
  have hfilt : ((s.reservations.map (fun r =>
      if r.status = "active" ∧ r.reserved_until < now
        then { r with status := "expired" } else r)).filter
      (fun r => decide (r.status = "active") && decide (r.reserved_until < now))) = [] := by
    rw [List.filter_eq_nil_iff]
    intro r hr
    rw [List.mem_map] at hr
    obtain ⟨r0, hr0, hr0eq⟩ := hr
    subst hr0eq
    by_cases hc0 : r0.status = "active" ∧ r0.reserved_until < now
    · rw [if_pos hc0]
      simp
    · rw [if_neg hc0]
      simp only [Bool.and_eq_true, decide_eq_true_eq]
      intro hcon
      exact hc0 hcon
  have hmap : ((s.reservations.map (fun r =>
      if r.status = "active" ∧ r.reserved_until < now
        then { r with status := "expired" } else r)).map (fun r =>
      if r.status = "active" ∧ r.reserved_until < now
        then { r with status := "expired" } else r)) =
      s.reservations.map (fun r =>
      if r.status = "active" ∧ r.reserved_until < now
        then { r with status := "expired" } else r) := by
    rw [List.map_map]
    exact List.map_congr_left hgg
  show cleanup_expired_reservations
    { s with
      records := ((s.reservations.filter
        (fun r => decide (r.status = "active") && decide (r.reserved_until < now))).foldl
          (fun rs r => releaseItems r.items rs) s.records),
      reservations := (s.reservations.map (fun r =>
        if r.status = "active" ∧ r.reserved_until < now
          then { r with status := "expired" } else r)) } now = _
  unfold cleanup_expired_reservations
  dsimp only
  rw [hfilt, hmap]
  rfl

/-- Witness for C9: sweeping `exResState` at time 100 expires its reservation;
an immediate second sweep at time 100 reports 0 and changes nothing. -/
theorem C9_witness :
    cleanup_expired_reservations exSweepMid 100 = (.ok 0, exSweepMid) :=
  C9_theorem exResState 100 1 exSweepMid (by decide)

/-- Counterexample for C9 as claimed: sweeping `exResState` (reservation held
until time 50) at time 3 releases nothing, but the second sweep at the later
time 100 expires the reservation and reports 1, not 0, and changes the
state. -/
theorem C9_counterexample :
    (cleanup_expired_reservations exResState 3).1 = .ok 0 ∧
    (cleanup_expired_reservations
      ((cleanup_expired_reservations exResState 3).2) 100).1 = .ok 1 ∧
    ¬ ((cleanup_expired_reservations
      ((cleanup_expired_reservations exResState 3).2) 100).2 =
      (cleanup_expired_reservations exResState 3).2) := by
  decide
/-- C3: every entry of the FEFO allocation plan is an eligible row (available,
unexpired, positive free quantity) of the product taken within its free
quantity; the plan follows the FEFO sort order (use-by, then batch number,
then received timestamp, all ascending); the total allocated is
`min(requested, total free quantity)` of the walk; and on the two-row tie
state the plan takes `BATCH-A` before `BATCH-Z`. -/
theorem C3_theorem (s : WhState) (pid : Nat) (qty today : Int) (hq : 0 ≤ qty) :
    (∀ p ∈ fefoPlan s pid qty today, p.1 ∈ s.records ∧ p.1.product_id = pid ∧
      p.1.status = "available" ∧ p.1.reserved_quantity < p.1.quantity ∧
      today ≤ p.1.use_by_date ∧ 0 < p.2 ∧
      p.2 ≤ p.1.quantity - p.1.reserved_quantity) ∧
    ((fefoPlan s pid qty today).map (fun p => p.1)).Pairwise fefoLe ∧
    ((fefoPlan s pid qty today).map (fun p => p.2)).sum =
      min qty (((fefoSorted s pid today).map
        (fun c => c.quantity - c.reserved_quantity)).sum) ∧
    (fefoPlan exTieState 1 60 0).map (fun p => p.1.batch_number) =
      ["BATCH-A", "BATCH-Z"] := by
  have hpos : ∀ c ∈ fefoSorted s pid today,
      0 < c.quantity - c.reserved_quantity := by
    intro c hc
    have := (fefoEligible_mem s pid today c (fefoSorted_mem s pid today c hc)).2.2.2.1
    omega
  refine ⟨?_, ?_, ?_, by decide⟩
  · intro p hp
    have h1 := fefoEligible_mem s pid today p.1
      (fefoSorted_mem s pid today p.1 (allocateGreedy_mem_fst qty _ p hp))
    have h2 := allocateGreedy_entry_bounds qty _ p hp
    exact ⟨h1.1, h1.2.1, h1.2.2.1, h1.2.2.2.1, h1.2.2.2.2, h2.1, h2.2⟩
  · have hsorted : (fefoSorted s pid today).Pairwise fefoLe :=
      List.sorted_insertionSort fefoLe (fefoEligible s pid today)
    exact List.Pairwise.sublist (allocateGreedy_fst_sublist qty _) hsorted
  · exact allocateGreedy_pair_sum qty _ hq hpos

/-- Witness for C3 at the tie state: eligibility, order, the allocated total
`min(60, 100) = 60`, and the tie-break. -/
theorem C3_witness :
    (∀ p ∈ fefoPlan exTieState 1 60 0, p.1 ∈ exTieState.records ∧
      p.1.product_id = 1 ∧ p.1.status = "available" ∧
      p.1.reserved_quantity < p.1.quantity ∧ (0 : Int) ≤ p.1.use_by_date ∧
      0 < p.2 ∧ p.2 ≤ p.1.quantity - p.1.reserved_quantity) ∧
    ((fefoPlan exTieState 1 60 0).map (fun p => p.1)).Pairwise fefoLe ∧
    ((fefoPlan exTieState 1 60 0).map (fun p => p.2)).sum =
      min 60 (((fefoSorted exTieState 1 0).map
        (fun c => c.quantity - c.reserved_quantity)).sum) ∧
    (fefoPlan exTieState 1 60 0).map (fun p => p.1.batch_number) =
      ["BATCH-A", "BATCH-Z"] :=
  C3_theorem exTieState 1 60 0 (by decide)
/-- C6: with the product present and active and a positive requested
quantity, `create_reservation` fails with `reservationNoStock` exactly when
no eligible row exists, and otherwise creates the reservation at the
allocated total — flagged partial precisely when that total falls short of
the request — with one `active` line per plan entry. -/
theorem C6_theorem (s : WhState) (req : ReservationCreate) (today : Int)
    (product : Product) (hp : findProduct s req.product_id = some product)
    (hact : product.is_active = true) (hwf : req.wf) :
    (((create_reservation s req today).1 = .error .reservationNoStock) ↔
      fefoEligible s req.product_id today = []) ∧
    (fefoEligible s req.product_id today ≠ [] →
      ∃ s2, create_reservation s req today =
        (.ok (s.next_id, decide ((((fefoPlan s req.product_id req.quantity today).map
          (fun p => p.2)).sum) < req.quantity)), s2) ∧
        s2.reservations = s.reservations ++
          [⟨s.next_id, req.product_id,
            (((fefoPlan s req.product_id req.quantity today).map (fun p => p.2)).sum),
            req.reserved_until, "active",
            (fefoPlan s req.product_id req.quantity today).map
              (fun p => (⟨p.1.id, p.2⟩ : ReservationItem))⟩]) := by
  have hq : (0 : Int) < req.quantity := hwf
  have hpos : ∀ c ∈ fefoSorted s req.product_id today,
      0 < c.quantity - c.reserved_quantity := by
    intro c hc
    have := (fefoEligible_mem s req.product_id today c
      (fefoSorted_mem s req.product_id today c hc)).2.2.2.1
    omega
  unfold create_reservation
  rw [hp]
  dsimp only
  rw [if_neg (by simp [hact])]
  by_cases hel : fefoEligible s req.product_id today = []
  · have hs : fefoSorted s req.product_id today = [] :=
      (fefoSorted_eq_nil_iff s req.product_id today).mpr hel
    rw [if_pos hs]
    exact ⟨⟨fun _ => hel, fun _ => rfl⟩, fun hne => absurd hel hne⟩
  · have hs : ¬ (fefoSorted s req.product_id today = []) :=
      fun hh => hel ((fefoSorted_eq_nil_iff s req.product_id today).mp hh)
    rw [if_neg hs]
    rw [if_neg (allocateGreedy_ne_nil req.quantity _ hq hs hpos)]
    refine ⟨⟨fun hcon => by simp at hcon, fun hcon => absurd hcon hel⟩, ?_⟩
    intro _
    exact ⟨_, rfl, rfl⟩

/-- Witness for C6: requesting 100 against the single 30-unit row creates a
partial reservation of 30; availability is nonempty so no error. -/
theorem C6_witness :
    (((create_reservation exStock30 ⟨1, 100, 50⟩ 0).1 =
        .error .reservationNoStock) ↔ fefoEligible exStock30 1 0 = []) ∧
    (fefoEligible exStock30 1 0 ≠ [] →
      ∃ s2, create_reservation exStock30 ⟨1, 100, 50⟩ 0 =
        (.ok (7, decide ((((fefoPlan exStock30 1 100 0).map
          (fun p => p.2)).sum) < 100)), s2) ∧
        s2.reservations = exStock30.reservations ++
          [⟨7, 1, (((fefoPlan exStock30 1 100 0).map (fun p => p.2)).sum),
            50, "active",
            (fefoPlan exStock30 1 100 0).map
              (fun p => (⟨p.1.id, p.2⟩ : ReservationItem))⟩]) :=
  C6_theorem exStock30 ⟨1, 100, 50⟩ 0 ⟨1, true⟩ (by decide) (by decide)
    (show (0 : Int) < 100 by decide)
/-- C7: creating a reservation and then cancelling it restores every
`bin_contents` row exactly — `reserved_quantity` returns to its
pre-reservation value and `quantity` is untouched throughout. -/
theorem C7_theorem (s : WhState) (req : ReservationCreate) (today : Int)
    (v : Nat × Bool) (s1 : WhState) (w : Nat) (s2 : WhState)
    (hW : WfState s)
    (h1 : create_reservation s req today = (.ok v, s1))
    (h2 : cancel_reservation s1 v.1 = (.ok w, s2)) :
    s2.records = s.records := by
  unfold create_reservation at h1
  split at h1
  · simp at h1
  split at h1
  · simp at h1
  split at h1
  · simp at h1
  dsimp only at h1
  split at h1
  · simp at h1
  simp only [Prod.mk.injEq, Except.ok.injEq] at h1
  obtain ⟨hv, hs1⟩ := h1
  subst hs1
  set alloc := allocateGreedy req.quantity (fefoSorted s req.product_id today) with halloc
  set nres := (⟨s.next_id, req.product_id, (alloc.map (fun p => p.2)).sum,
    req.reserved_until, "active", alloc.map (fun p => ⟨p.1.id, p.2⟩)⟩ : StockReservation)
    with hnres
  have hv1 : v.1 = s.next_id := by rw [← hv]
  have hfind : findReservation
      ({ s with
         records := reserveAlloc alloc s.records,
         reservations := s.reservations ++ [nres],
         next_id := s.next_id + 1 }) v.1 = some nres := by
    show ((s.reservations ++ [nres]).find? (fun r => r.id == v.1)) = some nres
    rw [hv1]
    rw [find?_append_none _ _ _
      (find?_fresh_id_none s.reservations s.next_id hW.2.2.2.2.1)]
    rw [List.find?_cons_of_pos _ (by rw [hnres]; simp)]
  unfold cancel_reservation at h2
  rw [hfind] at h2
  dsimp only at h2
  have hstat : nres.status = "active" := by rw [hnres]
  rw [if_neg (show ¬ (nres.status = "fulfilled") by rw [hstat]; decide)] at h2
  rw [if_neg (show ¬ (nres.status = "cancelled") by rw [hstat]; decide)] at h2
  rw [if_neg (show ¬ (nres.status = "expired") by rw [hstat]; decide)] at h2
  simp only [Prod.mk.injEq, Except.ok.injEq] at h2
  obtain ⟨hw, hs2⟩ := h2
  subst hs2
  show releaseItems nres.items (reserveAlloc alloc s.records) = s.records
  rw [hnres]
  rw [releaseItems_eq_map, reserveAlloc_eq_map, List.map_map]
  have hid : ∀ r ∈ s.records,
      ((fun r => { r with reserved_quantity :=
          r.reserved_quantity - itemSumFor (alloc.map (fun p => ⟨p.1.id, p.2⟩)) r.id }) ∘
        (fun r => { r with reserved_quantity :=
          r.reserved_quantity + allocSumFor alloc r.id })) r = r := by
    intro r _
    dsimp only [Function.comp]
    exact binContent_set_reserved_self r _
      (by rw [itemSumFor_map_alloc]; omega)
  rw [List.map_congr_left hid]
  simp

/-- Witness for C7: reserving 20 of the 30 free units of `exStock30` and
cancelling the reservation restores the rows exactly. -/
theorem C7_witness : (cancel_reservation exC7Mid 7).2.records = exStock30.records :=
  C7_theorem exStock30 ⟨1, 20, 50⟩ 0 (7, false) exC7Mid 7
    (cancel_reservation exC7Mid 7).2 (by decide) (by decide) (by decide)
theorem cancel_after_cross_aux (s : WhState) (req : CrossWarehouseTransferCreate)
    (src : BinContent) (srcBin : Bin) (tbid : Option Nat)
    (hW : WfState s)
    (hfindsrc : findRecord s src.id = some src)
    (hsrcid : src.id = req.source_bin_content_id)
    (s1 : WhState)
    (hrec1 : s1.records = updRecords s.records src.id
      (fun c => { c with quantity := c.quantity - req.quantity }))
    (htr1 : s1.transfers = s.transfers ++
      [⟨s.next_id, srcBin.warehouse_id, src.bin_id, src.id, req.target_warehouse_id,
        tbid, req.quantity, none, "pending"⟩])
    (hmov1 : s1.movements = s.movements ++
      [⟨src.id, "transfer", -req.quantity, src.quantity, src.quantity - req.quantity,
        "cross_warehouse_out", none, false⟩])
    (w : Nat) (s2 : WhState)
    (h2 : cancel_transfer s1 s.next_id = (.ok w, s2)) :
    s2.records = s.records ∧
    (∃ t, findTransfer s2 s.next_id = some t ∧ t.status = "cancelled" ∧
      t.quantity_sent = req.quantity) ∧
    (∃ m1 m2, s2.movements = s.movements ++ [m1, m2] ∧
      m1.bin_content_id = req.source_bin_content_id ∧
      m2.bin_content_id = req.source_bin_content_id ∧
      m1.quantity + m2.quantity = 0) := by
  have hfindt : findTransfer s1 s.next_id =
      some (⟨s.next_id, srcBin.warehouse_id, src.bin_id, src.id,
        req.target_warehouse_id, tbid, req.quantity, none, "pending"⟩ :
        WarehouseTransfer) := by
    show s1.transfers.find? (fun t => t.id == s.next_id) = _
    rw [htr1]
    rw [find?_append_none _ _ _
      (find?_fresh_tid_none s.transfers s.next_id hW.2.2.2.2.2.2.2.1)]
    rw [List.find?_cons_of_pos _ (by simp)]
  have hfindrec : findRecord s1 src.id =
      some ({ src with quantity := src.quantity - req.quantity } : BinContent) := by
    show s1.records.find? (fun c => c.id == src.id) = _
    rw [hrec1]
    rw [find?_updRecords_self s.records src.id
      (fun c => { c with quantity := c.quantity - req.quantity }) src
      (fun x => rfl) hfindsrc]
    rw [if_pos rfl]
  unfold cancel_transfer at h2
  rw [hfindt] at h2
  dsimp only at h2
  rw [if_neg (show ¬ (("pending" : String) = "received") by decide)] at h2
  rw [if_neg (show ¬ (("pending" : String) = "cancelled") by decide)] at h2
  rw [hfindrec] at h2
  dsimp only at h2
  simp only [Prod.mk.injEq, Except.ok.injEq] at h2
  obtain ⟨hw, hs2⟩ := h2
  subst hs2
  refine ⟨?_, ?_, ?_⟩
  · show updRecords s1.records
      ({ src with quantity := src.quantity - req.quantity } : BinContent).id
      (fun c => { c with quantity := c.quantity + req.quantity }) = s.records
    rw [hrec1]
    unfold updRecords
    rw [List.map_map]
    have hpt : ∀ r ∈ s.records,
        ((fun r => if r.id = ({ src with quantity := src.quantity - req.quantity } :
            BinContent).id then { r with quantity := r.quantity + req.quantity } else r) ∘
          (fun r => if r.id = src.id
            then { r with quantity := r.quantity - req.quantity } else r)) r = r := by
      intro r _
      simp only [Function.comp]
      by_cases hc : r.id = src.id
      · rw [if_pos hc, if_pos (show ({ r with quantity := r.quantity - req.quantity } :
          BinContent).id = ({ src with quantity := src.quantity - req.quantity } :
          BinContent).id from hc)]
        exact binContent_set_quantity_self r _
          (show r.quantity - req.quantity + req.quantity = r.quantity by omega)
      · rw [if_neg hc, if_neg (show ¬ (r.id = ({ src with
          quantity := src.quantity - req.quantity } : BinContent).id) from hc)]
    rw [List.map_congr_left hpt]
    simp
  · refine ⟨⟨s.next_id, srcBin.warehouse_id, src.bin_id, src.id,
      req.target_warehouse_id, tbid, req.quantity, none, "cancelled"⟩, ?_, rfl, rfl⟩
    show (s1.transfers.map (fun u => if u.id = s.next_id
      then { u with status := "cancelled" } else u)).find?
        (fun t => t.id == s.next_id) = _
    rw [find?_map_transfer_id _ (fun u => by split <;> rfl)]
    rw [htr1]
    rw [find?_append_none _ _ _
      (find?_fresh_tid_none s.transfers s.next_id hW.2.2.2.2.2.2.2.1)]
    rw [List.find?_cons_of_pos _ (by simp)]
    simp
  · refine ⟨⟨src.id, "transfer", -req.quantity, src.quantity,
      src.quantity - req.quantity, "cross_warehouse_out", none, false⟩,
      ⟨src.id, "transfer", req.quantity, src.quantity - req.quantity,
        src.quantity - req.quantity + req.quantity, "transfer_cancelled", none,
        false⟩, ?_, hsrcid, hsrcid,
      (show -req.quantity + req.quantity = 0 by omega)⟩
    show s1.movements ++ [_] = _
    rw [hmov1, List.append_assoc]
    rfl
/-- C8: a cross-warehouse transfer of quantity `q` followed by its
cancellation restores every `bin_contents` row, leaves the transfer in
terminal `cancelled` with `quantity_sent = q`, and appends exactly two
movement entries for the source row (outbound and reversal) whose signed
quantities sum to zero; and `cancel_transfer` errors from the terminal
`received` and `cancelled` states. -/
theorem C8_theorem (s : WhState) (req : CrossWarehouseTransferCreate)
    (tid : Nat) (s1 : WhState) (w : Nat) (s2 : WhState)
    (hW : WfState s)
    (h1 : create_cross_warehouse_transfer s req = (.ok tid, s1))
    (h2 : cancel_transfer s1 tid = (.ok w, s2)) :
    (s2.records = s.records ∧
      (∃ t, findTransfer s2 tid = some t ∧ t.status = "cancelled" ∧
        t.quantity_sent = req.quantity) ∧
      (∃ m1 m2, s2.movements = s.movements ++ [m1, m2] ∧
        m1.bin_content_id = req.source_bin_content_id ∧
        m2.bin_content_id = req.source_bin_content_id ∧
        m1.quantity + m2.quantity = 0)) ∧
    (∀ s0 : WhState, ∀ tid0 : Nat, ∀ u, findTransfer s0 tid0 = some u →
      (u.status = "received" →
        cancel_transfer s0 tid0 = (.error .transferAlreadyCompleted, s0)) ∧
      (u.status = "cancelled" →
        cancel_transfer s0 tid0 = (.error .transferAlreadyCancelled, s0))) := by
  constructor
  · unfold create_cross_warehouse_transfer at h1
    split at h1
    · simp at h1
    next src heqsrc =>
      split at h1
      · simp at h1
      next hna =>
        split at h1
        · simp at h1
        split at h1
        · simp at h1
        next srcBin heqsb =>
          split at h1
          · simp at h1
          next hnsame =>
            split at h1
            · simp at h1
            next tbid heqtb =>
              simp only [Prod.mk.injEq, Except.ok.injEq] at h1
              obtain ⟨htid, hs1⟩ := h1
              subst htid
              have hsrcm := findRecord_mem _ _ _ heqsrc
              have hfindsrc : findRecord s src.id = some src := by
                rw [hsrcm.2]; exact heqsrc
              subst hs1
              revert h2
              split
              · intro h2
                exact cancel_after_cross_aux s req src srcBin tbid hW hfindsrc
                  hsrcm.2 _ rfl rfl rfl w s2 h2
              · intro h2
                exact cancel_after_cross_aux s req src srcBin tbid hW hfindsrc
                  hsrcm.2 _ rfl rfl rfl w s2 h2
  · intro s0 tid0 u hfu
    constructor
    · intro hst
      unfold cancel_transfer
      rw [hfu]
      dsimp only
      rw [if_pos hst]
    · intro hst
      unfold cancel_transfer
      rw [hfu]
      dsimp only
      rw [if_neg (show ¬ (u.status = "received") by rw [hst]; decide)]
      rw [if_pos hst]
/-- Witness for C8: a 40-unit transfer out of `exCrossState` followed by its
cancellation. -/
theorem C8_witness :
    (((cancel_transfer exC8Mid 7).2.records = exCrossState.records ∧
      (∃ t, findTransfer (cancel_transfer exC8Mid 7).2 7 = some t ∧
        t.status = "cancelled" ∧ t.quantity_sent = 40) ∧
      (∃ m1 m2, (cancel_transfer exC8Mid 7).2.movements =
          exCrossState.movements ++ [m1, m2] ∧
        m1.bin_content_id = 1 ∧ m2.bin_content_id = 1 ∧
        m1.quantity + m2.quantity = 0)) ∧
    (∀ s0 : WhState, ∀ tid0 : Nat, ∀ u, findTransfer s0 tid0 = some u →
      (u.status = "received" →
        cancel_transfer s0 tid0 = (.error .transferAlreadyCompleted, s0)) ∧
      (u.status = "cancelled" →
        cancel_transfer s0 tid0 = (.error .transferAlreadyCancelled, s0)))) :=
  C8_theorem exCrossState ⟨1, 2, none, 40⟩ 7 exC8Mid 7
    (cancel_transfer exC8Mid 7).2 (by decide) (by decide) (by decide)
